import Mathlib

/-!
Verification of the peer-agnostic block-synchronization core
(`crates/p2p/src/client/peer_agnostic.rs`).

The Rust code is shallowly embedded: opaque wire payloads (transactions,
receipts, headers, class definitions, events, felt values, commitments,
peer ids) become `Nat`; fallible DTO parsing becomes an `Option` carried
on the wire item; `HashMap`/`HashSet` become association lists with
insert-or-replace semantics; the asynchronous response channels become
finite lists of responses; the infinite peer-refresh loop is run over a
finite list of peer attempts (an exhausted attempt list corresponds to
the real task still looping, flagged by a `false` termination bit).
All state mutation is explicit state passing.
-/

namespace PeerAgnostic

/-- Checked subtraction mirroring Rust's `u64::checked_sub` / `usize::checked_sub`. -/
def checkedSub (a b : Nat) : Option Nat :=
  if b ≤ a then some (a - b) else none

/-- Mirrors `PeerData<T>`: a value tagged with the peer that served it. -/
structure PeerData (T : Type) where
  peer : Nat
  data : T
deriving DecidableEq, Repr

/-- One iteration of the `for peer in get_peers()` loop: the peer id together
with the response script its request produces, or `none` when
`send_request` fails (the `Err` branch that `continue`s to the next peer). -/
structure Attempt (R : Type) where
  peer : Nat
  responses : Option (List R)

/-- Association-list insert with replace, mirroring `HashMap::insert`. -/
def assocInsert {α : Type} : List (Nat × α) → Nat → α → List (Nat × α)
  | [], k, v => [(k, v)]
  | (k', v') :: rest, k, v =>
    if k' = k then (k, v) :: rest else (k', v') :: assocInsert rest k v

/-- Association-list entry modification, mirroring
`map.entry(k).or_default()` followed by a mutation of the entry. -/
def assocModify {α : Type} : List (Nat × α) → Nat → (α → α) → α → List (Nat × α)
  | [], k, f, d => [(k, f d)]
  | (k', v') :: rest, k, f, d =>
    if k' = k then (k, f v') :: rest else (k', v') :: assocModify rest k f d

/-- Association-list lookup. -/
def lookupA {α : Type} : List (Nat × α) → Nat → Option α
  | [], _ => none
  | (k', v') :: rest, k => if k' = k then some v' else lookupA rest k

/-- Set insert mirroring `HashSet::insert`. -/
def insertSet (s : List Nat) (h : Nat) : List Nat :=
  if h ∈ s then s else s ++ [h]

/-- Mirrors `BlockProgress`: the remaining per-block item budget with a
checkpoint used for rollback. -/
structure BlockProgress where
  count : Nat
  count_backup : Nat
deriving DecidableEq, Repr

/-- Mirrors `BlockProgress::new`. -/
def BlockProgress.new (count : Nat) : BlockProgress :=
  { count := count, count_backup := count }

/-- Mirrors `BlockProgress::rollback`. -/
def BlockProgress.rollback (p : BlockProgress) : BlockProgress :=
  { p with count := p.count_backup }

/-- The operations the streamers perform on a `BlockProgress` counter:
a successful `checked_sub` decrement (or the guarded `*progress.as_mut() -= 1`),
`rollback()`, and the reset `*progress = BlockProgress::new(cnt)` when moving
to the next block.  A failed `checked_sub` writes nothing, so `decrement`
leaves the counter unchanged when the budget is insufficient. -/
inductive ProgressOp where
  | decrement (k : Nat)
  | rollback
  | reset (n : Nat)

/-- Effect of one streamer operation on a `BlockProgress`. -/
def BlockProgress.step (p : BlockProgress) : ProgressOp → BlockProgress
  | .decrement k =>
    match checkedSub p.count k with
    | some x => { p with count := x }
    | none => p
  | .rollback => p.rollback
  | .reset n => BlockProgress.new n

namespace transaction_stream

/-- Mirrors `TransactionStreamProgress`: the remaining transaction budget for
the current block, the expected commitment, and the rollback checkpoint. -/
structure TransactionStreamProgress where
  count : Nat
  commitment : Nat
  count_backup : Nat
deriving DecidableEq, Repr

/-- Mirrors `TransactionStreamProgress::new`. -/
def TransactionStreamProgress.new (cnt : Nat × Nat) : TransactionStreamProgress :=
  { count := cnt.1, commitment := cnt.2, count_backup := cnt.1 }

/-- Mirrors `TransactionStreamProgress::rollback`. -/
def TransactionStreamProgress.rollback (p : TransactionStreamProgress) :
    TransactionStreamProgress :=
  { p with count := p.count_backup }

/-- Streamer operations on a `TransactionStreamProgress`. -/
def TransactionStreamProgress.step (p : TransactionStreamProgress) :
    ProgressOp → TransactionStreamProgress
  | .decrement k =>
    match checkedSub p.count k with
    | some x => { p with count := x }
    | none => p
  | .rollback => p.rollback
  | .reset n => { count := n, commitment := p.commitment, count_backup := n }

/-- Mirrors `TransactionsResponse`: a transaction-with-receipt wire item
(`some` payload when both the transaction and the receipt parse, `none`
when either fails) or the `Fin` sentinel. -/
inductive TransactionsResponse where
  | transactionWithReceipt (parsed : Option Nat)
  | fin
deriving DecidableEq, Repr

/-- Mirrors the `Action` enum of the transaction streamer; `tryYield`
carries the parsed `(transaction, receipt index)` pair. -/
inductive Action where
  | nextPeer
  | terminateStream
  | tryYield (txn : Nat × Nat)
deriving DecidableEq, Repr

/-- Mirrors `transaction_stream::handle_response`. -/
def handle_response (response : TransactionsResponse)
    (progress : TransactionStreamProgress) (txn_idx : Nat) (is_last_block : Bool) :
    Action × TransactionStreamProgress :=
  match response with
  | .transactionWithReceipt parsed =>
    match parsed with
    | none => (.nextPeer, progress)
    | some t =>
      match checkedSub progress.count 1 with
      | some x => (.tryYield (t, txn_idx), { progress with count := x })
      | none => (.terminateStream, progress)
  | .fin =>
    if progress.count > 0 then (.nextPeer, progress)
    else if is_last_block then (.terminateStream, progress)
    else (.nextPeer, progress)

/-- Mirrors `UnverifiedTransactionData`. -/
structure UnverifiedTransactionData where
  expected_commitment : Nat
  transactions : List (Nat × Nat)
deriving DecidableEq, Repr

/-- An element of the transaction stream's output channel. -/
abbrev TxnOutput := PeerData (UnverifiedTransactionData × Nat)

/-- Result of `transaction_stream::try_yield`: the termination bit it returns,
the updated progress / expectation stream / accumulator / cursor, and the
artifacts pushed into the output channel. -/
structure TryYieldResult where
  terminate : Bool
  progress : TransactionStreamProgress
  expectations : List (Option (Nat × Nat))
  transactions : List (Nat × Nat)
  start : Nat
  sent : List TxnOutput
deriving DecidableEq, Repr

/-- Mirrors `transaction_stream::try_yield`.  The expectation stream is a
list whose `none` elements are `Err` items; polling past the end or hitting
an `Err` makes the streamer terminate. -/
def try_yield (peer : Nat) (progress : TransactionStreamProgress)
    (expectations : List (Option (Nat × Nat))) (transactions : List (Nat × Nat))
    (start stop : Nat) : TryYieldResult :=
  if progress.count = 0 then
    let out : TxnOutput := ⟨peer, (⟨progress.commitment, transactions⟩, start)⟩
    if start < stop then
      match expectations with
      | some x :: rest =>
        ⟨false, .new x, rest, [], start + 1, [out]⟩
      | none :: rest =>
        ⟨true, progress, rest, [], start + 1, [out]⟩
      | [] =>
        ⟨true, progress, [], [], start + 1, [out]⟩
    else
      ⟨false, progress, expectations, [], start, [out]⟩
  else
    ⟨false, progress, expectations, transactions, start, []⟩

/-- The task-owned state of the transaction streamer between responses:
the `(start, stop)` cursor, the unconsumed suffix of the expectation
stream, and the per-block progress counter. -/
structure TxnState where
  start : Nat
  stop : Nat
  expectations : List (Option (Nat × Nat))
  progress : TransactionStreamProgress
deriving DecidableEq, Repr

/-- How one peer attempt's response loop ends: `continue 'next_peer` or
`break 'outer`. -/
inductive AttemptExit where
  | nextPeer
  | terminateStream
deriving DecidableEq, Repr

/-- The state update a `try_yield` call leaves on the task: new progress,
remaining expectation stream and cursor. -/
def applyYield (st : TxnState) (r : TryYieldResult) : TxnState :=
  { st with progress := r.progress, expectations := r.expectations, start := r.start }

/-- The `while let Some(resp) = responses.next()` loop of one peer attempt,
including the post-loop `Fin missing` check.  Returns the artifacts sent,
the updated state, and how the attempt ended. -/
def runResponses (peer : Nat) :
    TxnState → List (Nat × Nat) → List TransactionsResponse →
    List TxnOutput × TxnState × AttemptExit
  | st, _, [] =>
    if st.progress.count = 0 ∧ st.start = st.stop then ([], st, .terminateStream)
    else ([], st, .nextPeer)
  | st, transactions, resp :: rest =>
    match handle_response resp st.progress transactions.length (st.start == st.stop) with
    | (.nextPeer, p) => ([], { st with progress := p }, .nextPeer)
    | (.terminateStream, p) => ([], { st with progress := p }, .terminateStream)
    | (.tryYield t, p) =>
      let txs := transactions ++ [t]
      let r := try_yield peer p st.expectations txs st.start st.stop
      if r.terminate then (r.sent, applyYield st r, .terminateStream)
      else
        let rec2 := runResponses peer (applyYield st r) r.transactions rest
        (r.sent ++ rec2.1, rec2.2)

/-- The peer iteration of the streamer task (both the `for peer` loop and the
outer refresh loop, flattened into one finite list of attempts).  The final
`Bool` is `true` when the task hit `break 'outer`; with the attempt list
exhausted the real task would keep refreshing the peer set, reported as
`false`. -/
def runPeers : TxnState → List (Attempt TransactionsResponse) →
    List TxnOutput × TxnState × Bool
  | st, [] => ([], st, false)
  | st, a :: rest =>
    match a.responses with
    | none => runPeers st rest
    | some resps =>
      let st0 := { st with progress := st.progress.rollback }
      let r := runResponses a.peer st0 [] resps
      match r.2.2 with
      | .terminateStream => (r.1, r.2.1, true)
      | .nextPeer =>
        let r2 := runPeers r.2.1 rest
        (r.1 ++ r2.1, r2.2)

/-- Mirrors `transaction_stream::make`: pull the first expectation, then run
the peer loop.  Returns the yielded artifacts and whether the task exited. -/
def make (start stop : Nat) (expectations : List (Option (Nat × Nat)))
    (attempts : List (Attempt TransactionsResponse)) : List TxnOutput × Bool :=
  match expectations with
  | some cnt :: rest =>
    let r := runPeers ⟨start, stop, rest, .new cnt⟩ attempts
    (r.1, r.2.2)
  | _ => ([], true)

end transaction_stream

/-- Mirrors `ContractClassUpdate`. -/
inductive ContractClassUpdate where
  | deploy (class_hash : Nat)
  | replace (class_hash : Nat)
deriving DecidableEq, Repr

/-- Mirrors `ContractUpdate` (the source field `class` is spelled
`class_update` here because `class` is a Lean keyword). -/
structure ContractUpdate where
  storage : List (Nat × Nat)
  nonce : Option Nat
  class_update : Option ContractClassUpdate
deriving DecidableEq, Repr

/-- Mirrors `ContractUpdate::default()`. -/
def ContractUpdate.empty : ContractUpdate := ⟨[], none, none⟩

/-- Mirrors `SystemContractUpdate`. -/
structure SystemContractUpdate where
  storage : List (Nat × Nat)
deriving DecidableEq, Repr

/-- Mirrors `SystemContractUpdate::default()`. -/
def SystemContractUpdate.empty : SystemContractUpdate := ⟨[]⟩

/-- Mirrors `StateUpdateData`. -/
structure StateUpdateData where
  contract_updates : List (Nat × ContractUpdate)
  system_contract_updates : List (Nat × SystemContractUpdate)
  declared_cairo_classes : List Nat
  declared_sierra_classes : List (Nat × Nat)
deriving DecidableEq, Repr

/-- Mirrors `StateUpdateData::default()`. -/
def StateUpdateData.empty : StateUpdateData := ⟨[], [], [], []⟩

/-- The distinguished system contract `ContractAddress::ONE`. -/
def systemAddress : Nat := 1

/-- Mirrors `StateDiffsResponse`: a `ContractDiff`, a `DeclaredClass`, or `Fin`.
Felt values are `Nat`; `values` is the list of `(key, value)` storage writes. -/
inductive StateDiffsResponse where
  | contractDiff (address : Nat) (nonce : Option Nat) (class_hash : Option Nat)
      (values : List (Nat × Nat))
  | declaredClass (class_hash : Nat) (compiled_class_hash : Option Nat)
  | fin
deriving DecidableEq, Repr

/-- Folding the `values` of a `ContractDiff` into a storage map, mirroring the
`values.into_iter().for_each(... storage.insert ...)` loop. -/
def foldStorage (storage : List (Nat × Nat)) (values : List (Nat × Nat)) : List (Nat × Nat) :=
  values.foldl (fun s kv => assocInsert s kv.1 kv.2) storage

/-- Merging a `ContractDiff`'s storage writes into
`state_diff.system_contract_updates[address].storage`. -/
def sdSysStorage (sd : StateUpdateData) (address : Nat) (values : List (Nat × Nat)) :
    StateUpdateData :=
  { sd with system_contract_updates :=
      (assocModify sd.system_contract_updates address
        (fun u => { u with storage := foldStorage u.storage values }) .empty) }

/-- Merging a `ContractDiff`'s storage writes into
`state_diff.contract_updates[address].storage`. -/
def sdStorage (sd : StateUpdateData) (address : Nat) (values : List (Nat × Nat)) :
    StateUpdateData :=
  { sd with contract_updates :=
      (assocModify sd.contract_updates address
        (fun u => { u with storage := foldStorage u.storage values }) .empty) }

/-- Mirrors `update.nonce = Some(ContractNonce(nonce))` on the entry at `address`. -/
def sdNonce (sd : StateUpdateData) (address nonce : Nat) : StateUpdateData :=
  { sd with contract_updates :=
      (assocModify sd.contract_updates address (fun u => { u with nonce := some nonce }) .empty) }

/-- Mirrors `update.class = Some(ContractClassUpdate::Deploy(class_hash))`. -/
def sdDeploy (sd : StateUpdateData) (address class_hash : Nat) : StateUpdateData :=
  { sd with contract_updates :=
      (assocModify sd.contract_updates address
        (fun u => { u with class_update := some (.deploy class_hash) }) .empty) }

/-- Mirrors the `DeclaredClass` insertion: Sierra map when a compiled class
hash is present, Cairo-zero set otherwise. -/
def sdDeclared (sd : StateUpdateData) (class_hash : Nat) (compiled : Option Nat) :
    StateUpdateData :=
  match compiled with
  | some c =>
    { sd with declared_sierra_classes := assocInsert sd.declared_sierra_classes class_hash c }
  | none =>
    { sd with declared_cairo_classes := insertSet sd.declared_cairo_classes class_hash }

namespace state_diff_stream

/-- Mirrors `StateDiffStreamProgress`. -/
structure StateDiffStreamProgress where
  count : Nat
  commitment : Nat
  count_backup : Nat
deriving DecidableEq, Repr

/-- Mirrors `StateDiffStreamProgress::new`. -/
def StateDiffStreamProgress.new (cnt : Nat × Nat) : StateDiffStreamProgress :=
  { count := cnt.1, commitment := cnt.2, count_backup := cnt.1 }

/-- Mirrors `StateDiffStreamProgress::rollback`. -/
def StateDiffStreamProgress.rollback (p : StateDiffStreamProgress) :
    StateDiffStreamProgress :=
  { p with count := p.count_backup }

/-- Mirrors the `Action` enum of the state-diff streamer. -/
inductive Action where
  | nextPeer
  | terminateStream
  | tryYield
deriving DecidableEq, Repr

/-- The `class_hash` stage at the end of the non-system `ContractDiff` branch
of `state_diff_stream::handle_response`. -/
def classStage (sd : StateUpdateData) (p : StateDiffStreamProgress)
    (address : Nat) (class_hash : Option Nat) :
    Action × StateUpdateData × StateDiffStreamProgress :=
  match class_hash with
  | none => (.tryYield, sd, p)
  | some ch =>
    match checkedSub p.count 1 with
    | none => (.terminateStream, sd, p)
    | some y => (.tryYield, sdDeploy sd address ch, { p with count := y })

/-- Mirrors `state_diff_stream::handle_response`.  Note that for the system
contract (address 1) only the storage writes are processed: the `nonce` and
`class_hash` fields are handled in the `else` branch of the source only. -/
def handle_response (response : StateDiffsResponse) (state_diff : StateUpdateData)
    (progress : StateDiffStreamProgress) (is_last_block : Bool) :
    Action × StateUpdateData × StateDiffStreamProgress :=
  match response with
  | .contractDiff address nonce class_hash values =>
    match checkedSub progress.count values.length with
    | none => (.terminateStream, state_diff, progress)
    | some x =>
      let p1 := { progress with count := x }
      if address = systemAddress then
        (.tryYield, sdSysStorage state_diff address values, p1)
      else
        let sd1 := sdStorage state_diff address values
        match nonce with
        | some n =>
          match checkedSub p1.count 1 with
          | none => (.terminateStream, sd1, p1)
          | some y =>
            classStage (sdNonce sd1 address n) { p1 with count := y } address class_hash
        | none => classStage sd1 p1 address class_hash
  | .declaredClass class_hash compiled_class_hash =>
    let sd := sdDeclared state_diff class_hash compiled_class_hash
    match checkedSub progress.count 1 with
    | some x => (.tryYield, sd, { progress with count := x })
    | none => (.terminateStream, sd, progress)
  | .fin =>
    if progress.count > 0 then (.nextPeer, state_diff, progress)
    else if is_last_block then (.terminateStream, state_diff, progress)
    else (.tryYield, state_diff, progress)

/-- Mirrors `UnverifiedStateUpdateData`. -/
structure UnverifiedStateUpdateData where
  expected_commitment : Nat
  state_diff : StateUpdateData
deriving DecidableEq, Repr

/-- An element of the state-diff stream's output channel. -/
abbrev SdOutput := PeerData (UnverifiedStateUpdateData × Nat)

/-- Result of `state_diff_stream::try_yield`, analogous to the transaction
streamer's. -/
structure TryYieldResult where
  terminate : Bool
  progress : StateDiffStreamProgress
  expectations : List (Option (Nat × Nat))
  state_diff : StateUpdateData
  start : Nat
  sent : List SdOutput
deriving DecidableEq, Repr

/-- Mirrors `state_diff_stream::try_yield` (the yielded state diff is taken
out of the accumulator by `std::mem::take`). -/
def try_yield (peer : Nat) (progress : StateDiffStreamProgress)
    (expectations : List (Option (Nat × Nat))) (state_diff : StateUpdateData)
    (start stop : Nat) : TryYieldResult :=
  if progress.count = 0 then
    let out : SdOutput := ⟨peer, (⟨progress.commitment, state_diff⟩, start)⟩
    if start < stop then
      match expectations with
      | some x :: rest => ⟨false, .new x, rest, .empty, start + 1, [out]⟩
      | none :: rest => ⟨true, progress, rest, .empty, start + 1, [out]⟩
      | [] => ⟨true, progress, [], .empty, start + 1, [out]⟩
    else
      ⟨false, progress, expectations, .empty, start, [out]⟩
  else
    ⟨false, progress, expectations, state_diff, start, []⟩

/-- The task-owned state of the state-diff streamer between responses. -/
structure SdState where
  start : Nat
  stop : Nat
  expectations : List (Option (Nat × Nat))
  progress : StateDiffStreamProgress
deriving DecidableEq, Repr

/-- How one peer attempt's response loop ends. -/
inductive AttemptExit where
  | nextPeer
  | terminateStream
deriving DecidableEq, Repr

/-- The state update a `try_yield` call leaves on the task. -/
def applyYield (st : SdState) (r : TryYieldResult) : SdState :=
  { st with progress := r.progress, expectations := r.expectations, start := r.start }

/-- The response loop of one peer attempt of the state-diff streamer,
including the post-loop `Fin missing` check. -/
def runResponses (peer : Nat) :
    SdState → StateUpdateData → List StateDiffsResponse →
    List SdOutput × SdState × AttemptExit
  | st, _, [] =>
    if st.progress.count = 0 ∧ st.start = st.stop then ([], st, .terminateStream)
    else ([], st, .nextPeer)
  | st, state_diff, resp :: rest =>
    match handle_response resp state_diff st.progress (st.start == st.stop) with
    | (.nextPeer, _, p) => ([], { st with progress := p }, .nextPeer)
    | (.terminateStream, _, p) => ([], { st with progress := p }, .terminateStream)
    | (.tryYield, sd, p) =>
      let r := try_yield peer p st.expectations sd st.start st.stop
      if r.terminate then (r.sent, applyYield st r, .terminateStream)
      else
        let rec2 := runResponses peer (applyYield st r) r.state_diff rest
        (r.sent ++ rec2.1, rec2.2)

/-- The flattened peer iteration of the state-diff streamer task.  Each
attempt starts with a fresh `StateUpdateData::default()` accumulator and a
`progress.rollback()`. -/
def runPeers : SdState → List (Attempt StateDiffsResponse) →
    List SdOutput × SdState × Bool
  | st, [] => ([], st, false)
  | st, a :: rest =>
    match a.responses with
    | none => runPeers st rest
    | some resps =>
      let st0 := { st with progress := st.progress.rollback }
      let r := runResponses a.peer st0 .empty resps
      match r.2.2 with
      | .terminateStream => (r.1, r.2.1, true)
      | .nextPeer =>
        let r2 := runPeers r.2.1 rest
        (r.1 ++ r2.1, r2.2)

/-- Mirrors `state_diff_stream::make`. -/
def make (start stop : Nat) (expectations : List (Option (Nat × Nat)))
    (attempts : List (Attempt StateDiffsResponse)) : List SdOutput × Bool :=
  match expectations with
  | some cnt :: rest =>
    let r := runPeers ⟨start, stop, rest, .new cnt⟩ attempts
    (r.1, r.2.2)
  | _ => ([], true)

end state_diff_stream

namespace event_stream

/-- Mirrors `EventsResponse`: an event wire item carrying its transaction
hash (extracted before parsing) and the parsed event payload (`none` when
`Event::try_from_dto` fails), or the `Fin` sentinel. -/
inductive EventsResponse where
  | event (txn_hash : Nat) (parsed : Option Nat)
  | fin
deriving DecidableEq, Repr

/-- Outcome of `event_stream::handle_response`: `nextPeer` when it returns
`true`, `ok` with the updated `current_txn` and accumulator when it returns
`false`, and `panicked` when `events.last_mut().expect("not empty")` is
reached with an empty accumulator. -/
inductive HandleRes where
  | nextPeer
  | panicked
  | ok (current_txn : Option Nat) (events : List (Nat × List Nat))
deriving DecidableEq, Repr

/-- Mirrors `event_stream::handle_response`. -/
def handle_response (response : EventsResponse) (current_txn : Option Nat)
    (events : List (Nat × List Nat)) : HandleRes :=
  match response with
  | .event txn_hash parsed =>
    match parsed with
    | none => .nextPeer
    | some ev =>
      match current_txn with
      | some x =>
        if x = txn_hash then
          match events.getLast? with
          | some last => .ok current_txn (events.dropLast ++ [(last.1, last.2 ++ [ev])])
          | none => .panicked
        else .ok (some txn_hash) (events ++ [(txn_hash, [ev])])
      | none => .ok (some txn_hash) (events ++ [(txn_hash, [ev])])
  | .fin => .nextPeer

/-- An element of the event stream's output channel
(`EventsForBlockByTransaction`). -/
abbrev EvOutput := PeerData (Nat × List (Nat × List Nat))

/-- Outcome of the `while progress.get() > 0` inner loop of one block. -/
inductive InnerRes where
  | nextPeer (remaining : Nat)
  | panicked
  | completed (events : List (Nat × List Nat)) (current_txn : Option Nat)
      (rest : List EventsResponse)
deriving DecidableEq, Repr

/-- The `while progress.get() > 0` loop: consume one response per remaining
expected event; `handle_response` returning `true` or an exhausted response
channel moves to the next peer. -/
def innerLoop (peer : Nat) : Nat → Option Nat → List (Nat × List Nat) →
    List EventsResponse → InnerRes
  | 0, current_txn, events, resps => .completed events current_txn resps
  | n + 1, current_txn, events, resps =>
    match resps with
    | [] => .nextPeer (n + 1)
    | r :: rest =>
      match handle_response r current_txn events with
      | .nextPeer => .nextPeer (n + 1)
      | .panicked => .panicked
      | .ok txn' events' => innerLoop peer n txn' events' rest

/-- Outcome of the `while start <= stop` block loop of one peer attempt.
On termination it reports the final cursor and the unconsumed count stream;
on `nextPeer` it reports the state the outer loop continues from. -/
inductive BlockLoopRes where
  | terminated (outs : List EvOutput) (start : Nat) (counts : List (Option Nat))
  | panicked (outs : List EvOutput)
  | nextPeer (outs : List EvOutput) (start : Nat) (progress : BlockProgress)
      (counts : List (Option Nat))
deriving DecidableEq, Repr

/-- Prepending the current block's artifact to the rest of a block loop's
outcome. -/
def BlockLoopRes.prepend (out : EvOutput) : BlockLoopRes → BlockLoopRes
  | .terminated outs s c => .terminated (out :: outs) s c
  | .panicked outs => .panicked (out :: outs)
  | .nextPeer outs s p c => .nextPeer (out :: outs) s p c

/-- The `while start <= stop` loop of one peer attempt: each iteration
accumulates one block's events into a fresh accumulator, yields the block,
and advances.  The `current_txn` marker persists across blocks within the
attempt.  Structural recursion on the count stream (one element consumed
per non-final block); the count-stream poll that the source performs after
yielding a non-final block is expressed by splitting on the head of the
count stream up front, which does not change any other step. -/
def blockLoop (peer stop : Nat) : List (Option Nat) → Nat → BlockProgress →
    Option Nat → List EventsResponse → BlockLoopRes
  | some cnt :: counts', start, progress, current_txn, resps =>
    if start ≤ stop then
      match innerLoop peer progress.count current_txn [] resps with
      | .nextPeer remaining =>
        .nextPeer [] start { progress with count := remaining } (some cnt :: counts')
      | .panicked => .panicked []
      | .completed events txn' rest =>
        if start = stop then .terminated [⟨peer, (start, events)⟩] start (some cnt :: counts')
        else
          BlockLoopRes.prepend ⟨peer, (start, events)⟩
            (blockLoop peer stop counts' (start + 1) (BlockProgress.new cnt) txn' rest)
    else .terminated [] start (some cnt :: counts')
  | counts, start, progress, current_txn, resps =>
    if start ≤ stop then
      match innerLoop peer progress.count current_txn [] resps with
      | .nextPeer remaining =>
        .nextPeer [] start { progress with count := remaining } counts
      | .panicked => .panicked []
      | .completed events _ _ =>
        if start = stop then .terminated [⟨peer, (start, events)⟩] start counts
        else .terminated [⟨peer, (start, events)⟩] start counts.tail
    else .terminated [] start counts

/-- The task-owned state of the event streamer between peer attempts. -/
structure EvState where
  start : Nat
  stop : Nat
  counts : List (Option Nat)
  progress : BlockProgress
deriving DecidableEq, Repr

/-- How the event streamer task ends over a finite attempt list. -/
inductive EvExit where
  | terminated
  | panicked
  | peersExhausted
deriving DecidableEq, Repr

/-- The flattened peer iteration of the event streamer task: each attempt
resets `current_txn` to `None` and rolls the progress counter back. -/
def runPeers : EvState → List (Attempt EventsResponse) →
    List EvOutput × EvState × EvExit
  | st, [] => ([], st, .peersExhausted)
  | st, a :: rest =>
    match a.responses with
    | none => runPeers st rest
    | some resps =>
      match blockLoop a.peer st.stop st.counts st.start st.progress.rollback none resps with
      | .terminated outs s c => (outs, { st with start := s, counts := c }, .terminated)
      | .panicked outs => (outs, st, .panicked)
      | .nextPeer outs s p c =>
        let r2 := runPeers { st with start := s, progress := p, counts := c } rest
        (outs ++ r2.1, r2.2)

/-- Mirrors `event_stream::make`: pull the first event count, then run the
peer loop. -/
def make (start stop : Nat) (counts : List (Option Nat))
    (attempts : List (Attempt EventsResponse)) : List EvOutput × EvExit :=
  match counts with
  | some cnt :: rest =>
    let r := runPeers ⟨start, stop, rest, BlockProgress.new cnt⟩ attempts
    (r.1, r.2.2)
  | _ => ([], .terminated)

end event_stream

namespace class_definition_stream

/-- Mirrors `ClassesResponse`: a Cairo-zero or Sierra class definition wire
item (`none` when the definition fails to parse) or the `Fin` sentinel. -/
inductive ClassesResponse where
  | cairo0 (parsed : Option Nat)
  | cairo1 (parsed : Option Nat)
  | fin
deriving DecidableEq, Repr

/-- Mirrors `ClassDefinition`: a parsed class definition carrying its block
number. -/
inductive ClassDefinition where
  | cairo (block_number : Nat) (definition : Nat)
  | sierra (block_number : Nat) (sierra_definition : Nat)
deriving DecidableEq, Repr

/-- Mirrors `class_definition_stream::handle_response`: `none` means the
caller moves to the next peer (parse failure, or `Fin` while the block is
still incomplete). -/
def handle_response (response : ClassesResponse) (block_number : Nat) :
    Option ClassDefinition :=
  match response with
  | .cairo0 parsed =>
    match parsed with
    | none => none
    | some d => some (.cairo block_number d)
  | .cairo1 parsed =>
    match parsed with
    | none => none
    | some d => some (.sierra block_number d)
  | .fin => none

/-- An element of the class stream's output channel. -/
abbrev ClsOutput := PeerData ClassDefinition

/-- Outcome of the `while progress.get() > 0` inner loop of one block. -/
inductive InnerRes where
  | nextPeer (remaining : Nat)
  | completed (defs : List ClassDefinition) (rest : List ClassesResponse)
deriving DecidableEq, Repr

/-- The inner per-block loop: one response consumed and one budget unit
spent per parsed class definition. -/
def innerLoop (block_number : Nat) : Nat → List ClassDefinition →
    List ClassesResponse → InnerRes
  | 0, defs, resps => .completed defs resps
  | n + 1, defs, resps =>
    match resps with
    | [] => .nextPeer (n + 1)
    | r :: rest =>
      match handle_response r block_number with
      | none => .nextPeer (n + 1)
      | some d => innerLoop block_number n (defs ++ [d]) rest

/-- Outcome of the `while start <= stop` block loop of one peer attempt. -/
inductive BlockLoopRes where
  | terminated (outs : List ClsOutput) (start : Nat) (counts : List (Option Nat))
  | nextPeer (outs : List ClsOutput) (start : Nat) (progress : BlockProgress)
      (counts : List (Option Nat))
deriving DecidableEq, Repr

/-- Prepending the current block's flushed artifacts to the rest of a block
loop's outcome. -/
def BlockLoopRes.prepend (outs : List ClsOutput) : BlockLoopRes → BlockLoopRes
  | .terminated outs2 s c => .terminated (outs ++ outs2) s c
  | .nextPeer outs2 s p c => .nextPeer (outs ++ outs2) s p c

/-- The `while start <= stop` loop of one peer attempt: a full block of
class definitions is pre-accumulated, then flushed one artifact per class
(`yield_block`), then the cursor advances. -/
def blockLoop (peer stop : Nat) : List (Option Nat) → Nat → BlockProgress →
    List ClassesResponse → BlockLoopRes
  | some cnt :: counts', start, progress, resps =>
    if start ≤ stop then
      match innerLoop start progress.count [] resps with
      | .nextPeer remaining =>
        .nextPeer [] start { progress with count := remaining } (some cnt :: counts')
      | .completed defs rest =>
        if start = stop then
          .terminated (defs.map (fun d => ⟨peer, d⟩)) start (some cnt :: counts')
        else
          BlockLoopRes.prepend (defs.map (fun d => ⟨peer, d⟩))
            (blockLoop peer stop counts' (start + 1) (BlockProgress.new cnt) rest)
    else .terminated [] start (some cnt :: counts')
  | counts, start, progress, resps =>
    if start ≤ stop then
      match innerLoop start progress.count [] resps with
      | .nextPeer remaining =>
        .nextPeer [] start { progress with count := remaining } counts
      | .completed defs _ =>
        if start = stop then .terminated (defs.map (fun d => ⟨peer, d⟩)) start counts
        else .terminated (defs.map (fun d => ⟨peer, d⟩)) start counts.tail
    else .terminated [] start counts

/-- The task-owned state of the class streamer between peer attempts. -/
structure ClsState where
  start : Nat
  stop : Nat
  counts : List (Option Nat)
  progress : BlockProgress
deriving DecidableEq, Repr

/-- The flattened peer iteration of the class streamer task. -/
def runPeers : ClsState → List (Attempt ClassesResponse) →
    List ClsOutput × ClsState × Bool
  | st, [] => ([], st, false)
  | st, a :: rest =>
    match a.responses with
    | none => runPeers st rest
    | some resps =>
      match blockLoop a.peer st.stop st.counts st.start st.progress.rollback resps with
      | .terminated outs s c => (outs, { st with start := s, counts := c }, true)
      | .nextPeer outs s p c =>
        let r2 := runPeers { st with start := s, progress := p, counts := c } rest
        (outs ++ r2.1, r2.2)

/-- Mirrors `class_definition_stream::make`. -/
def make (start stop : Nat) (counts : List (Option Nat))
    (attempts : List (Attempt ClassesResponse)) : List ClsOutput × Bool :=
  match counts with
  | some cnt :: rest =>
    let r := runPeers ⟨start, stop, rest, BlockProgress.new cnt⟩ attempts
    (r.1, r.2.2)
  | _ => ([], true)

end class_definition_stream

/-- Mirrors `p2p_proto::common::Direction`. -/
inductive Direction where
  | forward
  | backward
deriving DecidableEq, Repr

namespace header_stream

/-- Mirrors `BlockHeadersResponse`: a header wire item (`none` when
`SignedBlockHeader::try_from_dto` fails) or the `Fin` sentinel. -/
inductive BlockHeadersResponse where
  | header (parsed : Option Nat)
  | fin
deriving DecidableEq, Repr

/-- Mirrors the `Action` enum of the header streamer. -/
inductive Action where
  | nextResponse
  | nextPeer
  | terminateStream
deriving DecidableEq, Repr

/-- Mirrors `header_stream::done`: the walk is finished once the cursor has
passed the stop bound in the walk direction. -/
def done (direction : Direction) (start stop : Int) : Bool :=
  match direction with
  | .forward => start > stop
  | .backward => start < stop

/-- Mirrors `header_stream::handle_response`: returns the action, the updated
cursor, and the headers published to the channel (published immediately,
before the cursor advances by one in the walk direction). -/
def handle_response (peer : Nat) (signed_header : BlockHeadersResponse)
    (direction : Direction) (start stop : Int) :
    Action × Int × List (PeerData Nat) :=
  match signed_header with
  | .header parsed =>
    match parsed with
    | some hdr =>
      if done direction start stop then (.terminateStream, start, [])
      else
        let start' := match direction with
          | .forward => start + 1
          | .backward => start - 1
        (.nextResponse, start', [⟨peer, hdr⟩])
    | none =>
      if done direction start stop then (.terminateStream, start, [])
      else (.nextPeer, start, [])
  | .fin =>
    if done direction start stop then (.terminateStream, start, [])
    else (.nextPeer, start, [])

/-- How one header peer attempt ends. -/
inductive AttemptExit where
  | nextPeer
  | terminateStream
deriving DecidableEq, Repr

/-- The response loop of one header peer attempt, including the post-loop
`done` check (`Header stream Fin missing`). -/
def runResponses (peer : Nat) (direction : Direction) (stop : Int) :
    Int → List BlockHeadersResponse →
    List (PeerData Nat) × Int × AttemptExit
  | start, [] =>
    if done direction start stop then ([], start, .terminateStream)
    else ([], start, .nextPeer)
  | start, r :: rest =>
    match handle_response peer r direction start stop with
    | (.nextResponse, s', outs) =>
      let r2 := runResponses peer direction stop s' rest
      (outs ++ r2.1, r2.2)
    | (.nextPeer, s', _) => ([], s', .nextPeer)
    | (.terminateStream, s', _) => ([], s', .terminateStream)

/-- The flattened peer iteration of the header streamer task. -/
def runPeers (direction : Direction) (stop : Int) :
    Int → List (Attempt BlockHeadersResponse) →
    List (PeerData Nat) × Int × Bool
  | start, [] => ([], start, false)
  | start, a :: rest =>
    match a.responses with
    | none => runPeers direction stop start rest
    | some resps =>
      let r := runResponses a.peer direction stop start resps
      match r.2.2 with
      | .terminateStream => (r.1, r.2.1, true)
      | .nextPeer =>
        let r2 := runPeers direction stop r.2.1 rest
        (r.1 ++ r2.1, r2.2)

/-- Mirrors `header_stream::make`: for `reverse` the walk runs from `stop`
down to `start` with `Direction::Backward`, otherwise from `start` up to
`stop` with `Direction::Forward`. -/
def make (start stop : Nat) (reverse : Bool)
    (attempts : List (Attempt BlockHeadersResponse)) :
    List (PeerData Nat) × Int × Bool :=
  match reverse with
  | true => runPeers .backward (start : Int) (stop : Int) attempts
  | false => runPeers .forward (stop : Int) (start : Int) attempts

end header_stream

namespace block_client

/-- Result of `Client::state_diff_for_block`'s per-peer loop body:
a typed error naming the peer, a successful assembly, or an exhausted
response stream (which falls through to the next peer). -/
inductive SdLoopRes where
  | incorrectStateDiffCount (peer : Nat)
  | okSome (peer : Nat) (state_diff : StateUpdateData)
  | streamExhausted
deriving DecidableEq, Repr

/-- The `class_hash` stage of the non-system `ContractDiff` branch of
`state_diff_for_block`: the count is checked before the deploy is recorded. -/
def sdfbClassStage (count : Nat) (sd : StateUpdateData)
    (address : Nat) (class_hash : Option Nat) : Option (Nat × StateUpdateData) :=
  match class_hash with
  | none => some (count, sd)
  | some ch =>
    match checkedSub count 1 with
    | none => none
    | some y => some (y, sdDeploy sd address ch)

/-- The `while let Some(resp) = stream.next()` loop of
`Client::state_diff_for_block` for one peer: counts are enforced by
`checked_sub`, `Fin` with a nonzero remainder is an error, `Fin` with the
count exhausted returns the assembled state diff. -/
def sdForBlockLoop (peer : Nat) : Nat → StateUpdateData →
    List StateDiffsResponse → SdLoopRes
  | _, _, [] => .streamExhausted
  | count, sd, r :: rest =>
    match r with
    | .contractDiff address nonce class_hash values =>
      match checkedSub count values.length with
      | none => .incorrectStateDiffCount peer
      | some c1 =>
        if address = systemAddress then
          sdForBlockLoop peer c1 (sdSysStorage sd address values) rest
        else
          let sd1 := sdStorage sd address values
          match nonce with
          | some n =>
            match checkedSub c1 1 with
            | none => .incorrectStateDiffCount peer
            | some c2 =>
              match sdfbClassStage c2 (sdNonce sd1 address n) address class_hash with
              | none => .incorrectStateDiffCount peer
              | some (c3, sd3) => sdForBlockLoop peer c3 sd3 rest
          | none =>
            match sdfbClassStage c1 sd1 address class_hash with
            | none => .incorrectStateDiffCount peer
            | some (c3, sd3) => sdForBlockLoop peer c3 sd3 rest
    | .declaredClass class_hash compiled_class_hash =>
      match checkedSub count 1 with
      | none => .incorrectStateDiffCount peer
      | some c1 => sdForBlockLoop peer c1 (sdDeclared sd class_hash compiled_class_hash) rest
    | .fin =>
      if count ≠ 0 then .incorrectStateDiffCount peer
      else .okSome peer sd

/-- Result of `Client::state_diff_for_block` as a whole. -/
inductive SdForBlockResult where
  | err (peer : Nat)
  | okSome (peer : Nat) (state_diff : StateUpdateData)
  | okNone
deriving DecidableEq, Repr

/-- Mirrors `Client::state_diff_for_block`: iterate peers (send failures are
skipped), run the per-peer loop with a fresh count and accumulator, and
return the first decisive outcome; with all peers exhausted, `Ok(None)`. -/
def state_diff_for_block (state_diff_length : Nat) :
    List (Attempt StateDiffsResponse) → SdForBlockResult
  | [] => .okNone
  | a :: rest =>
    match a.responses with
    | none => state_diff_for_block state_diff_length rest
    | some resps =>
      match sdForBlockLoop a.peer state_diff_length .empty resps with
      | .streamExhausted => state_diff_for_block state_diff_length rest
      | .incorrectStateDiffCount p => .err p
      | .okSome p sd => .okSome p sd

/-- Result of `Client::class_definitions_for_block`'s per-peer loop body.
The source returns from inside the loop for every error, and also returns
(`Ok` or `IncorrectClassDefinitionCount`) after the loop, so there is no
fall-through to the next peer once a response stream was obtained. -/
inductive ClsLoopRes where
  | cairoDefinitionError (peer : Nat)
  | sierraDefinitionError (peer : Nat)
  | incorrectClassDefinitionCount (peer : Nat)
  | okSome (peer : Nat) (defs : List class_definition_stream.ClassDefinition)
deriving DecidableEq, Repr

/-- The response loop of `Client::class_definitions_for_block` for one peer:
parse errors are typed per kind, every parsed definition is pushed and then
the count is decremented (underflow is `IncorrectClassDefinitionCount`),
`Fin` (or an exhausted stream) triggers the final remainder check. -/
def classesForBlockLoop (peer block : Nat) : Nat →
    List class_definition_stream.ClassDefinition → List class_definition_stream.ClassesResponse →
    ClsLoopRes
  | count, defs, [] =>
    if count ≠ 0 then .incorrectClassDefinitionCount peer else .okSome peer defs
  | count, defs, r :: rest =>
    match r with
    | .cairo0 parsed =>
      match parsed with
      | none => .cairoDefinitionError peer
      | some d =>
        match checkedSub count 1 with
        | none => .incorrectClassDefinitionCount peer
        | some c => classesForBlockLoop peer block c (defs ++ [.cairo block d]) rest
    | .cairo1 parsed =>
      match parsed with
      | none => .sierraDefinitionError peer
      | some d =>
        match checkedSub count 1 with
        | none => .incorrectClassDefinitionCount peer
        | some c => classesForBlockLoop peer block c (defs ++ [.sierra block d]) rest
    | .fin =>
      if count ≠ 0 then .incorrectClassDefinitionCount peer else .okSome peer defs

/-- Result of `Client::class_definitions_for_block` as a whole, with one
constructor per typed error of `ClassDefinitionsError`. -/
inductive ClsForBlockResult where
  | errCairo (peer : Nat)
  | errSierra (peer : Nat)
  | errCount (peer : Nat)
  | okSome (peer : Nat) (defs : List class_definition_stream.ClassDefinition)
  | okNone
deriving DecidableEq, Repr

/-- Mirrors `Client::class_definitions_for_block`: iterate peers (send
failures are skipped); once a response stream is obtained every loop
outcome is returned to the caller. -/
def class_definitions_for_block (block declared_classes_count : Nat) :
    List (Attempt class_definition_stream.ClassesResponse) → ClsForBlockResult
  | [] => .okNone
  | a :: rest =>
    match a.responses with
    | none => class_definitions_for_block block declared_classes_count rest
    | some resps =>
      match classesForBlockLoop a.peer block declared_classes_count [] resps with
      | .cairoDefinitionError p => .errCairo p
      | .sierraDefinitionError p => .errSierra p
      | .incorrectClassDefinitionCount p => .errCount p
      | .okSome p ds => .okSome p ds

/-- Whether a state-diff wire item is the `Fin` sentinel. -/
def isFinSd : StateDiffsResponse → Bool
  | .fin => true
  | _ => false

/-- How many units of `state_diff_length` one state-diff wire item consumes
in `state_diff_for_block`: each storage value one, plus one per nonce and
one per deployed class on non-system addresses, and one per declared
class. -/
def sdCost : StateDiffsResponse → Nat
  | .contractDiff a n ch vs =>
    vs.length +
      (if a = systemAddress then 0
       else (match n with | some _ => 1 | none => 0) +
         (match ch with | some _ => 1 | none => 0))
  | .declaredClass _ _ => 1
  | .fin => 0

/-- The wire items a peer's response stream delivers before its first
`Fin` (all of it when no `Fin` is sent). -/
def sdItems (R : List StateDiffsResponse) : List StateDiffsResponse :=
  R.takeWhile (fun r => !isFinSd r)

/-- Whether the response stream contains a `Fin` sentinel. -/
def hasFinSd (R : List StateDiffsResponse) : Bool :=
  R.any isFinSd

/-- Total count consumed by the items before the first `Fin`. -/
def sdCostSum (R : List StateDiffsResponse) : Nat :=
  ((sdItems R).map sdCost).sum

/-- Whether a classes wire item is the `Fin` sentinel. -/
def isFinCls : class_definition_stream.ClassesResponse → Bool
  | .fin => true
  | _ => false

/-- The class wire items before the first `Fin`. -/
def clsItems (R : List class_definition_stream.ClassesResponse) :
    List class_definition_stream.ClassesResponse :=
  R.takeWhile (fun r => !isFinCls r)

/-- Whether a classes wire item parses (`Fin` trivially does). -/
def clsParsed : class_definition_stream.ClassesResponse → Bool
  | .cairo0 p => p.isSome
  | .cairo1 p => p.isSome
  | .fin => true

/-- A class wire item that is a definition and parses. -/
def clsGood : class_definition_stream.ClassesResponse → Bool
  | .cairo0 p => p.isSome
  | .cairo1 p => p.isSome
  | .fin => false

end block_client

/-- Mirrors `Client::get_random_peers`.  The lock-and-TTL protocol is
abstracted into the two cache reads it can observe: `readCache` is what
`get()` under the read lock returns, `writeCache` what the re-check under
the write lock returns.  `shuffle` stands for `SliceRandom::shuffle` with
the thread rng, `closest` for the `get_closest_peers` result and `selfId`
for `self.inner.peer_id()`.  Returns the peer vector handed to the caller
and the peer set installed into the cache (when the refresh path ran). -/
def get_random_peers (shuffle : List Nat → List Nat)
    (readCache writeCache : Option (List Nat)) (closest : List Nat) (selfId : Nat) :
    List Nat × Option (List Nat) :=
  match readCache with
  | some peers => (shuffle peers, none)
  | none =>
    match writeCache with
    | some peers => (peers, none)
    | none =>
      let peers := closest.filter (fun p => p ≠ selfId)
      (shuffle peers, some peers)

/-! ### Lemmas about the progress counters -/

lemma BlockProgress.step_inv {p : BlockProgress} (op : ProgressOp)
    (h : p.count ≤ p.count_backup) :
    (p.step op).count ≤ (p.step op).count_backup := by
  cases op with
  | decrement k =>
    by_cases hk : k ≤ p.count <;>
      simp only [BlockProgress.step, checkedSub, hk, if_true, if_false, reduceIte] <;> omega
  | rollback => simp [BlockProgress.step, BlockProgress.rollback]
  | reset n => simp [BlockProgress.step, BlockProgress.new]

lemma BlockProgress.foldl_step_inv :
    ∀ (ops : List ProgressOp) (p : BlockProgress), p.count ≤ p.count_backup →
      (ops.foldl BlockProgress.step p).count ≤ (ops.foldl BlockProgress.step p).count_backup
  | [], _, h => h
  | op :: ops, p, h =>
    BlockProgress.foldl_step_inv ops (p.step op) (BlockProgress.step_inv op h)

lemma TransactionStreamProgress.tsp_step_inv {p : transaction_stream.TransactionStreamProgress}
    (op : ProgressOp) (h : p.count ≤ p.count_backup) :
    (p.step op).count ≤ (p.step op).count_backup := by
  cases op with
  | decrement k =>
    by_cases hk : k ≤ p.count <;>
      simp only [transaction_stream.TransactionStreamProgress.step, checkedSub, hk,
        if_true, if_false, reduceIte] <;> omega
  | rollback =>
    simp [transaction_stream.TransactionStreamProgress.step,
      transaction_stream.TransactionStreamProgress.rollback]
  | reset n => simp [transaction_stream.TransactionStreamProgress.step]

lemma TransactionStreamProgress.tsp_foldl_step_inv :
    ∀ (ops : List ProgressOp) (p : transaction_stream.TransactionStreamProgress),
      p.count ≤ p.count_backup →
      (ops.foldl transaction_stream.TransactionStreamProgress.step p).count ≤
        (ops.foldl transaction_stream.TransactionStreamProgress.step p).count_backup
  | [], _, h => h
  | op :: ops, p, h =>
    TransactionStreamProgress.tsp_foldl_step_inv ops (p.step op)
      (TransactionStreamProgress.tsp_step_inv op h)

/-- Claim C9: every block-progress counter is created with
`checkpoint = remaining = expected_count`; `rollback()` restores
`remaining := checkpoint`; `remaining` only decreases within one peer's
block attempt (a decrement never increases it); and after any sequence of
the operations the streamers perform (creation, successful decrement,
rollback, reset to the next block's count) the invariant
`remaining ≤ checkpoint` holds.  Stated both for the shared `BlockProgress`
and for the commitment-carrying `TransactionStreamProgress`. -/
theorem claim_C9 :
    (∀ n : Nat, (BlockProgress.new n).count = n ∧ (BlockProgress.new n).count_backup = n) ∧
    (∀ p : BlockProgress,
      p.rollback.count = p.count_backup ∧ p.rollback.count_backup = p.count_backup) ∧
    (∀ (p : BlockProgress) (k : Nat), (p.step (.decrement k)).count ≤ p.count) ∧
    (∀ (n : Nat) (ops : List ProgressOp),
      (ops.foldl BlockProgress.step (BlockProgress.new n)).count ≤
        (ops.foldl BlockProgress.step (BlockProgress.new n)).count_backup) ∧
    (∀ c m : Nat,
      (transaction_stream.TransactionStreamProgress.new (c, m)).count = c ∧
      (transaction_stream.TransactionStreamProgress.new (c, m)).count_backup = c ∧
      (transaction_stream.TransactionStreamProgress.new (c, m)).commitment = m) ∧
    (∀ p : transaction_stream.TransactionStreamProgress,
      p.rollback.count = p.count_backup ∧ p.rollback.count_backup = p.count_backup) ∧
    (∀ (p : transaction_stream.TransactionStreamProgress) (k : Nat),
      (p.step (.decrement k)).count ≤ p.count) ∧
    (∀ (c m : Nat) (ops : List ProgressOp),
      (ops.foldl transaction_stream.TransactionStreamProgress.step
        (transaction_stream.TransactionStreamProgress.new (c, m))).count ≤
      (ops.foldl transaction_stream.TransactionStreamProgress.step
        (transaction_stream.TransactionStreamProgress.new (c, m))).count_backup) := by
  refine ⟨fun n => ⟨rfl, rfl⟩, fun p => ⟨rfl, rfl⟩, ?_, ?_, fun c m => ⟨rfl, rfl, rfl⟩,
    fun p => ⟨rfl, rfl⟩, ?_, ?_⟩
  · intro p k
    by_cases hk : k ≤ p.count <;>
      simp only [BlockProgress.step, checkedSub, hk, if_true, if_false, reduceIte] <;> omega
  · intro n ops
    exact BlockProgress.foldl_step_inv ops _ (le_refl n)
  · intro p k
    by_cases hk : k ≤ p.count <;>
      simp only [transaction_stream.TransactionStreamProgress.step, checkedSub, hk,
        if_true, if_false, reduceIte] <;> omega
  · intro c m ops
    exact TransactionStreamProgress.tsp_foldl_step_inv ops _ (le_refl c)

/-- Claim C6: the event streamer groups a block's events by consecutive
transaction hash, not by a global set: for the within-block sequence
`[(txA, e1), (txA, e2), (txB, e3), (txA, e4)]` with `txA ≠ txB` it yields
the groups `[(txA, [e1, e2]), (txB, [e3]), (txA, [e4])]` (the repeated
`txA` opens a fresh third group rather than merging into the first). -/
theorem claim_C6 (peer txA txB e1 e2 e3 e4 : Nat) (hne : txA ≠ txB) :
    (event_stream.runPeers ⟨0, 0, [], .new 4⟩
      [⟨peer, some [.event txA (some e1), .event txA (some e2),
                    .event txB (some e3), .event txA (some e4)]⟩]).1
      = [⟨peer, (0, [(txA, [e1, e2]), (txB, [e3]), (txA, [e4])])⟩] := by
  simp [event_stream.runPeers, event_stream.blockLoop, event_stream.innerLoop,
    event_stream.handle_response, BlockProgress.rollback, BlockProgress.new,
    hne, Ne.symm hne]

/-- Claim C6 witness at concrete hashes. -/
theorem claim_C6_witness :
    (event_stream.runPeers ⟨0, 0, [], .new 4⟩
      [⟨7, some [.event 10 (some 1), .event 10 (some 2),
                 .event 11 (some 3), .event 10 (some 4)]⟩]).1
      = [⟨7, (0, [(10, [1, 2]), (11, [3]), (10, [4])])⟩] :=
  claim_C6 7 10 11 1 2 3 4 (by decide)

/-- Claim C10: the same-transaction branch of `event_stream::handle_response`
is reachable with an empty per-block accumulator, so
`events.last_mut().expect("not empty")` CAN panic: with `start = 0`,
`stop = 1`, expected counts `[1, 1]`, a single peer serving an event with
transaction hash 9 for block 0 (which completes block 0 and is yielded) and
then an event with the same transaction hash 9 for block 1 drives the
streamer into the `Some(x) if *x == txn_hash` branch while the fresh block's
accumulator is still empty.  The first conjunct evaluates the whole streamer
to the panic outcome; the second isolates the panicking `handle_response`
call. -/
theorem claim_C10 :
    (event_stream.runPeers ⟨0, 1, [some 1], .new 1⟩
      [⟨7, some [.event 9 (some 1), .event 9 (some 2)]⟩]).2.2
      = event_stream.EvExit.panicked ∧
    event_stream.handle_response (.event 9 (some 2)) (some 9) []
      = event_stream.HandleRes.panicked := by
  exact ⟨by decide, by decide⟩

/-- Claim C1, counterexample.  The claim states that on over-delivery the
streamer moves to the next peer when the current block is not the final
block of the range.  The code instead terminates the whole stream
unconditionally.  Concretely (the spec's own scenario 5): `start = 10`,
`stop = 11`, expectation for block 10 is `count = 1`, and the peer delivers
one `ContractDiff` with two storage writes.  `handle_response` with
`is_last_block = false` returns `TerminateStream`, not `NextPeer`; running
the whole streamer with a second, cooperative peer available yields nothing
and terminates, instead of re-serving block 10 and proceeding to block 11. -/
theorem claim_C1_counterexample :
    (state_diff_stream.handle_response (.contractDiff 5 none none [(1, 2), (3, 4)])
        .empty ⟨1, 77, 1⟩ false).1 ≠ state_diff_stream.Action.nextPeer ∧
    (state_diff_stream.handle_response (.contractDiff 5 none none [(1, 2), (3, 4)])
        .empty ⟨1, 77, 1⟩ false).1 = state_diff_stream.Action.terminateStream ∧
    state_diff_stream.runPeers ⟨10, 11, [some (1, 78)], .new (1, 77)⟩
      [⟨3, some [.contractDiff 5 none none [(1, 2), (3, 4)]]⟩,
       ⟨4, some [.declaredClass 5 none, .declaredClass 6 none, .fin]⟩]
      = ([], ⟨10, 11, [some (1, 78)], ⟨1, 77, 1⟩⟩, true) := by
  refine ⟨by decide, by decide, by decide⟩

/-- Claim C1, amended: whenever a response would decrement the remaining
per-block budget below zero, the transaction and state-diff streamers
return `TerminateStream` and the whole stream terminates, regardless of
whether the current block is the final block of the range (the source
merely `debug_assert!`s that only the last block reaches this path).
Each conjunct covers one decrement site: the transaction item, the
storage-writes stage, the nonce stage and the class-hash stage of a
`ContractDiff`, and a `DeclaredClass`. -/
theorem claim_C1 :
    (∀ (t : Nat) (p : transaction_stream.TransactionStreamProgress) (idx : Nat)
        (is_last_block : Bool), p.count = 0 →
      (transaction_stream.handle_response (.transactionWithReceipt (some t)) p idx
          is_last_block).1 = transaction_stream.Action.terminateStream) ∧
    (∀ (a : Nat) (n ch : Option Nat) (vs : List (Nat × Nat)) (sd : StateUpdateData)
        (p : state_diff_stream.StateDiffStreamProgress) (is_last_block : Bool),
      p.count < vs.length →
      (state_diff_stream.handle_response (.contractDiff a n ch vs) sd p is_last_block).1
        = state_diff_stream.Action.terminateStream) ∧
    (∀ (a nv : Nat) (ch : Option Nat) (vs : List (Nat × Nat)) (sd : StateUpdateData)
        (p : state_diff_stream.StateDiffStreamProgress) (is_last_block : Bool),
      a ≠ systemAddress → p.count = vs.length →
      (state_diff_stream.handle_response (.contractDiff a (some nv) ch vs) sd p
          is_last_block).1 = state_diff_stream.Action.terminateStream) ∧
    (∀ (a ch : Nat) (vs : List (Nat × Nat)) (sd : StateUpdateData)
        (p : state_diff_stream.StateDiffStreamProgress) (is_last_block : Bool),
      a ≠ systemAddress → p.count = vs.length →
      (state_diff_stream.handle_response (.contractDiff a none (some ch) vs) sd p
          is_last_block).1 = state_diff_stream.Action.terminateStream) ∧
    (∀ (h : Nat) (c : Option Nat) (sd : StateUpdateData)
        (p : state_diff_stream.StateDiffStreamProgress) (is_last_block : Bool),
      p.count = 0 →
      (state_diff_stream.handle_response (.declaredClass h c) sd p is_last_block).1
        = state_diff_stream.Action.terminateStream) := by
  refine ⟨?_, ?_, ?_, ?_, ?_⟩
  · intro t p idx l h
    simp [transaction_stream.handle_response, checkedSub, h]
  · intro a n ch vs sd p l h
    have hx : ¬ vs.length ≤ p.count := by omega
    simp [state_diff_stream.handle_response, checkedSub, hx]
  · intro a nv ch vs sd p l ha h
    simp [state_diff_stream.handle_response, checkedSub, h, ha]
  · intro a ch vs sd p l ha h
    simp [state_diff_stream.handle_response, state_diff_stream.classStage, checkedSub, h, ha]
  · intro h c sd p l hc
    simp [state_diff_stream.handle_response, checkedSub, hc]

/-- Claim C1 witness: the amended theorem applied at concrete inputs. -/
theorem claim_C1_witness :
    (transaction_stream.handle_response (.transactionWithReceipt (some 5)) ⟨0, 9, 2⟩ 0
        false).1 = transaction_stream.Action.terminateStream ∧
    (state_diff_stream.handle_response (.contractDiff 5 none none [(1, 2), (3, 4)])
        .empty ⟨1, 77, 1⟩ false).1 = state_diff_stream.Action.terminateStream ∧
    (state_diff_stream.handle_response (.contractDiff 5 (some 6) none [(1, 2)])
        .empty ⟨1, 77, 1⟩ false).1 = state_diff_stream.Action.terminateStream ∧
    (state_diff_stream.handle_response (.contractDiff 5 none (some 8) [(1, 2)])
        .empty ⟨1, 77, 1⟩ false).1 = state_diff_stream.Action.terminateStream ∧
    (state_diff_stream.handle_response (.declaredClass 6 none)
        .empty ⟨0, 77, 1⟩ true).1 = state_diff_stream.Action.terminateStream :=
  ⟨claim_C1.1 5 ⟨0, 9, 2⟩ 0 false rfl,
   claim_C1.2.1 5 none none [(1, 2), (3, 4)] .empty ⟨1, 77, 1⟩ false (by decide),
   claim_C1.2.2.1 5 6 none [(1, 2)] .empty ⟨1, 77, 1⟩ false (by decide) rfl,
   claim_C1.2.2.2.1 5 8 [(1, 2)] .empty ⟨1, 77, 1⟩ false (by decide) rfl,
   claim_C1.2.2.2.2 6 none .empty ⟨0, 77, 1⟩ true rfl⟩

/-- Claim C7, counterexample.  The claim states that every path of
`get_random_peers` returns a freshly shuffled vector; on the
re-check-under-write-lock path the source returns
`peers.iter().copied().collect()` directly, skipping the final
`peers.shuffle(..)` (that `return` leaves the function early), so the
result is the cached set unshuffled.  With `shuffle` instantiated to
`List.reverse`, the returned vector differs from the shuffled one. -/
theorem claim_C7_counterexample :
    (get_random_peers List.reverse none (some [1, 2]) [] 0).1 ≠ List.reverse [1, 2] ∧
    (get_random_peers List.reverse none (some [1, 2]) [] 0).1 = [1, 2] := by
  exact ⟨by decide, by decide⟩

/-- Claim C7, amended: on every path `get_random_peers` returns a
permutation of the relevant cached peer set, and the fresh-read and
refresh paths return freshly shuffled copies (the refresh path first
removes the node's own peer id from the transport's closest-peers answer
and installs that set into the cache); only the
re-check-under-write-lock path returns the cache contents without
shuffling.  `shuffle` is any permutation-producing shuffle. -/
theorem claim_C7 (shuffle : List Nat → List Nat)
    (hshuffle : ∀ l : List Nat, (shuffle l).Perm l) :
    (∀ (ps : List Nat) (w : Option (List Nat)) (closest : List Nat) (selfId : Nat),
      (get_random_peers shuffle (some ps) w closest selfId).1 = shuffle ps ∧
      ((get_random_peers shuffle (some ps) w closest selfId).1).Perm ps ∧
      (get_random_peers shuffle (some ps) w closest selfId).2 = none) ∧
    (∀ (ps : List Nat) (closest : List Nat) (selfId : Nat),
      (get_random_peers shuffle none (some ps) closest selfId).1 = ps ∧
      ((get_random_peers shuffle none (some ps) closest selfId).1).Perm ps ∧
      (get_random_peers shuffle none (some ps) closest selfId).2 = none) ∧
    (∀ (closest : List Nat) (selfId : Nat),
      (get_random_peers shuffle none none closest selfId).1
          = shuffle (closest.filter (fun p => p ≠ selfId)) ∧
      ((get_random_peers shuffle none none closest selfId).1).Perm
          (closest.filter (fun p => p ≠ selfId)) ∧
      (get_random_peers shuffle none none closest selfId).2
          = some (closest.filter (fun p => p ≠ selfId))) := by
  refine ⟨?_, ?_, ?_⟩
  · intro ps w closest selfId
    exact ⟨rfl, hshuffle ps, rfl⟩
  · intro ps closest selfId
    exact ⟨rfl, List.Perm.refl ps, rfl⟩
  · intro closest selfId
    exact ⟨rfl, hshuffle _, rfl⟩

/-- Claim C7 witness: the amended theorem applied with `List.reverse` as the
shuffle on concrete inputs. -/
theorem claim_C7_witness :
    (get_random_peers List.reverse (some [3, 4]) none [] 0).1 = [4, 3] ∧
    (get_random_peers List.reverse none none [5, 0, 6] 0).2 = some [5, 6] := by
  have h := claim_C7 List.reverse (fun l => List.reverse_perm l)
  refine ⟨?_, ?_⟩
  · have := (h.1 [3, 4] none [] 0).1
    simpa using this
  · have := (h.2.2 [5, 0, 6] 0).2.2
    simpa using this

/-- A cooperative header peer's response script: one parsed header per block
of the requested range, followed by `Fin`. -/
def header_stream.coopScript (hs : List Nat) : List header_stream.BlockHeadersResponse :=
  hs.map (fun h => .header (some h)) ++ [.fin]

lemma header_stream.runResponses_coop_forward (hs : List Nat) :
    ∀ (start stop : Int) (peer : Nat), (hs.length : Int) = stop + 1 - start →
    header_stream.runResponses peer .forward stop start (header_stream.coopScript hs)
      = (hs.map (fun h => ⟨peer, h⟩), stop + 1, .terminateStream) := by
  induction hs with
  | nil =>
    intro start stop peer hlen
    have hst : start = stop + 1 := by simp at hlen; omega
    simp [header_stream.coopScript, header_stream.runResponses,
      header_stream.handle_response, header_stream.done, hst]
  | cons h t ih =>
    intro start stop peer hlen
    have hle : ¬ start > stop := by simp at hlen; omega
    have hrec := ih (start + 1) stop peer (by simp at hlen ⊢; omega)
    simp [header_stream.coopScript, header_stream.runResponses,
      header_stream.handle_response, header_stream.done, hle] at hrec ⊢
    rw [hrec]
    exact ⟨rfl, rfl⟩

lemma header_stream.runResponses_coop_backward (hs : List Nat) :
    ∀ (start stop : Int) (peer : Nat), (hs.length : Int) = start + 1 - stop →
    header_stream.runResponses peer .backward stop start (header_stream.coopScript hs)
      = (hs.map (fun h => ⟨peer, h⟩), stop - 1, .terminateStream) := by
  induction hs with
  | nil =>
    intro start stop peer hlen
    have hst : start = stop - 1 := by simp at hlen; omega
    simp [header_stream.coopScript, header_stream.runResponses,
      header_stream.handle_response, header_stream.done, hst]
  | cons h t ih =>
    intro start stop peer hlen
    have hle : ¬ start < stop := by simp at hlen; omega
    have hrec := ih (start - 1) stop peer (by simp at hlen ⊢; omega)
    simp [header_stream.coopScript, header_stream.runResponses,
      header_stream.handle_response, header_stream.done, hle] at hrec ⊢
    rw [hrec]
    exact ⟨rfl, rfl⟩

/-- Claim C5: header streamer range arithmetic.  With `reverse = false` a
cooperative peer's `stop - start + 1` headers are all published, in served
order, the cursor advancing from `start` past `stop` (final cursor
`stop + 1`), and the stream terminates; with `reverse = true` the walk runs
from `stop` down past `start` (final cursor `start - 1`).  Each parsed
header response, while the walk is not done, publishes the header
immediately and advances the cursor by exactly one in the walk direction;
and the walk is done exactly when the cursor passes the stop bound
(`cursor > stop` forward, `cursor < start` backward). -/
theorem claim_C5 :
    (∀ (hs : List Nat) (start stop peer : Nat), start ≤ stop →
      hs.length = stop - start + 1 →
      header_stream.make start stop false [⟨peer, some (header_stream.coopScript hs)⟩]
        = (hs.map (fun h => ⟨peer, h⟩), (stop : Int) + 1, true)) ∧
    (∀ (hs : List Nat) (start stop peer : Nat), start ≤ stop →
      hs.length = stop - start + 1 →
      header_stream.make start stop true [⟨peer, some (header_stream.coopScript hs)⟩]
        = (hs.map (fun h => ⟨peer, h⟩), (start : Int) - 1, true)) ∧
    (∀ (peer hdr : Nat) (s t : Int), header_stream.done .forward s t = false →
      header_stream.handle_response peer (.header (some hdr)) .forward s t
        = (.nextResponse, s + 1, [⟨peer, hdr⟩])) ∧
    (∀ (peer hdr : Nat) (s t : Int), header_stream.done .backward s t = false →
      header_stream.handle_response peer (.header (some hdr)) .backward s t
        = (.nextResponse, s - 1, [⟨peer, hdr⟩])) ∧
    (∀ s t : Int, (header_stream.done .forward s t = true ↔ s > t) ∧
      (header_stream.done .backward s t = true ↔ s < t)) := by
  refine ⟨?_, ?_, ?_, ?_, ?_⟩
  · intro hs start stop peer hle hlen
    have hcast : (hs.length : Int) = (stop : Int) + 1 - (start : Int) := by
      omega
    have hrun := header_stream.runResponses_coop_forward hs start stop peer hcast
    simp [header_stream.make, header_stream.runPeers, hrun]
  · intro hs start stop peer hle hlen
    have hcast : (hs.length : Int) = (stop : Int) + 1 - (start : Int) := by
      omega
    have hrun := header_stream.runResponses_coop_backward hs stop start peer (by omega)
    simp [header_stream.make, header_stream.runPeers, hrun]
  · intro peer hdr s t hdone
    simp [header_stream.handle_response, hdone]
  · intro peer hdr s t hdone
    simp [header_stream.handle_response, hdone]
  · intro s t
    constructor <;> simp [header_stream.done]

/-- Claim C5 witness: concrete runs of both directions and both step facts. -/
theorem claim_C5_witness :
    header_stream.make 10 12 false [⟨2, some (header_stream.coopScript [5, 6, 7])⟩]
      = ([⟨2, 5⟩, ⟨2, 6⟩, ⟨2, 7⟩], 13, true) ∧
    header_stream.make 10 12 true [⟨2, some (header_stream.coopScript [7, 6, 5])⟩]
      = ([⟨2, 7⟩, ⟨2, 6⟩, ⟨2, 5⟩], 9, true) ∧
    header_stream.handle_response 2 (.header (some 5)) .forward 10 12
      = (.nextResponse, 11, [⟨2, 5⟩]) ∧
    header_stream.handle_response 2 (.header (some 7)) .backward 12 10
      = (.nextResponse, 11, [⟨2, 7⟩]) :=
  ⟨claim_C5.1 [5, 6, 7] 10 12 2 (by decide) (by decide),
   claim_C5.2.1 [7, 6, 5] 10 12 2 (by decide) (by decide),
   claim_C5.2.2.1 2 5 10 12 (by decide),
   claim_C5.2.2.2.1 2 7 12 10 (by decide)⟩

lemma lookupA_assocModify_self {α : Type} :
    ∀ (m : List (Nat × α)) (k : Nat) (f : α → α) (d : α),
      lookupA (assocModify m k f d) k = some (f ((lookupA m k).getD d))
  | [], k, f, d => by simp [assocModify, lookupA]
  | (k', v') :: rest, k, f, d => by
    by_cases hk : k' = k
    · subst hk
      simp [assocModify, lookupA]
    · simp [assocModify, lookupA, hk]
      exact lookupA_assocModify_self rest k f d

lemma sd_handle_contractDiff_full (a nv h : Nat) (vs : List (Nat × Nat))
    (sd : StateUpdateData) (p : state_diff_stream.StateDiffStreamProgress)
    (is_last_block : Bool) (ha : a ≠ systemAddress) (hc : vs.length + 2 ≤ p.count) :
    state_diff_stream.handle_response (.contractDiff a (some nv) (some h) vs) sd p
        is_last_block
      = (.tryYield, sdDeploy (sdNonce (sdStorage sd a vs) a nv) a h,
         { p with count := p.count - (vs.length + 2) }) := by
  have h1 : vs.length ≤ p.count := by omega
  have h2 : 1 ≤ p.count - vs.length := by omega
  have h3 : 1 ≤ p.count - vs.length - 1 := by omega
  simp [state_diff_stream.handle_response, state_diff_stream.classStage, checkedSub,
    h1, h2, h3, ha]
  omega

lemma sd_handle_contractDiff_plain (a : Nat) (vs : List (Nat × Nat))
    (sd : StateUpdateData) (p : state_diff_stream.StateDiffStreamProgress)
    (is_last_block : Bool) (ha : a ≠ systemAddress) (hc : vs.length ≤ p.count) :
    state_diff_stream.handle_response (.contractDiff a none none vs) sd p is_last_block
      = (.tryYield, sdStorage sd a vs, { p with count := p.count - vs.length }) := by
  simp [state_diff_stream.handle_response, state_diff_stream.classStage, checkedSub, hc, ha]

lemma sd_handle_contractDiff_system (n ch : Option Nat) (vs : List (Nat × Nat))
    (sd : StateUpdateData) (p : state_diff_stream.StateDiffStreamProgress)
    (is_last_block : Bool) (hc : vs.length ≤ p.count) :
    state_diff_stream.handle_response (.contractDiff systemAddress n ch vs) sd p
        is_last_block
      = (.tryYield, sdSysStorage sd systemAddress vs,
         { p with count := p.count - vs.length }) := by
  simp [state_diff_stream.handle_response, checkedSub, hc]

lemma sd_handle_declared (h : Nat) (c : Option Nat) (sd : StateUpdateData)
    (p : state_diff_stream.StateDiffStreamProgress) (is_last_block : Bool)
    (hc : 1 ≤ p.count) :
    state_diff_stream.handle_response (.declaredClass h c) sd p is_last_block
      = (.tryYield, sdDeclared sd h c, { p with count := p.count - 1 }) := by
  simp [state_diff_stream.handle_response, checkedSub, hc]

/-- Claim C4: the state-diff streamer's per-response bookkeeping, and the
spec's mixed-items scenario.  A non-system `ContractDiff` with both a nonce
and a class hash decrements `remaining` by `values.len() + 2` and leaves the
entry at the address holding the merged storage, the nonce and the
`Deploy(class_hash)` record; one with neither decrements by `values.len()`
and merges only storage; a `ContractDiff` for the system contract (address
1) decrements by `values.len()` and merges the writes under
`system_contract_updates`, leaving `contract_updates` untouched; a
`DeclaredClass` decrements by 1 and inserts into the Sierra map when a
compiled class hash is present, into the Cairo-zero set otherwise.  The
final conjunct runs the spec's concrete scenario (`start = stop = 100`,
expectation `(count = 5, commit = 42)`) end to end and checks the yielded
artifact. -/
theorem claim_C4 :
    (∀ (a nv h : Nat) (vs : List (Nat × Nat)) (sd : StateUpdateData)
        (p : state_diff_stream.StateDiffStreamProgress) (is_last_block : Bool),
      a ≠ systemAddress → vs.length + 2 ≤ p.count →
      (state_diff_stream.handle_response (.contractDiff a (some nv) (some h) vs) sd p
          is_last_block).1 = .tryYield ∧
      (state_diff_stream.handle_response (.contractDiff a (some nv) (some h) vs) sd p
          is_last_block).2.2.count = p.count - (vs.length + 2) ∧
      lookupA (state_diff_stream.handle_response (.contractDiff a (some nv) (some h) vs)
          sd p is_last_block).2.1.contract_updates a
        = some ⟨foldStorage ((lookupA sd.contract_updates a).getD .empty).storage vs,
                some nv, some (.deploy h)⟩ ∧
      (state_diff_stream.handle_response (.contractDiff a (some nv) (some h) vs) sd p
          is_last_block).2.1.system_contract_updates = sd.system_contract_updates) ∧
    (∀ (a : Nat) (vs : List (Nat × Nat)) (sd : StateUpdateData)
        (p : state_diff_stream.StateDiffStreamProgress) (is_last_block : Bool),
      a ≠ systemAddress → vs.length ≤ p.count →
      (state_diff_stream.handle_response (.contractDiff a none none vs) sd p
          is_last_block).1 = .tryYield ∧
      (state_diff_stream.handle_response (.contractDiff a none none vs) sd p
          is_last_block).2.2.count = p.count - vs.length ∧
      lookupA (state_diff_stream.handle_response (.contractDiff a none none vs) sd p
          is_last_block).2.1.contract_updates a
        = some ⟨foldStorage ((lookupA sd.contract_updates a).getD .empty).storage vs,
                ((lookupA sd.contract_updates a).getD .empty).nonce,
                ((lookupA sd.contract_updates a).getD .empty).class_update⟩) ∧
    (∀ (n ch : Option Nat) (vs : List (Nat × Nat)) (sd : StateUpdateData)
        (p : state_diff_stream.StateDiffStreamProgress) (is_last_block : Bool),
      vs.length ≤ p.count →
      (state_diff_stream.handle_response (.contractDiff systemAddress n ch vs) sd p
          is_last_block).1 = .tryYield ∧
      (state_diff_stream.handle_response (.contractDiff systemAddress n ch vs) sd p
          is_last_block).2.2.count = p.count - vs.length ∧
      lookupA (state_diff_stream.handle_response (.contractDiff systemAddress n ch vs)
          sd p is_last_block).2.1.system_contract_updates systemAddress
        = some ⟨foldStorage
            ((lookupA sd.system_contract_updates systemAddress).getD .empty).storage vs⟩ ∧
      (state_diff_stream.handle_response (.contractDiff systemAddress n ch vs) sd p
          is_last_block).2.1.contract_updates = sd.contract_updates) ∧
    (∀ (h cc : Nat) (sd : StateUpdateData)
        (p : state_diff_stream.StateDiffStreamProgress) (is_last_block : Bool),
      1 ≤ p.count →
      state_diff_stream.handle_response (.declaredClass h (some cc)) sd p is_last_block
        = (.tryYield,
           { sd with declared_sierra_classes :=
               assocInsert sd.declared_sierra_classes h cc },
           { p with count := p.count - 1 })) ∧
    (∀ (h : Nat) (sd : StateUpdateData)
        (p : state_diff_stream.StateDiffStreamProgress) (is_last_block : Bool),
      1 ≤ p.count →
      state_diff_stream.handle_response (.declaredClass h none) sd p is_last_block
        = (.tryYield,
           { sd with declared_cairo_classes := insertSet sd.declared_cairo_classes h },
           { p with count := p.count - 1 })) ∧
    state_diff_stream.make 100 100 [some (5, 42)]
      [⟨3, some [.contractDiff 5 (some 9) none [(1, 2), (3, 4)],
                 .declaredClass 6 none,
                 .contractDiff 1 none none [(7, 8)],
                 .fin]⟩]
      = ([⟨3, (⟨42, ⟨[(5, ⟨[(1, 2), (3, 4)], some 9, none⟩)],
                     [(1, ⟨[(7, 8)]⟩)], [6], []⟩⟩, 100)⟩], true) := by
  refine ⟨?_, ?_, ?_, ?_, ?_, by decide⟩
  · intro a nv h vs sd p l ha hc
    rw [sd_handle_contractDiff_full a nv h vs sd p l ha hc]
    refine ⟨rfl, rfl, ?_, rfl⟩
    simp [sdDeploy, sdNonce, sdStorage, lookupA_assocModify_self]
  · intro a vs sd p l ha hc
    rw [sd_handle_contractDiff_plain a vs sd p l ha hc]
    refine ⟨rfl, rfl, ?_⟩
    simp [sdStorage, lookupA_assocModify_self]
  · intro n ch vs sd p l hc
    rw [sd_handle_contractDiff_system n ch vs sd p l hc]
    refine ⟨rfl, rfl, ?_, rfl⟩
    simp [sdSysStorage, lookupA_assocModify_self]
  · intro h cc sd p l hc
    rw [sd_handle_declared h (some cc) sd p l hc]
    rfl
  · intro h sd p l hc
    rw [sd_handle_declared h none sd p l hc]
    rfl

/-- Claim C4 witness: the characterization applied at concrete inputs. -/
theorem claim_C4_witness :
    (state_diff_stream.handle_response (.contractDiff 5 (some 9) (some 8) [(1, 2)])
        .empty ⟨4, 42, 4⟩ false).2.2.count = 1 ∧
    (state_diff_stream.handle_response (.contractDiff 1 none none [(7, 8)])
        .empty ⟨1, 42, 5⟩ true).2.1.contract_updates = [] ∧
    state_diff_stream.handle_response (.declaredClass 6 (some 7)) .empty ⟨1, 42, 5⟩ true
      = (.tryYield, ⟨[], [], [], [(6, 7)]⟩, ⟨0, 42, 5⟩) ∧
    state_diff_stream.handle_response (.declaredClass 6 none) .empty ⟨1, 42, 5⟩ true
      = (.tryYield, ⟨[], [], [6], []⟩, ⟨0, 42, 5⟩) :=
  ⟨(claim_C4.1 5 9 8 [(1, 2)] .empty ⟨4, 42, 4⟩ false (by decide) (by decide)).2.1,
   (claim_C4.2.2.1 none none [(7, 8)] .empty ⟨1, 42, 5⟩ true (by decide)).2.2.2,
   claim_C4.2.2.2.1 6 7 .empty ⟨1, 42, 5⟩ true (by decide),
   claim_C4.2.2.2.2.1 6 .empty ⟨1, 42, 5⟩ true (by decide)⟩

/-! ### Cooperative-peer response families used for the coverage results -/

/-- A well-formed transaction wire item. -/
def transaction_stream.coopItem (p : Nat) : transaction_stream.TransactionsResponse :=
  .transactionWithReceipt (some p)

/-- A cooperative transaction peer's script for blocks
`(commitment, transaction payloads)`: every block's transactions in order,
then `Fin`. -/
def transaction_stream.coopScript (bs : List (Nat × List Nat)) :
    List transaction_stream.TransactionsResponse :=
  (bs.map (fun b => b.2.map transaction_stream.coopItem)).flatten ++ [.fin]

/-- Payloads paired with their per-block receipt indices starting at `i`. -/
def transaction_stream.indexedFrom : Nat → List Nat → List (Nat × Nat)
  | _, [] => []
  | i, p :: ps => (p, i) :: transaction_stream.indexedFrom (i + 1) ps

/-- The artifacts the transaction streamer yields for the cooperative
script: one per block, in increasing block order. -/
def transaction_stream.coopOutputs (peer : Nat) :
    Nat → List (Nat × List Nat) → List transaction_stream.TxnOutput
  | _, [] => []
  | start, (m, ps) :: rest =>
    ⟨peer, (⟨m, transaction_stream.indexedFrom 0 ps⟩, start)⟩ ::
      transaction_stream.coopOutputs peer (start + 1) rest

/-- The expectation stream matching the cooperative blocks. -/
def transaction_stream.coopExps (bs : List (Nat × List Nat)) :
    List (Option (Nat × Nat)) :=
  bs.map (fun b => some (b.2.length, b.1))

/-- The progress value left after the cooperative run. -/
def transaction_stream.coopFinalProgress :
    Nat → Nat → List (Nat × List Nat) → transaction_stream.TransactionStreamProgress
  | m, bk, [] => ⟨0, m, bk⟩
  | _, _, (m2, ps2) :: rest => transaction_stream.coopFinalProgress m2 ps2.length rest

lemma transaction_stream.indexedFrom_append (i : Nat) (p : Nat) (ps : List Nat)
    (acc : List (Nat × Nat)) :
    (acc ++ [(p, i)]) ++ transaction_stream.indexedFrom (i + 1) ps
      = acc ++ transaction_stream.indexedFrom i (p :: ps) := by
  simp [transaction_stream.indexedFrom]

lemma transaction_stream.txn_try_yield_incomplete (peer : Nat)
    (p : transaction_stream.TransactionStreamProgress)
    (exps : List (Option (Nat × Nat))) (txs : List (Nat × Nat)) (start stop : Nat)
    (h : p.count ≠ 0) :
    transaction_stream.try_yield peer p exps txs start stop
      = ⟨false, p, exps, txs, start, []⟩ := by
  simp [transaction_stream.try_yield, h]

/-- The continuation of the response loop right after a block's final item:
the block is complete (`count = 0`), `try_yield` fires, and the loop either
terminates or continues on the remaining responses. -/
def transaction_stream.continueAfterYield (peer : Nat)
    (st : transaction_stream.TxnState) (txs : List (Nat × Nat))
    (rest : List transaction_stream.TransactionsResponse) :
    List transaction_stream.TxnOutput × transaction_stream.TxnState ×
      transaction_stream.AttemptExit :=
  let r := transaction_stream.try_yield peer { st.progress with count := 0 }
    st.expectations txs st.start st.stop
  if r.terminate then (r.sent, transaction_stream.applyYield st r, .terminateStream)
  else
    let rec2 := transaction_stream.runResponses peer
      (transaction_stream.applyYield st r) r.transactions rest
    (r.sent ++ rec2.1, rec2.2)

lemma transaction_stream.txn_continueAfterYield_last (peer : Nat)
    (st : transaction_stream.TxnState) (txs : List (Nat × Nat))
    (rest : List transaction_stream.TransactionsResponse)
    (hlt : ¬ st.start < st.stop) :
    transaction_stream.continueAfterYield peer st txs rest
      = ((⟨peer, (⟨st.progress.commitment, txs⟩, st.start)⟩ :
            transaction_stream.TxnOutput) ::
           (transaction_stream.runResponses peer
             ⟨st.start, st.stop, st.expectations, { st.progress with count := 0 }⟩ [] rest).1,
         (transaction_stream.runResponses peer
           ⟨st.start, st.stop, st.expectations, { st.progress with count := 0 }⟩ [] rest).2) := by
  simp [transaction_stream.continueAfterYield, transaction_stream.try_yield, hlt,
    transaction_stream.applyYield]

lemma transaction_stream.txn_continueAfterYield_next (peer : Nat)
    (st : transaction_stream.TxnState) (txs : List (Nat × Nat))
    (rest : List transaction_stream.TransactionsResponse)
    (c2 m2 : Nat) (exps2 : List (Option (Nat × Nat)))
    (hlt : st.start < st.stop)
    (hexps : st.expectations = some (c2, m2) :: exps2) :
    transaction_stream.continueAfterYield peer st txs rest
      = ((⟨peer, (⟨st.progress.commitment, txs⟩, st.start)⟩ :
            transaction_stream.TxnOutput) ::
           (transaction_stream.runResponses peer
             ⟨st.start + 1, st.stop, exps2, ⟨c2, m2, c2⟩⟩ [] rest).1,
         (transaction_stream.runResponses peer
           ⟨st.start + 1, st.stop, exps2, ⟨c2, m2, c2⟩⟩ [] rest).2) := by
  simp [transaction_stream.continueAfterYield, transaction_stream.try_yield, hlt, hexps,
    transaction_stream.applyYield, transaction_stream.TransactionStreamProgress.new]

lemma transaction_stream.txn_runResponses_blockCoop (ps : List Nat) (hps : ps ≠ []) :
    ∀ (st : transaction_stream.TxnState) (acc : List (Nat × Nat))
      (rest : List transaction_stream.TransactionsResponse) (peer : Nat),
      st.progress.count = ps.length →
      transaction_stream.runResponses peer st acc
          (ps.map transaction_stream.coopItem ++ rest)
        = transaction_stream.continueAfterYield peer st
            (acc ++ transaction_stream.indexedFrom acc.length ps) rest := by
  induction ps with
  | nil => exact absurd rfl hps
  | cons p ps ih =>
    intro st acc rest peer hcount
    by_cases hps' : ps = []
    · subst hps'
      simp only [List.length_cons, List.length_nil, Nat.zero_add] at hcount
      simp only [List.map_cons, List.map_nil, List.nil_append, List.singleton_append]
      rw [transaction_stream.runResponses]
      simp only [transaction_stream.handle_response, transaction_stream.coopItem,
        checkedSub, hcount]
      norm_num
      rw [transaction_stream.continueAfterYield]
      simp [transaction_stream.indexedFrom]
    · have hlen : st.progress.count = ps.length + 1 := by
        simpa [Nat.add_comm] using hcount
      have hpos : ps.length ≠ 0 := fun h => hps' (List.length_eq_zero.mp h)
      simp only [List.map_cons, List.cons_append]
      rw [transaction_stream.runResponses]
      simp only [transaction_stream.handle_response, transaction_stream.coopItem,
        checkedSub, hlen]
      rw [if_pos (by omega : 1 ≤ ps.length + 1)]
      simp only [Nat.add_sub_cancel]
      rw [transaction_stream.txn_try_yield_incomplete peer _ st.expectations _ st.start st.stop hpos]
      simp only [reduceIte]
      have hih := ih hps' { st with progress := { st.progress with count := ps.length } }
        (acc ++ [(p, acc.length)]) rest peer (by simp)
      rw [show transaction_stream.applyYield st
            ⟨false, { st.progress with count := ps.length }, st.expectations,
             acc ++ [(p, acc.length)], st.start, []⟩
          = { st with progress := { st.progress with count := ps.length } } from rfl]
      rw [hih]
      simp only [List.length_append, List.length_cons, List.length_nil, List.nil_append,
        Nat.add_zero]
      rw [transaction_stream.indexedFrom_append]
      rfl

lemma transaction_stream.txn_runResponses_coop :
    ∀ (bs : List (Nat × List Nat)) (m : Nat) (ps : List Nat) (start peer bk : Nat),
      ps ≠ [] → (∀ b ∈ bs, b.2 ≠ []) →
      transaction_stream.runResponses peer
          ⟨start, start + bs.length, transaction_stream.coopExps bs, ⟨ps.length, m, bk⟩⟩ []
          (transaction_stream.coopScript ((m, ps) :: bs))
        = (transaction_stream.coopOutputs peer start ((m, ps) :: bs),
           ⟨start + bs.length, start + bs.length, [],
            transaction_stream.coopFinalProgress m bk bs⟩, .terminateStream)
  | [], m, ps, start, peer, bk, hps, _ => by
    have hblock := transaction_stream.txn_runResponses_blockCoop ps hps
      ⟨start, start, transaction_stream.coopExps [], ⟨ps.length, m, bk⟩⟩ [] [.fin] peer rfl
    simp only [List.length_nil, Nat.add_zero]
    rw [show transaction_stream.coopScript [(m, ps)]
        = ps.map transaction_stream.coopItem ++ [.fin] by
      simp [transaction_stream.coopScript]]
    rw [hblock]
    rw [transaction_stream.txn_continueAfterYield_last peer
      ⟨start, start, transaction_stream.coopExps [], ⟨ps.length, m, bk⟩⟩ _ _
      (Nat.lt_irrefl start)]
    simp [transaction_stream.runResponses, transaction_stream.handle_response,
      transaction_stream.coopOutputs, transaction_stream.coopExps,
      transaction_stream.coopFinalProgress]
  | (m2, ps2) :: bs, m, ps, start, peer, bk, hps, hbs => by
    have hps2 : ps2 ≠ [] := hbs (m2, ps2) (List.mem_cons_self _ _)
    have hbs' : ∀ b ∈ bs, b.2 ≠ [] := fun b hb => hbs b (List.mem_cons_of_mem _ hb)
    have hblock := transaction_stream.txn_runResponses_blockCoop ps hps
      ⟨start, start + (bs.length + 1), transaction_stream.coopExps ((m2, ps2) :: bs),
       ⟨ps.length, m, bk⟩⟩ [] (transaction_stream.coopScript ((m2, ps2) :: bs)) peer rfl
    have hih := transaction_stream.txn_runResponses_coop bs m2 ps2 (start + 1) peer ps2.length
      hps2 hbs'
    rw [show transaction_stream.coopScript ((m, ps) :: (m2, ps2) :: bs)
        = ps.map transaction_stream.coopItem
            ++ transaction_stream.coopScript ((m2, ps2) :: bs) by
      simp [transaction_stream.coopScript]]
    simp only [List.length_cons]
    rw [hblock]
    rw [transaction_stream.txn_continueAfterYield_next peer
      ⟨start, start + (bs.length + 1), transaction_stream.coopExps ((m2, ps2) :: bs),
       ⟨ps.length, m, bk⟩⟩ _ _ ps2.length m2 (transaction_stream.coopExps bs)
      (by omega : start < start + (bs.length + 1))
      (by simp [transaction_stream.coopExps])]
    have harith : start + (bs.length + 1) = (start + 1) + bs.length := by omega
    rw [show (⟨start + 1, start + (bs.length + 1), transaction_stream.coopExps bs,
           ⟨ps2.length, m2, ps2.length⟩⟩ : transaction_stream.TxnState)
        = ⟨start + 1, (start + 1) + bs.length, transaction_stream.coopExps bs,
           ⟨ps2.length, m2, ps2.length⟩⟩ by
      rw [harith]]
    rw [hih]
    simp [transaction_stream.coopOutputs, transaction_stream.coopFinalProgress, harith,
      transaction_stream.indexedFrom]

lemma transaction_stream.txn_runPeers_coop (bs : List (Nat × List Nat)) (m : Nat)
    (ps : List Nat) (start peer : Nat) (hps : ps ≠ []) (hbs : ∀ b ∈ bs, b.2 ≠ []) :
    transaction_stream.runPeers
        ⟨start, start + bs.length, transaction_stream.coopExps bs, .new (ps.length, m)⟩
        [⟨peer, some (transaction_stream.coopScript ((m, ps) :: bs))⟩]
      = (transaction_stream.coopOutputs peer start ((m, ps) :: bs),
         ⟨start + bs.length, start + bs.length, [],
          transaction_stream.coopFinalProgress m ps.length bs⟩, true) := by
  rw [transaction_stream.runPeers]
  simp only
  rw [show ({ (⟨start, start + bs.length, transaction_stream.coopExps bs,
        .new (ps.length, m)⟩ : transaction_stream.TxnState) with
        progress := transaction_stream.TransactionStreamProgress.rollback
          (.new (ps.length, m)) } : transaction_stream.TxnState)
      = ⟨start, start + bs.length, transaction_stream.coopExps bs,
         ⟨ps.length, m, ps.length⟩⟩ from rfl]
  rw [transaction_stream.txn_runResponses_coop bs m ps start peer ps.length hps hbs]

lemma transaction_stream.txn_coopOutputs_blockNums :
    ∀ (bs : List (Nat × List Nat)) (peer start : Nat),
      (transaction_stream.coopOutputs peer start bs).map (fun o => o.data.2)
        = List.range' start bs.length
  | [], _, _ => rfl
  | (m, ps) :: bs, peer, start => by
    rw [transaction_stream.coopOutputs]
    simp only [List.length_cons, List.range'_succ, List.map_cons]
    rw [transaction_stream.txn_coopOutputs_blockNums bs peer (start + 1)]

/-! ### State-diff streamer cooperative family -/

/-- The cost of one state-diff wire item in units of the per-block
`state_diff_length` expectation, as decremented by
`state_diff_stream::handle_response`: one per storage value, plus one per
nonce update and one per deployed class on non-system addresses, and one
per declared class. -/
def sdItemCost : StateDiffsResponse → Nat
  | .contractDiff a n ch vs =>
    vs.length +
      (if a = systemAddress then 0
       else (match n with | some _ => 1 | none => 0) +
         (match ch with | some _ => 1 | none => 0))
  | .declaredClass _ _ => 1
  | .fin => 0

/-- Total cost of a list of state-diff wire items. -/
def sdItemCostSum (items : List StateDiffsResponse) : Nat :=
  (items.map sdItemCost).sum

/-- The accumulator update `state_diff_stream::handle_response` performs for
one wire item (system storage split, nonce and deploy only on non-system
addresses, Sierra/Cairo declared split). -/
def sdApplyItem (sd : StateUpdateData) : StateDiffsResponse → StateUpdateData
  | .contractDiff a n ch vs =>
    if a = systemAddress then sdSysStorage sd a vs
    else
      let sd1 := sdStorage sd a vs
      let sd2 := match n with | some nv => sdNonce sd1 a nv | none => sd1
      match ch with | some c => sdDeploy sd2 a c | none => sd2
  | .declaredClass h c => sdDeclared sd h c
  | .fin => sd

/-- Folding a block's items into the accumulator. -/
def sdFoldItems (sd : StateUpdateData) (items : List StateDiffsResponse) :
    StateUpdateData :=
  items.foldl sdApplyItem sd

/-- A well-formed serving of one state-diff block: positive total cost
(the claim's per-block count at least 1), no `Fin` inside the block, and
no proper prefix exhausting the block's budget (otherwise the streamer
would yield the block early at that point, which no serving matching the
expectations does). -/
def sdTailPos : List StateDiffsResponse → Bool
  | [] => true
  | _ :: items => (items.isEmpty || decide (1 ≤ sdItemCostSum items)) && sdTailPos items

def sdBlockWf (items : List StateDiffsResponse) : Bool :=
  decide (1 ≤ sdItemCostSum items)
    && items.all (fun r => decide (r ≠ StateDiffsResponse.fin)) && sdTailPos items

lemma state_diff_stream.sd_handle_item (r : StateDiffsResponse) (sd : StateUpdateData)
    (p : state_diff_stream.StateDiffStreamProgress) (l : Bool)
    (hnf : r ≠ .fin) (hk : sdItemCost r ≤ p.count) :
    state_diff_stream.handle_response r sd p l
      = (.tryYield, sdApplyItem sd r, { p with count := p.count - sdItemCost r }) := by
  rcases r with ⟨a, n, ch, vs⟩ | ⟨hh, cc⟩ | _
  · by_cases ha : a = systemAddress
    · simp only [sdItemCost, ha, if_true] at hk ⊢
      have hv : vs.length ≤ p.count := by omega
      simp [state_diff_stream.handle_response, checkedSub, hv, ha, sdApplyItem]
    · rcases n with _ | nv <;> rcases ch with _ | chv <;>
        simp only [sdItemCost, ha, if_false] at hk ⊢
      · have hv : vs.length ≤ p.count := by omega
        simp [state_diff_stream.handle_response, state_diff_stream.classStage,
          checkedSub, hv, ha, sdApplyItem]
      · have hv : vs.length ≤ p.count := by omega
        have h1 : 1 ≤ p.count - vs.length := by omega
        have hc : p.count - vs.length - 1 = p.count - (vs.length + (0 + 1)) := by omega
        simp [state_diff_stream.handle_response, state_diff_stream.classStage,
          checkedSub, hv, ha, h1, hc, sdApplyItem]
      · have hv : vs.length ≤ p.count := by omega
        have h1 : 1 ≤ p.count - vs.length := by omega
        have hc : p.count - vs.length - 1 = p.count - (vs.length + (1 + 0)) := by omega
        simp [state_diff_stream.handle_response, state_diff_stream.classStage,
          checkedSub, hv, ha, h1, hc, sdApplyItem]
      · have hv : vs.length ≤ p.count := by omega
        have h1 : 1 ≤ p.count - vs.length := by omega
        have h2 : 1 ≤ p.count - vs.length - 1 := by omega
        have hc : p.count - vs.length - 1 - 1 = p.count - (vs.length + (1 + 1)) := by omega
        simp [state_diff_stream.handle_response, state_diff_stream.classStage,
          checkedSub, hv, ha, h1, h2, hc, sdApplyItem]
  · simp only [sdItemCost] at hk ⊢
    simp [state_diff_stream.handle_response, checkedSub, hk, sdApplyItem]
  · exact absurd rfl hnf

lemma state_diff_stream.sd_try_yield_incomplete (peer : Nat)
    (p : state_diff_stream.StateDiffStreamProgress)
    (exps : List (Option (Nat × Nat))) (sd : StateUpdateData) (start stop : Nat)
    (h : p.count ≠ 0) :
    state_diff_stream.try_yield peer p exps sd start stop
      = ⟨false, p, exps, sd, start, []⟩ := by
  simp [state_diff_stream.try_yield, h]

/-- The continuation of the state-diff response loop right after a block's
final item. -/
def state_diff_stream.continueAfterYield (peer : Nat)
    (st : state_diff_stream.SdState) (sd : StateUpdateData)
    (rest : List StateDiffsResponse) :
    List state_diff_stream.SdOutput × state_diff_stream.SdState ×
      state_diff_stream.AttemptExit :=
  let r := state_diff_stream.try_yield peer { st.progress with count := 0 }
    st.expectations sd st.start st.stop
  if r.terminate then (r.sent, state_diff_stream.applyYield st r, .terminateStream)
  else
    let rec2 := state_diff_stream.runResponses peer
      (state_diff_stream.applyYield st r) r.state_diff rest
    (r.sent ++ rec2.1, rec2.2)

lemma state_diff_stream.sd_continueAfterYield_last (peer : Nat)
    (st : state_diff_stream.SdState) (sd : StateUpdateData)
    (rest : List StateDiffsResponse) (hlt : ¬ st.start < st.stop) :
    state_diff_stream.continueAfterYield peer st sd rest
      = ((⟨peer, (⟨st.progress.commitment, sd⟩, st.start)⟩ :
            state_diff_stream.SdOutput) ::
           (state_diff_stream.runResponses peer
             ⟨st.start, st.stop, st.expectations, { st.progress with count := 0 }⟩
             .empty rest).1,
         (state_diff_stream.runResponses peer
           ⟨st.start, st.stop, st.expectations, { st.progress with count := 0 }⟩
           .empty rest).2) := by
  simp [state_diff_stream.continueAfterYield, state_diff_stream.try_yield, hlt,
    state_diff_stream.applyYield]

lemma state_diff_stream.sd_continueAfterYield_next (peer : Nat)
    (st : state_diff_stream.SdState) (sd : StateUpdateData)
    (rest : List StateDiffsResponse) (c2 m2 : Nat)
    (exps2 : List (Option (Nat × Nat))) (hlt : st.start < st.stop)
    (hexps : st.expectations = some (c2, m2) :: exps2) :
    state_diff_stream.continueAfterYield peer st sd rest
      = ((⟨peer, (⟨st.progress.commitment, sd⟩, st.start)⟩ :
            state_diff_stream.SdOutput) ::
           (state_diff_stream.runResponses peer
             ⟨st.start + 1, st.stop, exps2, ⟨c2, m2, c2⟩⟩ .empty rest).1,
         (state_diff_stream.runResponses peer
           ⟨st.start + 1, st.stop, exps2, ⟨c2, m2, c2⟩⟩ .empty rest).2) := by
  simp [state_diff_stream.continueAfterYield, state_diff_stream.try_yield, hlt, hexps,
    state_diff_stream.applyYield, state_diff_stream.StateDiffStreamProgress.new]

lemma state_diff_stream.sd_runResponses_blockG :
    ∀ (items : List StateDiffsResponse),
      items ≠ [] → (∀ r ∈ items, r ≠ .fin) → sdTailPos items = true →
      ∀ (st : state_diff_stream.SdState) (sd : StateUpdateData)
        (rest : List StateDiffsResponse) (peer : Nat),
        st.progress.count = sdItemCostSum items →
        state_diff_stream.runResponses peer st sd (items ++ rest)
          = state_diff_stream.continueAfterYield peer st (sdFoldItems sd items) rest := by
  intro items
  induction items with
  | nil => intro hne; exact absurd rfl hne
  | cons r items ih =>
    intro _ hnf htp st sd rest peer hcount
    have hrnf : r ≠ .fin := hnf r (List.mem_cons_self _ _)
    have hnf' : ∀ x ∈ items, x ≠ .fin := fun x hx => hnf x (List.mem_cons_of_mem _ hx)
    simp only [sdTailPos, Bool.and_eq_true, Bool.or_eq_true, decide_eq_true_eq,
      List.isEmpty_iff] at htp
    obtain ⟨htp1, htp2⟩ := htp
    by_cases hie : items = []
    · subst hie
      simp only [List.cons_append, List.nil_append]
      rw [state_diff_stream.runResponses]
      rw [state_diff_stream.sd_handle_item r sd st.progress (st.start == st.stop) hrnf
        (by simp only [sdItemCostSum, List.map_cons, List.map_nil, List.sum_cons,
          List.sum_nil] at hcount; omega)]
      dsimp only
      rw [show ({ st.progress with count := st.progress.count - sdItemCost r } :
            state_diff_stream.StateDiffStreamProgress)
          = { st.progress with count := 0 } by
        rw [hcount]; simp [sdItemCostSum]]
      rw [state_diff_stream.continueAfterYield]
      rfl
    · have hS : 1 ≤ sdItemCostSum items := htp1.resolve_left hie
      have hc2 : st.progress.count - sdItemCost r = sdItemCostSum items := by
        simp only [sdItemCostSum, List.map_cons, List.sum_cons] at hcount ⊢
        omega
      simp only [List.cons_append]
      rw [state_diff_stream.runResponses]
      rw [state_diff_stream.sd_handle_item r sd st.progress (st.start == st.stop) hrnf
        (by simp only [sdItemCostSum, List.map_cons, List.sum_cons] at hcount; omega)]
      dsimp only
      rw [show ({ st.progress with count := st.progress.count - sdItemCost r } :
            state_diff_stream.StateDiffStreamProgress)
          = { st.progress with count := sdItemCostSum items } by rw [hc2]]
      rw [state_diff_stream.sd_try_yield_incomplete peer _ st.expectations _ st.start
        st.stop (by simp only; omega)]
      simp only [reduceIte]
      rw [show state_diff_stream.applyYield st
            ⟨false, { st.progress with count := sdItemCostSum items }, st.expectations,
             sdApplyItem sd r, st.start, []⟩
          = { st with progress := { st.progress with count := sdItemCostSum items } }
          from rfl]
      have hih := ih hie hnf' htp2
        { st with progress := { st.progress with count := sdItemCostSum items } }
        (sdApplyItem sd r) rest peer (by simp)
      rw [hih]
      rfl

/-- A cooperative state-diff peer's script: each block an arbitrary
well-formed list of wire items, then `Fin`. -/
def state_diff_stream.coopScript (bs : List (Nat × List StateDiffsResponse)) :
    List StateDiffsResponse :=
  (bs.map (fun b => b.2)).flatten ++ [.fin]

/-- The artifacts the state-diff streamer yields for the cooperative script:
per block, the fold of its items over a fresh accumulator. -/
def state_diff_stream.coopOutputs (peer : Nat) :
    Nat → List (Nat × List StateDiffsResponse) → List state_diff_stream.SdOutput
  | _, [] => []
  | start, (m, its) :: rest =>
    ⟨peer, (⟨m, sdFoldItems .empty its⟩, start)⟩ ::
      state_diff_stream.coopOutputs peer (start + 1) rest

/-- The expectation stream matching the cooperative blocks. -/
def state_diff_stream.coopExps (bs : List (Nat × List StateDiffsResponse)) :
    List (Option (Nat × Nat)) :=
  bs.map (fun b => some (sdItemCostSum b.2, b.1))

/-- The progress value left after the cooperative run. -/
def state_diff_stream.coopFinalProgress :
    Nat → Nat → List (Nat × List StateDiffsResponse) →
    state_diff_stream.StateDiffStreamProgress
  | m, bk, [] => ⟨0, m, bk⟩
  | _, _, (m2, its2) :: rest =>
    state_diff_stream.coopFinalProgress m2 (sdItemCostSum its2) rest

lemma sdBlockWf_parts (its : List StateDiffsResponse) (h : sdBlockWf its = true) :
    its ≠ [] ∧ 1 ≤ sdItemCostSum its ∧ (∀ r ∈ its, r ≠ .fin) ∧ sdTailPos its = true := by
  simp only [sdBlockWf, Bool.and_eq_true, decide_eq_true_eq, List.all_eq_true] at h
  obtain ⟨⟨h1, h2⟩, h3⟩ := h
  refine ⟨?_, h1, h2, h3⟩
  intro he
  subst he
  simp [sdItemCostSum] at h1

lemma state_diff_stream.sd_runResponses_coop :
    ∀ (bs : List (Nat × List StateDiffsResponse)) (m : Nat)
      (its : List StateDiffsResponse) (start peer bk : Nat),
      sdBlockWf its = true → (∀ b ∈ bs, sdBlockWf b.2 = true) →
      state_diff_stream.runResponses peer
          ⟨start, start + bs.length, state_diff_stream.coopExps bs,
           ⟨sdItemCostSum its, m, bk⟩⟩
          .empty (state_diff_stream.coopScript ((m, its) :: bs))
        = (state_diff_stream.coopOutputs peer start ((m, its) :: bs),
           ⟨start + bs.length, start + bs.length, [],
            state_diff_stream.coopFinalProgress m bk bs⟩, .terminateStream)
  | [], m, its, start, peer, bk, hwf, _ => by
    obtain ⟨hne, hpos, hnf, htp⟩ := sdBlockWf_parts its hwf
    have hblock := state_diff_stream.sd_runResponses_blockG its hne hnf htp
      ⟨start, start, state_diff_stream.coopExps [], ⟨sdItemCostSum its, m, bk⟩⟩
      .empty [.fin] peer rfl
    simp only [List.length_nil, Nat.add_zero]
    rw [show state_diff_stream.coopScript [(m, its)] = its ++ [.fin] by
      simp [state_diff_stream.coopScript]]
    rw [hblock]
    rw [state_diff_stream.sd_continueAfterYield_last peer
      ⟨start, start, state_diff_stream.coopExps [], ⟨sdItemCostSum its, m, bk⟩⟩ _ _
      (Nat.lt_irrefl start)]
    simp [state_diff_stream.runResponses, state_diff_stream.handle_response,
      state_diff_stream.coopOutputs, state_diff_stream.coopExps,
      state_diff_stream.coopFinalProgress]
  | (m2, its2) :: bs, m, its, start, peer, bk, hwf, hbs => by
    obtain ⟨hne, hpos, hnf, htp⟩ := sdBlockWf_parts its hwf
    have hwf2 : sdBlockWf its2 = true := hbs (m2, its2) (List.mem_cons_self _ _)
    have hbs' : ∀ b ∈ bs, sdBlockWf b.2 = true :=
      fun b hb => hbs b (List.mem_cons_of_mem _ hb)
    have hblock := state_diff_stream.sd_runResponses_blockG its hne hnf htp
      ⟨start, start + (bs.length + 1), state_diff_stream.coopExps ((m2, its2) :: bs),
       ⟨sdItemCostSum its, m, bk⟩⟩ .empty
      (state_diff_stream.coopScript ((m2, its2) :: bs)) peer rfl
    have hih := state_diff_stream.sd_runResponses_coop bs m2 its2 (start + 1) peer
      (sdItemCostSum its2) hwf2 hbs'
    rw [show state_diff_stream.coopScript ((m, its) :: (m2, its2) :: bs)
        = its ++ state_diff_stream.coopScript ((m2, its2) :: bs) by
      simp [state_diff_stream.coopScript]]
    simp only [List.length_cons]
    rw [hblock]
    rw [state_diff_stream.sd_continueAfterYield_next peer
      ⟨start, start + (bs.length + 1), state_diff_stream.coopExps ((m2, its2) :: bs),
       ⟨sdItemCostSum its, m, bk⟩⟩ _ _ (sdItemCostSum its2) m2
      (state_diff_stream.coopExps bs)
      (by omega : start < start + (bs.length + 1))
      (by simp [state_diff_stream.coopExps])]
    have harith : start + (bs.length + 1) = (start + 1) + bs.length := by omega
    rw [show (⟨start + 1, start + (bs.length + 1), state_diff_stream.coopExps bs,
           ⟨sdItemCostSum its2, m2, sdItemCostSum its2⟩⟩ : state_diff_stream.SdState)
        = ⟨start + 1, (start + 1) + bs.length, state_diff_stream.coopExps bs,
           ⟨sdItemCostSum its2, m2, sdItemCostSum its2⟩⟩ by
      rw [harith]]
    rw [hih]
    simp [state_diff_stream.coopOutputs, state_diff_stream.coopFinalProgress, harith]

lemma state_diff_stream.sd_runPeers_coop (bs : List (Nat × List StateDiffsResponse))
    (m : Nat) (its : List StateDiffsResponse) (start peer : Nat)
    (hwf : sdBlockWf its = true) (hbs : ∀ b ∈ bs, sdBlockWf b.2 = true) :
    state_diff_stream.runPeers
        ⟨start, start + bs.length, state_diff_stream.coopExps bs,
         .new (sdItemCostSum its, m)⟩
        [⟨peer, some (state_diff_stream.coopScript ((m, its) :: bs))⟩]
      = (state_diff_stream.coopOutputs peer start ((m, its) :: bs),
         ⟨start + bs.length, start + bs.length, [],
          state_diff_stream.coopFinalProgress m (sdItemCostSum its) bs⟩, true) := by
  rw [state_diff_stream.runPeers]
  simp only
  rw [show ({ (⟨start, start + bs.length, state_diff_stream.coopExps bs,
        .new (sdItemCostSum its, m)⟩ : state_diff_stream.SdState) with
        progress := state_diff_stream.StateDiffStreamProgress.rollback
          (.new (sdItemCostSum its, m)) } : state_diff_stream.SdState)
      = ⟨start, start + bs.length, state_diff_stream.coopExps bs,
         ⟨sdItemCostSum its, m, sdItemCostSum its⟩⟩ from rfl]
  rw [state_diff_stream.sd_runResponses_coop bs m its start peer (sdItemCostSum its)
    hwf hbs]

lemma state_diff_stream.sd_coopOutputs_blockNums :
    ∀ (bs : List (Nat × List StateDiffsResponse)) (peer start : Nat),
      (state_diff_stream.coopOutputs peer start bs).map (fun o => o.data.2)
        = List.range' start bs.length
  | [], _, _ => rfl
  | (m, its) :: bs, peer, start => by
    rw [state_diff_stream.coopOutputs]
    simp only [List.length_cons, List.range'_succ, List.map_cons]
    rw [state_diff_stream.sd_coopOutputs_blockNums bs peer (start + 1)]

/-! ### Event streamer cooperative family -/

/-- The wire items of one block, group by group: all events of a group carry
that group's transaction hash. -/
def event_stream.groupScript (gs : List (Nat × List Nat)) :
    List event_stream.EventsResponse :=
  (gs.map (fun g => g.2.map (fun p => event_stream.EventsResponse.event g.1 (some p)))).flatten

/-- A cooperative event peer's script: block by block, each block a list of
transaction groups.  The event streamer never reads past the last block's
items, so no `Fin` is needed. -/
def event_stream.coopScript (bs : List (List (Nat × List Nat))) :
    List event_stream.EventsResponse :=
  (bs.map event_stream.groupScript).flatten

/-- The expected event count of one block: the total number of events over
its groups. -/
def event_stream.groupLen (gs : List (Nat × List Nat)) : Nat :=
  (gs.map (fun g => g.2.length)).sum

/-- The count stream matching the cooperative blocks. -/
def event_stream.coopCounts (bs : List (List (Nat × List Nat))) : List (Option Nat) :=
  bs.map (fun gs => some (event_stream.groupLen gs))

/-- The artifacts the event streamer yields for the cooperative script: one
per block, carrying the block's groups exactly as served. -/
def event_stream.coopOutputs (peer : Nat) :
    Nat → List (List (Nat × List Nat)) → List event_stream.EvOutput
  | _, [] => []
  | start, gs :: rest =>
    ⟨peer, (start, gs)⟩ :: event_stream.coopOutputs peer (start + 1) rest

/-- The `current_txn` marker after a block's groups have been consumed. -/
def event_stream.carryAfter : Option Nat → List (Nat × List Nat) → Option Nat
  | c, [] => c
  | _, g :: gs => event_stream.carryAfter (some g.1) gs

/-- Adjacent groups carry distinct transaction hashes, and the first group's
hash differs from the carried `current_txn` marker. -/
def event_stream.okCarry : Option Nat → List (Nat × List Nat) → Bool
  | _, [] => true
  | c, (t, _) :: rest => decide (c ≠ some t) && event_stream.okCarry (some t) rest

/-- The carried marker never collides across block boundaries either: the
hash-adjacency condition threaded through a whole run (true of any real
chain, where a transaction's events live in one block). -/
def event_stream.okBlocks : Option Nat → List (List (Nat × List Nat)) → Bool
  | _, [] => true
  | c, gs :: rest =>
    event_stream.okCarry c gs
      && event_stream.okBlocks (event_stream.carryAfter c gs) rest

/-- Every group of the block has at least one event. -/
def event_stream.evBlockWf (gs : List (Nat × List Nat)) : Bool :=
  gs.all (fun g => !g.2.isEmpty)

lemma event_stream.innerLoop_same (qs : List Nat) :
    ∀ (n t : Nat) (acc : List (Nat × List Nat)) (grp : List Nat) (peer : Nat)
      (rest : List event_stream.EventsResponse),
      event_stream.innerLoop peer (qs.length + n) (some t) (acc ++ [(t, grp)])
          (qs.map (fun p => event_stream.EventsResponse.event t (some p)) ++ rest)
        = event_stream.innerLoop peer n (some t) (acc ++ [(t, grp ++ qs)]) rest := by
  induction qs with
  | nil =>
    intro n t acc grp peer rest
    simp
  | cons q qs ih =>
    intro n t acc grp peer rest
    rw [show (q :: qs).length + n = (qs.length + n) + 1 by simp; omega]
    simp only [List.map_cons, List.cons_append]
    rw [event_stream.innerLoop]
    simp only [event_stream.handle_response, if_pos rfl, List.getLast?_concat,
      List.dropLast_concat]
    have := ih n t acc (grp ++ [q]) peer rest
    simp only [List.append_assoc, List.singleton_append] at this ⊢
    exact this

lemma event_stream.innerLoop_group (t : Nat) (ps : List Nat) (c : Option Nat)
    (acc : List (Nat × List Nat)) (n peer : Nat)
    (rest : List event_stream.EventsResponse) (hps : ps ≠ []) (hc : c ≠ some t) :
    event_stream.innerLoop peer (ps.length + n) c acc
        (ps.map (fun p => event_stream.EventsResponse.event t (some p)) ++ rest)
      = event_stream.innerLoop peer n (some t) (acc ++ [(t, ps)]) rest := by
  obtain ⟨p0, ps', rfl⟩ := List.exists_cons_of_ne_nil hps
  rw [show (p0 :: ps').length + n = (ps'.length + n) + 1 by simp; omega]
  simp only [List.map_cons, List.cons_append]
  rw [event_stream.innerLoop]
  have hstep : event_stream.handle_response (.event t (some p0)) c acc
      = .ok (some t) (acc ++ [(t, [p0])]) := by
    cases c with
    | none => simp [event_stream.handle_response]
    | some x =>
      have hx : x ≠ t := fun h => hc (by rw [h])
      simp [event_stream.handle_response, hx]
  rw [hstep]
  have := event_stream.innerLoop_same ps' n t acc [p0] peer rest
  simpa using this

lemma event_stream.innerLoop_groups :
    ∀ (gs : List (Nat × List Nat)) (c : Option Nat) (acc : List (Nat × List Nat))
      (n peer : Nat) (rest : List event_stream.EventsResponse),
      event_stream.okCarry c gs = true → event_stream.evBlockWf gs = true →
      event_stream.innerLoop peer (event_stream.groupLen gs + n) c acc
          (event_stream.groupScript gs ++ rest)
        = event_stream.innerLoop peer n (event_stream.carryAfter c gs) (acc ++ gs) rest
  | [], c, acc, n, peer, rest, _, _ => by
    simp [event_stream.groupLen, event_stream.groupScript, event_stream.carryAfter]
  | (t, ps) :: gs, c, acc, n, peer, rest, hok, hwf => by
    simp only [event_stream.okCarry, Bool.and_eq_true, decide_eq_true_eq] at hok
    obtain ⟨hc, hok'⟩ := hok
    rw [show event_stream.evBlockWf ((t, ps) :: gs)
        = ((!ps.isEmpty) && event_stream.evBlockWf gs) from rfl] at hwf
    simp only [Bool.and_eq_true, Bool.not_eq_true', List.isEmpty_eq_false] at hwf
    obtain ⟨hps, hwf''⟩ := hwf
    rw [show event_stream.groupLen ((t, ps) :: gs) + n
        = ps.length + (event_stream.groupLen gs + n) by
      simp [event_stream.groupLen]; omega]
    rw [show event_stream.groupScript ((t, ps) :: gs)
        = ps.map (fun p => event_stream.EventsResponse.event t (some p))
            ++ event_stream.groupScript gs by
      simp [event_stream.groupScript]]
    rw [List.append_assoc]
    rw [event_stream.innerLoop_group t ps c acc (event_stream.groupLen gs + n) peer
      (event_stream.groupScript gs ++ rest) hps hc]
    rw [event_stream.innerLoop_groups gs (some t) (acc ++ [(t, ps)]) n peer rest
      hok' hwf'']
    simp [event_stream.carryAfter, List.append_assoc]

lemma event_stream.ev_blockLoop_coop :
    ∀ (bs : List (List (Nat × List Nat))) (gs : List (Nat × List Nat))
      (start peer bk : Nat) (c : Option Nat),
      event_stream.evBlockWf gs = true → event_stream.okCarry c gs = true →
      event_stream.okBlocks (event_stream.carryAfter c gs) bs = true →
      (∀ b ∈ bs, event_stream.evBlockWf b = true) →
      event_stream.blockLoop peer (start + bs.length) (event_stream.coopCounts bs) start
          ⟨event_stream.groupLen gs, bk⟩ c (event_stream.coopScript (gs :: bs))
        = .terminated (event_stream.coopOutputs peer start (gs :: bs))
            (start + bs.length) []
  | [], gs, start, peer, bk, c, hwf, hok, _, _ => by
    have hinner : event_stream.innerLoop peer (event_stream.groupLen gs) c []
        (event_stream.groupScript gs)
        = .completed gs (event_stream.carryAfter c gs) [] := by
      have := event_stream.innerLoop_groups gs c [] 0 peer [] hok hwf
      simpa [event_stream.innerLoop] using this
    simp only [event_stream.coopCounts, List.map_nil, List.length_nil, Nat.add_zero]
    rw [show event_stream.coopScript [gs] = event_stream.groupScript gs ++ [] by
      simp [event_stream.coopScript]]
    simp only [List.append_nil] at hinner ⊢
    rw [event_stream.blockLoop]
    rw [if_pos (Nat.le_refl start)]
    rw [show (⟨event_stream.groupLen gs, bk⟩ : BlockProgress).count
      = event_stream.groupLen gs from rfl]
    rw [hinner]
    simp [event_stream.coopOutputs]
    intro cnt counts' h
    exact List.noConfusion h
  | gs2 :: bs, gs, start, peer, bk, c, hwf, hok, hokb, hbs => by
    have hwf2 : event_stream.evBlockWf gs2 = true := hbs gs2 (List.mem_cons_self _ _)
    have hbs' : ∀ b ∈ bs, event_stream.evBlockWf b = true :=
      fun b hb => hbs b (List.mem_cons_of_mem _ hb)
    rw [show event_stream.okBlocks (event_stream.carryAfter c gs) (gs2 :: bs)
        = (event_stream.okCarry (event_stream.carryAfter c gs) gs2
            && event_stream.okBlocks
              (event_stream.carryAfter (event_stream.carryAfter c gs) gs2) bs)
        from rfl] at hokb
    simp only [Bool.and_eq_true] at hokb
    obtain ⟨hok2, hokb'⟩ := hokb
    have hinner : event_stream.innerLoop peer (event_stream.groupLen gs) c []
        (event_stream.groupScript gs ++ event_stream.coopScript (gs2 :: bs))
        = .completed gs (event_stream.carryAfter c gs)
            (event_stream.coopScript (gs2 :: bs)) := by
      have := event_stream.innerLoop_groups gs c [] 0 peer
        (event_stream.coopScript (gs2 :: bs)) hok hwf
      simpa [event_stream.innerLoop] using this
    have hih := event_stream.ev_blockLoop_coop bs gs2 (start + 1) peer
      (event_stream.groupLen gs2) (event_stream.carryAfter c gs) hwf2 hok2 hokb' hbs'
    rw [show event_stream.coopScript (gs :: gs2 :: bs)
        = event_stream.groupScript gs ++ event_stream.coopScript (gs2 :: bs) by
      simp [event_stream.coopScript]]
    rw [show event_stream.coopCounts (gs2 :: bs)
        = some (event_stream.groupLen gs2) :: event_stream.coopCounts bs from rfl]
    rw [event_stream.blockLoop]
    rw [if_pos (by simp only [List.length_cons]; omega :
      start ≤ start + (gs2 :: bs).length)]
    rw [show (⟨event_stream.groupLen gs, bk⟩ : BlockProgress).count
      = event_stream.groupLen gs from rfl]
    rw [hinner]
    have hne : ¬ start = start + (gs2 :: bs).length := by
      simp only [List.length_cons]; omega
    have harith : start + (gs2 :: bs).length = (start + 1) + bs.length := by
      simp only [List.length_cons]; omega
    dsimp only
    rw [if_neg hne, harith]
    rw [show (BlockProgress.new (event_stream.groupLen gs2))
        = (⟨event_stream.groupLen gs2, event_stream.groupLen gs2⟩ : BlockProgress)
      from rfl]
    rw [hih]
    simp [event_stream.BlockLoopRes.prepend, event_stream.coopOutputs, harith]

lemma event_stream.ev_runPeers_coop (bs : List (List (Nat × List Nat)))
    (gs : List (Nat × List Nat)) (start peer : Nat)
    (hwf : ∀ b ∈ gs :: bs, event_stream.evBlockWf b = true)
    (hok : event_stream.okBlocks none (gs :: bs) = true) :
    event_stream.runPeers
        ⟨start, start + bs.length, event_stream.coopCounts bs,
         .new (event_stream.groupLen gs)⟩
        [⟨peer, some (event_stream.coopScript (gs :: bs))⟩]
      = (event_stream.coopOutputs peer start (gs :: bs),
         ⟨start + bs.length, start + bs.length, [],
          ⟨event_stream.groupLen gs, event_stream.groupLen gs⟩⟩, .terminated) := by
  rw [show event_stream.okBlocks none (gs :: bs)
      = (event_stream.okCarry none gs
          && event_stream.okBlocks (event_stream.carryAfter none gs) bs) from rfl] at hok
  simp only [Bool.and_eq_true] at hok
  rw [event_stream.runPeers]
  simp only
  rw [show (BlockProgress.new (event_stream.groupLen gs)).rollback
      = (⟨event_stream.groupLen gs, event_stream.groupLen gs⟩ : BlockProgress) from rfl]
  rw [event_stream.ev_blockLoop_coop bs gs start peer (event_stream.groupLen gs) none
    (hwf gs (List.mem_cons_self _ _)) hok.1 hok.2
    (fun b hb => hwf b (List.mem_cons_of_mem _ hb))]
  rfl

lemma event_stream.ev_coopOutputs_blockNums :
    ∀ (bs : List (List (Nat × List Nat))) (peer start : Nat),
      (event_stream.coopOutputs peer start bs).map (fun o => o.data.1)
        = List.range' start bs.length
  | [], _, _ => rfl
  | gs :: bs, peer, start => by
    rw [event_stream.coopOutputs]
    simp only [List.length_cons, List.range'_succ, List.map_cons]
    rw [event_stream.ev_coopOutputs_blockNums bs peer (start + 1)]

/-! ### Class-definition streamer cooperative family -/

/-- One served class definition: `false` for a Cairo-zero class, `true` for
a Sierra class, with the definition payload. -/
def class_definition_stream.clsItemOf : Bool × Nat → class_definition_stream.ClassesResponse
  | (false, d) => .cairo0 (some d)
  | (true, d) => .cairo1 (some d)

/-- The artifact one served class parses to. -/
def class_definition_stream.clsDefOf (block : Nat) :
    Bool × Nat → class_definition_stream.ClassDefinition
  | (false, d) => .cairo block d
  | (true, d) => .sierra block d

/-- A cooperative class peer's script: block by block, each block's declared
classes as parsed Cairo-zero or Sierra definitions.  The class streamer
never reads past the last block's items, so no `Fin` is needed. -/
def class_definition_stream.coopScript (bs : List (List (Bool × Nat))) :
    List class_definition_stream.ClassesResponse :=
  (bs.map (fun ps => ps.map class_definition_stream.clsItemOf)).flatten

/-- The artifacts the class streamer yields for the cooperative script:
each class is a separate artifact carrying its block number. -/
def class_definition_stream.coopOutputs (peer : Nat) :
    Nat → List (List (Bool × Nat)) → List class_definition_stream.ClsOutput
  | _, [] => []
  | b, ps :: rest =>
    ps.map (fun i => ⟨peer, class_definition_stream.clsDefOf b i⟩)
      ++ class_definition_stream.coopOutputs peer (b + 1) rest

/-- The count stream matching the cooperative blocks. -/
def class_definition_stream.coopCounts (bs : List (List (Bool × Nat))) :
    List (Option Nat) :=
  bs.map (fun ps => some ps.length)

lemma class_definition_stream.innerLoop_items (ps : List (Bool × Nat)) :
    ∀ (block : Nat) (defs : List class_definition_stream.ClassDefinition)
      (rest : List class_definition_stream.ClassesResponse),
      class_definition_stream.innerLoop block ps.length defs
          (ps.map class_definition_stream.clsItemOf ++ rest)
        = .completed (defs ++ ps.map (class_definition_stream.clsDefOf block)) rest := by
  induction ps with
  | nil =>
    intro block defs rest
    simp [class_definition_stream.innerLoop]
  | cons p ps ih =>
    intro block defs rest
    rw [show (p :: ps).length = ps.length + 1 by simp]
    simp only [List.map_cons, List.cons_append]
    rw [class_definition_stream.innerLoop]
    rw [show class_definition_stream.handle_response
        (class_definition_stream.clsItemOf p) block
        = some (class_definition_stream.clsDefOf block p) by
      rcases p with ⟨_ | _, d⟩ <;> rfl]
    have := ih block (defs ++ [class_definition_stream.clsDefOf block p]) rest
    simp only [List.append_assoc, List.singleton_append] at this ⊢
    exact this

lemma class_definition_stream.cls_blockLoop_coop :
    ∀ (bs : List (List (Bool × Nat))) (ps : List (Bool × Nat)) (start peer bk : Nat),
      class_definition_stream.blockLoop peer (start + bs.length)
          (class_definition_stream.coopCounts bs) start ⟨ps.length, bk⟩
          (class_definition_stream.coopScript (ps :: bs))
        = .terminated (class_definition_stream.coopOutputs peer start (ps :: bs))
            (start + bs.length) []
  | [], ps, start, peer, bk => by
    have hinner := class_definition_stream.innerLoop_items ps start [] []
    simp only [class_definition_stream.coopCounts, List.map_nil, List.length_nil,
      Nat.add_zero]
    rw [show class_definition_stream.coopScript [ps]
        = ps.map class_definition_stream.clsItemOf ++ [] by
      simp [class_definition_stream.coopScript]]
    rw [class_definition_stream.blockLoop]
    rw [if_pos (Nat.le_refl start)]
    rw [show (⟨ps.length, bk⟩ : BlockProgress).count = ps.length from rfl]
    rw [hinner]
    simp [class_definition_stream.coopOutputs]
    intro cnt counts' h
    exact List.noConfusion h
  | ps2 :: bs, ps, start, peer, bk => by
    have hinner := class_definition_stream.innerLoop_items ps start []
      (class_definition_stream.coopScript (ps2 :: bs))
    have hih := class_definition_stream.cls_blockLoop_coop bs ps2 (start + 1) peer ps2.length
    rw [show class_definition_stream.coopScript (ps :: ps2 :: bs)
        = ps.map class_definition_stream.clsItemOf
            ++ class_definition_stream.coopScript (ps2 :: bs) by
      simp [class_definition_stream.coopScript]]
    rw [show class_definition_stream.coopCounts (ps2 :: bs)
        = some ps2.length :: class_definition_stream.coopCounts bs from rfl]
    rw [class_definition_stream.blockLoop]
    rw [if_pos (by simp only [List.length_cons]; omega :
      start ≤ start + (ps2 :: bs).length)]
    rw [show (⟨ps.length, bk⟩ : BlockProgress).count = ps.length from rfl]
    rw [hinner]
    have hne : ¬ start = start + (ps2 :: bs).length := by
      simp only [List.length_cons]; omega
    have harith : start + (ps2 :: bs).length = (start + 1) + bs.length := by
      simp only [List.length_cons]; omega
    dsimp only
    rw [if_neg hne, harith]
    rw [show (BlockProgress.new ps2.length) = (⟨ps2.length, ps2.length⟩ : BlockProgress)
      from rfl]
    rw [hih]
    simp [class_definition_stream.BlockLoopRes.prepend,
      class_definition_stream.coopOutputs, harith]

lemma class_definition_stream.cls_runPeers_coop (bs : List (List (Bool × Nat)))
    (ps : List (Bool × Nat)) (start peer : Nat) :
    class_definition_stream.runPeers
        ⟨start, start + bs.length, class_definition_stream.coopCounts bs, .new ps.length⟩
        [⟨peer, some (class_definition_stream.coopScript (ps :: bs))⟩]
      = (class_definition_stream.coopOutputs peer start (ps :: bs),
         ⟨start + bs.length, start + bs.length, [], ⟨ps.length, ps.length⟩⟩, true) := by
  rw [class_definition_stream.runPeers]
  simp only
  rw [show (BlockProgress.new ps.length).rollback
      = (⟨ps.length, ps.length⟩ : BlockProgress) from rfl]
  rw [class_definition_stream.cls_blockLoop_coop bs ps start peer ps.length]
  rfl

/-- Claim C2, counterexample.  The claim promises one artifact per block for
every forward streamer on any cooperative run.  (a) With `start = 0`,
`stop = 1` and expected counts `[1, 0]`, a cooperative transaction peer
serving block 0's single transaction and block 1 as empty, followed by
`Fin`, produces only ONE artifact (block 1 is never yielded: the streamer
terminates on the final `Fin` without emitting the empty block).  (b) The
class streamer yields one artifact per declared class, not per block: a
single block with two declared classes produces two artifacts. -/
theorem claim_C2_counterexample :
    transaction_stream.make 0 1 [some (1, 100), some (0, 200)]
        [⟨3, some (transaction_stream.coopScript [(100, [11]), (200, [])])⟩]
      = ([⟨3, (⟨100, [(11, 0)]⟩, 0)⟩], true) ∧
    (transaction_stream.make 0 1 [some (1, 100), some (0, 200)]
        [⟨3, some (transaction_stream.coopScript [(100, [11]), (200, [])])⟩]).1.length
      ≠ 2 ∧
    class_definition_stream.make 4 4 [some 2]
        [⟨3, some (class_definition_stream.coopScript [[(false, 8), (false, 9)]])⟩]
      = ([⟨3, .cairo 4 8⟩, ⟨3, .cairo 4 9⟩], true) ∧
    (class_definition_stream.make 4 4 [some 2]
        [⟨3, some (class_definition_stream.coopScript [[(false, 8), (false, 9)]])⟩]).1.length
      ≠ 1 := by
  exact ⟨by decide, by decide, by decide, by decide⟩

/-- Claim C2, amended: coverage for cooperative peers over every well-formed
serving, when each expected per-block count is at least 1 and — for the
event streamer — the transaction hash carried across a group or block
boundary always differs from the next group's hash (dropping that condition
makes the claim false: the C10 input panics).  Transaction blocks are any
lists of parsed transaction items of the expected lengths; state-diff
blocks any mixes of contract-diff, system-contract-diff and declared-class
items whose total cost equals the block's expected count with no proper
prefix exhausting it; event blocks any lists of transaction groups; class
blocks any mixes of Cairo-zero and Sierra definitions.  Each streamer
yields its artifacts in strictly increasing block-number order and
terminates with the expectation stream fully consumed; the transaction,
state-diff and event streamers yield exactly one artifact per block (the
block-number projection of the outputs is `List.range' start n`); the
class streamer yields one artifact per declared class, flushed block by
block. -/
theorem claim_C2 :
    (∀ (m : Nat) (ps : List Nat) (bs : List (Nat × List Nat)) (start peer : Nat),
      ps ≠ [] → (∀ b ∈ bs, b.2 ≠ []) →
      transaction_stream.runPeers
          ⟨start, start + bs.length, transaction_stream.coopExps bs, .new (ps.length, m)⟩
          [⟨peer, some (transaction_stream.coopScript ((m, ps) :: bs))⟩]
        = (transaction_stream.coopOutputs peer start ((m, ps) :: bs),
           ⟨start + bs.length, start + bs.length, [],
            transaction_stream.coopFinalProgress m ps.length bs⟩, true)) ∧
    (∀ (bs : List (Nat × List Nat)) (peer start : Nat),
      (transaction_stream.coopOutputs peer start bs).map (fun o => o.data.2)
        = List.range' start bs.length) ∧
    (∀ (m : Nat) (its : List StateDiffsResponse)
        (bs : List (Nat × List StateDiffsResponse)) (start peer : Nat),
      sdBlockWf its = true → (∀ b ∈ bs, sdBlockWf b.2 = true) →
      state_diff_stream.runPeers
          ⟨start, start + bs.length, state_diff_stream.coopExps bs,
           .new (sdItemCostSum its, m)⟩
          [⟨peer, some (state_diff_stream.coopScript ((m, its) :: bs))⟩]
        = (state_diff_stream.coopOutputs peer start ((m, its) :: bs),
           ⟨start + bs.length, start + bs.length, [],
            state_diff_stream.coopFinalProgress m (sdItemCostSum its) bs⟩, true)) ∧
    (∀ (bs : List (Nat × List StateDiffsResponse)) (peer start : Nat),
      (state_diff_stream.coopOutputs peer start bs).map (fun o => o.data.2)
        = List.range' start bs.length) ∧
    (∀ (gs : List (Nat × List Nat)) (bs : List (List (Nat × List Nat)))
        (start peer : Nat),
      (∀ b ∈ gs :: bs, event_stream.evBlockWf b = true) →
      event_stream.okBlocks none (gs :: bs) = true →
      event_stream.runPeers
          ⟨start, start + bs.length, event_stream.coopCounts bs,
           .new (event_stream.groupLen gs)⟩
          [⟨peer, some (event_stream.coopScript (gs :: bs))⟩]
        = (event_stream.coopOutputs peer start (gs :: bs),
           ⟨start + bs.length, start + bs.length, [],
            ⟨event_stream.groupLen gs, event_stream.groupLen gs⟩⟩, .terminated)) ∧
    (∀ (bs : List (List (Nat × List Nat))) (peer start : Nat),
      (event_stream.coopOutputs peer start bs).map (fun o => o.data.1)
        = List.range' start bs.length) ∧
    (∀ (ps : List (Bool × Nat)) (bs : List (List (Bool × Nat))) (start peer : Nat),
      class_definition_stream.runPeers
          ⟨start, start + bs.length, class_definition_stream.coopCounts bs,
           .new ps.length⟩
          [⟨peer, some (class_definition_stream.coopScript (ps :: bs))⟩]
        = (class_definition_stream.coopOutputs peer start (ps :: bs),
           ⟨start + bs.length, start + bs.length, [], ⟨ps.length, ps.length⟩⟩, true)) := by
  refine ⟨?_, ?_, ?_, ?_, ?_, ?_, ?_⟩
  · intro m ps bs start peer hps hbs
    exact transaction_stream.txn_runPeers_coop bs m ps start peer hps hbs
  · intro bs peer start
    exact transaction_stream.txn_coopOutputs_blockNums bs peer start
  · intro m its bs start peer hwf hbs
    exact state_diff_stream.sd_runPeers_coop bs m its start peer hwf hbs
  · intro bs peer start
    exact state_diff_stream.sd_coopOutputs_blockNums bs peer start
  · intro gs bs start peer hwf hok
    exact event_stream.ev_runPeers_coop bs gs start peer hwf hok
  · intro bs peer start
    exact event_stream.ev_coopOutputs_blockNums bs peer start
  · intro ps bs start peer
    exact class_definition_stream.cls_runPeers_coop bs ps start peer

/-- Claim C2 witness: the coverage conjuncts applied to concrete two-block
runs, with mixed state-diff items (a full contract diff, a declared class,
and a system-contract diff), a multi-group event block, and mixed
Cairo-zero / Sierra class definitions. -/
theorem claim_C2_witness :
    transaction_stream.runPeers
        ⟨5, 5 + 1, transaction_stream.coopExps [(200, [21])], .new (2, 100)⟩
        [⟨3, some (transaction_stream.coopScript [(100, [11, 12]), (200, [21])])⟩]
      = (transaction_stream.coopOutputs 3 5 [(100, [11, 12]), (200, [21])],
         ⟨5 + 1, 5 + 1, [], transaction_stream.coopFinalProgress 100 2 [(200, [21])]⟩,
         true) ∧
    (sdBlockWf [.contractDiff 5 (some 9) (some 7) [(1, 2)], .declaredClass 8 (some 6)]
        = true ∧
      state_diff_stream.runPeers
        ⟨5, 5 + 1,
         state_diff_stream.coopExps [(200, [.contractDiff 1 none none [(3, 4)]])],
         .new (sdItemCostSum
           [.contractDiff 5 (some 9) (some 7) [(1, 2)], .declaredClass 8 (some 6)], 100)⟩
        [⟨3, some (state_diff_stream.coopScript
          [(100, [.contractDiff 5 (some 9) (some 7) [(1, 2)], .declaredClass 8 (some 6)]),
           (200, [.contractDiff 1 none none [(3, 4)]])])⟩]
      = (state_diff_stream.coopOutputs 3 5
          [(100, [.contractDiff 5 (some 9) (some 7) [(1, 2)], .declaredClass 8 (some 6)]),
           (200, [.contractDiff 1 none none [(3, 4)]])],
         ⟨5 + 1, 5 + 1, [],
          state_diff_stream.coopFinalProgress 100
            (sdItemCostSum
              [.contractDiff 5 (some 9) (some 7) [(1, 2)], .declaredClass 8 (some 6)])
            [(200, [.contractDiff 1 none none [(3, 4)]])]⟩, true)) ∧
    (event_stream.okBlocks none [[(7, [30]), (9, [31, 32])], [(8, [33])]] = true ∧
      event_stream.runPeers
        ⟨5, 5 + 1, event_stream.coopCounts [[(8, [33])]],
         .new (event_stream.groupLen [(7, [30]), (9, [31, 32])])⟩
        [⟨3, some (event_stream.coopScript [[(7, [30]), (9, [31, 32])], [(8, [33])]])⟩]
      = (event_stream.coopOutputs 3 5 [[(7, [30]), (9, [31, 32])], [(8, [33])]],
         ⟨5 + 1, 5 + 1, [],
          ⟨event_stream.groupLen [(7, [30]), (9, [31, 32])],
           event_stream.groupLen [(7, [30]), (9, [31, 32])]⟩⟩, .terminated)) ∧
    class_definition_stream.runPeers
        ⟨4, 4 + 1, class_definition_stream.coopCounts [[(true, 10)]], .new 2⟩
        [⟨3, some (class_definition_stream.coopScript
          [[(false, 8), (true, 9)], [(true, 10)]])⟩]
      = (class_definition_stream.coopOutputs 3 4 [[(false, 8), (true, 9)], [(true, 10)]],
         ⟨4 + 1, 4 + 1, [], ⟨2, 2⟩⟩, true) :=
  ⟨claim_C2.1 100 [11, 12] [(200, [21])] 5 3 (by decide) (by decide),
   ⟨by decide,
     claim_C2.2.2.1 100
       [.contractDiff 5 (some 9) (some 7) [(1, 2)], .declaredClass 8 (some 6)]
       [(200, [.contractDiff 1 none none [(3, 4)]])] 5 3 (by decide) (by decide)⟩,
   ⟨by decide,
     claim_C2.2.2.2.2.1 [(7, [30]), (9, [31, 32])] [[(8, [33])]] 5 3
       (by decide) (by decide)⟩,
   claim_C2.2.2.2.2.2.2 [(false, 8), (true, 9)] [[(true, 10)]] 4 3⟩

/-! ### Rollback / no-partial-leakage lemmas -/

lemma transaction_stream.txn_handle_response_pres (resp : transaction_stream.TransactionsResponse)
    (pr : transaction_stream.TransactionStreamProgress) (i : Nat) (l : Bool) :
    (transaction_stream.handle_response resp pr i l).2.commitment = pr.commitment ∧
    (transaction_stream.handle_response resp pr i l).2.count_backup = pr.count_backup := by
  cases resp with
  | transactionWithReceipt parsed =>
    cases parsed with
    | none => exact ⟨rfl, rfl⟩
    | some t =>
      simp only [transaction_stream.handle_response]
      rcases h : checkedSub pr.count 1 with _ | x <;> simp
  | fin =>
    simp only [transaction_stream.handle_response]
    split <;> try split
    all_goals exact ⟨rfl, rfl⟩

lemma transaction_stream.txn_try_yield_sent_nil (peer : Nat)
    (p : transaction_stream.TransactionStreamProgress)
    (exps : List (Option (Nat × Nat))) (txs : List (Nat × Nat)) (start stop : Nat)
    (h : (transaction_stream.try_yield peer p exps txs start stop).sent = []) :
    transaction_stream.try_yield peer p exps txs start stop
      = ⟨false, p, exps, txs, start, []⟩ := by
  by_cases h0 : p.count = 0
  · exfalso
    by_cases hlt : start < stop
    · rcases exps with _ | ⟨_ | x, rest⟩ <;>
        simp [transaction_stream.try_yield, h0, hlt] at h
    · simp [transaction_stream.try_yield, h0, hlt] at h
  · simp [transaction_stream.try_yield, h0]

lemma transaction_stream.txn_runResponses_noOutput :
    ∀ (R : List transaction_stream.TransactionsResponse)
      (st : transaction_stream.TxnState) (acc : List (Nat × Nat)) (peer : Nat)
      (st' : transaction_stream.TxnState) (e : transaction_stream.AttemptExit),
      transaction_stream.runResponses peer st acc R = ([], st', e) →
      st'.start = st.start ∧ st'.stop = st.stop ∧
      st'.expectations = st.expectations ∧
      st'.progress.commitment = st.progress.commitment ∧
      st'.progress.count_backup = st.progress.count_backup
  | [], st, acc, peer, st', e => by
    intro h
    rw [transaction_stream.runResponses] at h
    split at h
    all_goals
      injection h with h1 h2
      injection h2 with h2 h3
      subst h2
      exact ⟨rfl, rfl, rfl, rfl, rfl⟩
  | resp :: rest, st, acc, peer, st', e => by
    intro h
    rw [transaction_stream.runResponses] at h
    rcases hhr : transaction_stream.handle_response resp st.progress acc.length
        (st.start == st.stop) with ⟨a, p⟩
    have hpres := transaction_stream.txn_handle_response_pres resp st.progress acc.length
      (st.start == st.stop)
    rw [hhr] at h hpres
    cases a with
    | nextPeer =>
      simp only at h
      injection h with h1 h2; injection h2 with h2 h3; subst h2
      exact ⟨rfl, rfl, rfl, hpres.1, hpres.2⟩
    | terminateStream =>
      simp only at h
      injection h with h1 h2; injection h2 with h2 h3; subst h2
      exact ⟨rfl, rfl, rfl, hpres.1, hpres.2⟩
    | tryYield t =>
      simp only at h
      by_cases hterm : (transaction_stream.try_yield peer p st.expectations
          (acc ++ [t]) st.start st.stop).terminate
      · rw [if_pos hterm] at h
        exfalso
        have hsent : (transaction_stream.try_yield peer p st.expectations
            (acc ++ [t]) st.start st.stop).sent = [] := congrArg Prod.fst h
        have := transaction_stream.txn_try_yield_sent_nil peer p st.expectations
          (acc ++ [t]) st.start st.stop hsent
        rw [this] at hterm
        exact Bool.noConfusion hterm
      · rw [if_neg hterm] at h
        have hsent : (transaction_stream.try_yield peer p st.expectations
            (acc ++ [t]) st.start st.stop).sent = [] := by
          have : ((transaction_stream.try_yield peer p st.expectations (acc ++ [t])
              st.start st.stop).sent
              ++ (transaction_stream.runResponses peer
                (transaction_stream.applyYield st
                  (transaction_stream.try_yield peer p st.expectations (acc ++ [t])
                    st.start st.stop))
                (transaction_stream.try_yield peer p st.expectations (acc ++ [t])
                  st.start st.stop).transactions rest).1) = [] := congrArg Prod.fst h
          exact List.append_eq_nil.mp this |>.1
        have hty := transaction_stream.txn_try_yield_sent_nil peer p st.expectations
          (acc ++ [t]) st.start st.stop hsent
        rw [hty] at h
        rw [show transaction_stream.applyYield st
              ⟨false, p, st.expectations, acc ++ [t], st.start, []⟩
            = { st with progress := p } from rfl] at h
        simp only [List.nil_append] at h
        have hrec : transaction_stream.runResponses peer { st with progress := p }
            (acc ++ [t]) rest = ([], st', e) := by
          rcases hr : transaction_stream.runResponses peer { st with progress := p }
            (acc ++ [t]) rest with ⟨o2, s2, e2⟩
          rw [hr] at h
          injection h with h1 h2
          simp only at h1 h2
          rw [h1, h2]
        have := transaction_stream.txn_runResponses_noOutput rest
          { st with progress := p } (acc ++ [t]) peer st' e hrec
        exact ⟨this.1, this.2.1, this.2.2.1,
          this.2.2.2.1.trans hpres.1, this.2.2.2.2.trans hpres.2⟩

lemma transaction_stream.txn_runPeers_countIrrelevant :
    ∀ (rest : List (Attempt transaction_stream.TransactionsResponse))
      (st st' : transaction_stream.TxnState),
      st'.start = st.start → st'.stop = st.stop →
      st'.expectations = st.expectations →
      st'.progress.commitment = st.progress.commitment →
      st'.progress.count_backup = st.progress.count_backup →
      ((transaction_stream.runPeers st' rest).1, (transaction_stream.runPeers st' rest).2.2)
        = ((transaction_stream.runPeers st rest).1,
           (transaction_stream.runPeers st rest).2.2)
  | [], st, st', h1, h2, h3, h4, h5 => rfl
  | a :: rest, st, st', h1, h2, h3, h4, h5 => by
    obtain ⟨s1, s2, s3, ⟨c, m, b⟩⟩ := st
    obtain ⟨t1, t2, t3, ⟨c', m', b'⟩⟩ := st'
    simp only at h1 h2 h3 h4 h5
    subst h1; subst h2; subst h3; subst h4; subst h5
    rcases a with ⟨peer, _ | resps⟩
    · rw [transaction_stream.runPeers, transaction_stream.runPeers]
      exact transaction_stream.txn_runPeers_countIrrelevant rest _ _ rfl rfl rfl rfl rfl
    · rw [transaction_stream.runPeers, transaction_stream.runPeers]
      rfl

/-- A peer attempt that fails mid-block: its response loop (run from the
rolled-back state with a fresh accumulator) ends in `continue 'next_peer`
having yielded nothing. -/
def transaction_stream.failsMidBlock (peer : Nat)
    (R : List transaction_stream.TransactionsResponse)
    (st : transaction_stream.TxnState) : Prop :=
  ∃ st', transaction_stream.runResponses peer
      { st with progress := st.progress.rollback } [] R = ([], st', .nextPeer)

lemma transaction_stream.txn_runPeers_dropFailed (st : transaction_stream.TxnState)
    (peer : Nat) (R : List transaction_stream.TransactionsResponse)
    (rest : List (Attempt transaction_stream.TransactionsResponse))
    (hfail : transaction_stream.failsMidBlock peer R st) :
    ((transaction_stream.runPeers st (⟨peer, some R⟩ :: rest)).1,
     (transaction_stream.runPeers st (⟨peer, some R⟩ :: rest)).2.2)
      = ((transaction_stream.runPeers st rest).1,
         (transaction_stream.runPeers st rest).2.2) := by
  obtain ⟨st', hrun⟩ := hfail
  have hinv := transaction_stream.txn_runResponses_noOutput R
    { st with progress := st.progress.rollback } [] peer st' .nextPeer hrun
  rw [transaction_stream.runPeers]
  simp only [hrun]
  have := transaction_stream.txn_runPeers_countIrrelevant rest st st'
    hinv.1 hinv.2.1 hinv.2.2.1 hinv.2.2.2.1 hinv.2.2.2.2
  rcases hr' : transaction_stream.runPeers st' rest with ⟨o1, s1, b1⟩
  rcases hr : transaction_stream.runPeers st rest with ⟨o2, s2, b2⟩
  rw [hr', hr] at this
  injection this with hA hB
  simp only at hA hB
  simp [hA, hB]

lemma state_diff_stream.sd_handle_response_pres (resp : StateDiffsResponse)
    (sd : StateUpdateData) (pr : state_diff_stream.StateDiffStreamProgress) (l : Bool) :
    (state_diff_stream.handle_response resp sd pr l).2.2.commitment = pr.commitment ∧
    (state_diff_stream.handle_response resp sd pr l).2.2.count_backup = pr.count_backup := by
  cases resp with
  | contractDiff a n ch vs =>
    simp only [state_diff_stream.handle_response]
    rcases h1 : checkedSub pr.count vs.length with _ | x
    · exact ⟨rfl, rfl⟩
    · simp only
      split
      · exact ⟨rfl, rfl⟩
      · cases n with
        | some nv =>
          simp only
          rcases h2 : checkedSub x 1 with _ | y
          · exact ⟨rfl, rfl⟩
          · simp only [state_diff_stream.classStage]
            cases ch with
            | none => exact ⟨rfl, rfl⟩
            | some c =>
              simp only
              rcases h3 : checkedSub y 1 with _ | z <;> exact ⟨rfl, rfl⟩
        | none =>
          simp only [state_diff_stream.classStage]
          cases ch with
          | none => exact ⟨rfl, rfl⟩
          | some c =>
            simp only
            rcases h3 : checkedSub x 1 with _ | z <;> exact ⟨rfl, rfl⟩
  | declaredClass h c =>
    simp only [state_diff_stream.handle_response]
    rcases h1 : checkedSub pr.count 1 with _ | x <;> exact ⟨rfl, rfl⟩
  | fin =>
    simp only [state_diff_stream.handle_response]
    split <;> try split
    all_goals exact ⟨rfl, rfl⟩

lemma state_diff_stream.sd_try_yield_sent_nil (peer : Nat)
    (p : state_diff_stream.StateDiffStreamProgress)
    (exps : List (Option (Nat × Nat))) (sd : StateUpdateData) (start stop : Nat)
    (h : (state_diff_stream.try_yield peer p exps sd start stop).sent = []) :
    state_diff_stream.try_yield peer p exps sd start stop
      = ⟨false, p, exps, sd, start, []⟩ := by
  by_cases h0 : p.count = 0
  · exfalso
    by_cases hlt : start < stop
    · rcases exps with _ | ⟨_ | x, rest⟩ <;>
        simp [state_diff_stream.try_yield, h0, hlt] at h
    · simp [state_diff_stream.try_yield, h0, hlt] at h
  · simp [state_diff_stream.try_yield, h0]

lemma state_diff_stream.sd_runResponses_noOutput :
    ∀ (R : List StateDiffsResponse) (st : state_diff_stream.SdState)
      (sd : StateUpdateData) (peer : Nat) (st' : state_diff_stream.SdState)
      (e : state_diff_stream.AttemptExit),
      state_diff_stream.runResponses peer st sd R = ([], st', e) →
      st'.start = st.start ∧ st'.stop = st.stop ∧
      st'.expectations = st.expectations ∧
      st'.progress.commitment = st.progress.commitment ∧
      st'.progress.count_backup = st.progress.count_backup
  | [], st, sd, peer, st', e => by
    intro h
    rw [state_diff_stream.runResponses] at h
    split at h
    all_goals
      injection h with h1 h2
      injection h2 with h2 h3
      subst h2
      exact ⟨rfl, rfl, rfl, rfl, rfl⟩
  | resp :: rest, st, sd, peer, st', e => by
    intro h
    rw [state_diff_stream.runResponses] at h
    rcases hhr : state_diff_stream.handle_response resp sd st.progress
        (st.start == st.stop) with ⟨a, sd2, p⟩
    have hpres := state_diff_stream.sd_handle_response_pres resp sd st.progress
      (st.start == st.stop)
    rw [hhr] at h hpres
    cases a with
    | nextPeer =>
      simp only at h
      injection h with h1 h2; injection h2 with h2 h3; subst h2
      exact ⟨rfl, rfl, rfl, hpres.1, hpres.2⟩
    | terminateStream =>
      simp only at h
      injection h with h1 h2; injection h2 with h2 h3; subst h2
      exact ⟨rfl, rfl, rfl, hpres.1, hpres.2⟩
    | tryYield =>
      simp only at h
      by_cases hterm : (state_diff_stream.try_yield peer p st.expectations sd2
          st.start st.stop).terminate
      · rw [if_pos hterm] at h
        exfalso
        have hsent : (state_diff_stream.try_yield peer p st.expectations sd2
            st.start st.stop).sent = [] := congrArg Prod.fst h
        have := state_diff_stream.sd_try_yield_sent_nil peer p st.expectations sd2
          st.start st.stop hsent
        rw [this] at hterm
        exact Bool.noConfusion hterm
      · rw [if_neg hterm] at h
        have hsent : (state_diff_stream.try_yield peer p st.expectations sd2
            st.start st.stop).sent = [] := by
          have : ((state_diff_stream.try_yield peer p st.expectations sd2
              st.start st.stop).sent
              ++ (state_diff_stream.runResponses peer
                (state_diff_stream.applyYield st
                  (state_diff_stream.try_yield peer p st.expectations sd2
                    st.start st.stop))
                (state_diff_stream.try_yield peer p st.expectations sd2
                  st.start st.stop).state_diff rest).1) = [] := congrArg Prod.fst h
          exact List.append_eq_nil.mp this |>.1
        have hty := state_diff_stream.sd_try_yield_sent_nil peer p st.expectations sd2
          st.start st.stop hsent
        rw [hty] at h
        rw [show state_diff_stream.applyYield st
              ⟨false, p, st.expectations, sd2, st.start, []⟩
            = { st with progress := p } from rfl] at h
        simp only [List.nil_append] at h
        have hrec : state_diff_stream.runResponses peer { st with progress := p }
            sd2 rest = ([], st', e) := by
          rcases hr : state_diff_stream.runResponses peer { st with progress := p }
            sd2 rest with ⟨o2, s2, e2⟩
          rw [hr] at h
          injection h with h1 h2
          simp only at h1 h2
          rw [h1, h2]
        have := state_diff_stream.sd_runResponses_noOutput rest
          { st with progress := p } sd2 peer st' e hrec
        exact ⟨this.1, this.2.1, this.2.2.1,
          this.2.2.2.1.trans hpres.1, this.2.2.2.2.trans hpres.2⟩

lemma state_diff_stream.sd_runPeers_countIrrelevant :
    ∀ (rest : List (Attempt StateDiffsResponse))
      (st st' : state_diff_stream.SdState),
      st'.start = st.start → st'.stop = st.stop →
      st'.expectations = st.expectations →
      st'.progress.commitment = st.progress.commitment →
      st'.progress.count_backup = st.progress.count_backup →
      ((state_diff_stream.runPeers st' rest).1, (state_diff_stream.runPeers st' rest).2.2)
        = ((state_diff_stream.runPeers st rest).1,
           (state_diff_stream.runPeers st rest).2.2)
  | [], st, st', h1, h2, h3, h4, h5 => rfl
  | a :: rest, st, st', h1, h2, h3, h4, h5 => by
    obtain ⟨s1, s2, s3, ⟨c, m, b⟩⟩ := st
    obtain ⟨t1, t2, t3, ⟨c', m', b'⟩⟩ := st'
    simp only at h1 h2 h3 h4 h5
    subst h1; subst h2; subst h3; subst h4; subst h5
    rcases a with ⟨peer, _ | resps⟩
    · rw [state_diff_stream.runPeers, state_diff_stream.runPeers]
      exact state_diff_stream.sd_runPeers_countIrrelevant rest _ _ rfl rfl rfl rfl rfl
    · rw [state_diff_stream.runPeers, state_diff_stream.runPeers]
      rfl

/-- A state-diff peer attempt that fails mid-block. -/
def state_diff_stream.failsMidBlock (peer : Nat) (R : List StateDiffsResponse)
    (st : state_diff_stream.SdState) : Prop :=
  ∃ st', state_diff_stream.runResponses peer
      { st with progress := st.progress.rollback } .empty R = ([], st', .nextPeer)

lemma state_diff_stream.sd_runPeers_dropFailed (st : state_diff_stream.SdState)
    (peer : Nat) (R : List StateDiffsResponse)
    (rest : List (Attempt StateDiffsResponse))
    (hfail : state_diff_stream.failsMidBlock peer R st) :
    ((state_diff_stream.runPeers st (⟨peer, some R⟩ :: rest)).1,
     (state_diff_stream.runPeers st (⟨peer, some R⟩ :: rest)).2.2)
      = ((state_diff_stream.runPeers st rest).1,
         (state_diff_stream.runPeers st rest).2.2) := by
  obtain ⟨st', hrun⟩ := hfail
  have hinv := state_diff_stream.sd_runResponses_noOutput R
    { st with progress := st.progress.rollback } .empty peer st' .nextPeer hrun
  rw [state_diff_stream.runPeers]
  simp only [hrun]
  have := state_diff_stream.sd_runPeers_countIrrelevant rest st st'
    hinv.1 hinv.2.1 hinv.2.2.1 hinv.2.2.2.1 hinv.2.2.2.2
  rcases hr' : state_diff_stream.runPeers st' rest with ⟨o1, s1, b1⟩
  rcases hr : state_diff_stream.runPeers st rest with ⟨o2, s2, b2⟩
  rw [hr', hr] at this
  injection this with hA hB
  simp only at hA hB
  simp [hA, hB]

lemma event_stream.blockLoop_noOutput (peer stop : Nat)
    (counts : List (Option Nat)) (start : Nat) (progress : BlockProgress)
    (txn : Option Nat) (resps : List event_stream.EventsResponse)
    (s : Nat) (p : BlockProgress) (c : List (Option Nat))
    (h : event_stream.blockLoop peer stop counts start progress txn resps
      = .nextPeer [] s p c) :
    s = start ∧ c = counts ∧ p.count_backup = progress.count_backup := by
  rcases counts with _ | ⟨_ | cnt, counts'⟩
  · rw [event_stream.blockLoop] at h
    rotate_left
    · intro cnt counts' hh
      exact List.noConfusion hh
    split at h
    · rcases hin : event_stream.innerLoop peer progress.count txn [] resps with
        rem | _ | ⟨ev, tx, rs⟩
      · simp only [hin] at h
        injection h with h1 h2 h3 h4
        exact ⟨h2.symm, h4.symm, by rw [← h3]⟩
      · simp only [hin] at h
        exact event_stream.BlockLoopRes.noConfusion h
      · simp only [hin] at h
        split at h <;> exact event_stream.BlockLoopRes.noConfusion h
    · exact event_stream.BlockLoopRes.noConfusion h
  · rw [event_stream.blockLoop] at h
    rotate_left
    · intro cnt counts2 hh
      injection hh with hh1 hh2
      exact Option.noConfusion hh1
    split at h
    · rcases hin : event_stream.innerLoop peer progress.count txn [] resps with
        rem | _ | ⟨ev, tx, rs⟩
      · simp only [hin] at h
        injection h with h1 h2 h3 h4
        exact ⟨h2.symm, h4.symm, by rw [← h3]⟩
      · simp only [hin] at h
        exact event_stream.BlockLoopRes.noConfusion h
      · simp only [hin] at h
        split at h <;> exact event_stream.BlockLoopRes.noConfusion h
    · exact event_stream.BlockLoopRes.noConfusion h
  · rw [event_stream.blockLoop] at h
    split at h
    · rcases hin : event_stream.innerLoop peer progress.count txn [] resps with
        rem | _ | ⟨ev, tx, rs⟩
      · simp only [hin] at h
        injection h with h1 h2 h3 h4
        exact ⟨h2.symm, h4.symm, by rw [← h3]⟩
      · simp only [hin] at h
        exact event_stream.BlockLoopRes.noConfusion h
      · simp only [hin] at h
        split at h
        · exact event_stream.BlockLoopRes.noConfusion h
        · rcases hrec : event_stream.blockLoop peer stop counts' (start + 1)
              (BlockProgress.new cnt) tx rs with ⟨o1, s1, c1⟩ | o1 | ⟨o1, s1, p1, c1⟩ <;>
            simp only [hrec, event_stream.BlockLoopRes.prepend] at h
          · exact event_stream.BlockLoopRes.noConfusion h
          · exact event_stream.BlockLoopRes.noConfusion h
          · injection h with h1 h2 h3 h4
            exact absurd h1 (List.cons_ne_nil _ _)
    · exact event_stream.BlockLoopRes.noConfusion h

lemma event_stream.ev_runPeers_countIrrelevant :
    ∀ (rest : List (Attempt event_stream.EventsResponse))
      (st st' : event_stream.EvState),
      st'.start = st.start → st'.stop = st.stop → st'.counts = st.counts →
      st'.progress.count_backup = st.progress.count_backup →
      ((event_stream.runPeers st' rest).1, (event_stream.runPeers st' rest).2.2)
        = ((event_stream.runPeers st rest).1, (event_stream.runPeers st rest).2.2)
  | [], st, st', h1, h2, h3, h4 => rfl
  | a :: rest, st, st', h1, h2, h3, h4 => by
    obtain ⟨s1, s2, s3, ⟨c, b⟩⟩ := st
    obtain ⟨t1, t2, t3, ⟨c', b'⟩⟩ := st'
    simp only at h1 h2 h3 h4
    subst h1; subst h2; subst h3; subst h4
    rcases a with ⟨peer, _ | resps⟩
    · rw [event_stream.runPeers, event_stream.runPeers]
      exact event_stream.ev_runPeers_countIrrelevant rest _ _ rfl rfl rfl rfl
    · rw [event_stream.runPeers, event_stream.runPeers]
      simp only [BlockProgress.rollback]
      rcases hb : event_stream.blockLoop peer t2 t3 t1 ⟨b', b'⟩ none resps with
        ⟨o, s0, c0⟩ | o | ⟨o, s0, p0, c0⟩ <;> simp [hb]

/-- An event peer attempt that fails mid-block. -/
def event_stream.failsMidBlock (peer : Nat)
    (R : List event_stream.EventsResponse) (st : event_stream.EvState) : Prop :=
  ∃ s p c, event_stream.blockLoop peer st.stop st.counts st.start
      st.progress.rollback none R = .nextPeer [] s p c

lemma event_stream.ev_runPeers_dropFailed (st : event_stream.EvState) (peer : Nat)
    (R : List event_stream.EventsResponse)
    (rest : List (Attempt event_stream.EventsResponse))
    (hfail : event_stream.failsMidBlock peer R st) :
    ((event_stream.runPeers st (⟨peer, some R⟩ :: rest)).1,
     (event_stream.runPeers st (⟨peer, some R⟩ :: rest)).2.2)
      = ((event_stream.runPeers st rest).1, (event_stream.runPeers st rest).2.2) := by
  obtain ⟨s, p, c, hrun⟩ := hfail
  obtain ⟨hs, hc, hb⟩ := event_stream.blockLoop_noOutput peer st.stop st.counts st.start
    st.progress.rollback none R s p c hrun
  rw [event_stream.runPeers]
  simp only [hrun]
  have := event_stream.ev_runPeers_countIrrelevant rest st
    { st with start := s, progress := p, counts := c }
    (by simpa using hs) rfl (by simpa using hc)
    (by simpa [BlockProgress.rollback] using hb)
  rcases hr' : event_stream.runPeers { st with start := s, progress := p, counts := c }
      rest with ⟨o1, s1, b1⟩
  rcases hr : event_stream.runPeers st rest with ⟨o2, s2, b2⟩
  rw [hr', hr] at this
  injection this with hA hB
  simp only at hA hB
  simp [hA, hB]

lemma class_definition_stream.cls_runPeers_countIrrelevant :
    ∀ (rest : List (Attempt class_definition_stream.ClassesResponse))
      (st st' : class_definition_stream.ClsState),
      st'.start = st.start → st'.stop = st.stop → st'.counts = st.counts →
      st'.progress.count_backup = st.progress.count_backup →
      ((class_definition_stream.runPeers st' rest).1,
       (class_definition_stream.runPeers st' rest).2.2)
        = ((class_definition_stream.runPeers st rest).1,
           (class_definition_stream.runPeers st rest).2.2)
  | [], st, st', h1, h2, h3, h4 => rfl
  | a :: rest, st, st', h1, h2, h3, h4 => by
    obtain ⟨s1, s2, s3, ⟨c, b⟩⟩ := st
    obtain ⟨t1, t2, t3, ⟨c', b'⟩⟩ := st'
    simp only at h1 h2 h3 h4
    subst h1; subst h2; subst h3; subst h4
    rcases a with ⟨peer, _ | resps⟩
    · rw [class_definition_stream.runPeers, class_definition_stream.runPeers]
      exact class_definition_stream.cls_runPeers_countIrrelevant rest _ _ rfl rfl rfl rfl
    · rw [class_definition_stream.runPeers, class_definition_stream.runPeers]
      simp only [BlockProgress.rollback]
      rcases hb : class_definition_stream.blockLoop peer t2 t3 t1 ⟨b', b'⟩ resps with
        ⟨o, s0, c0⟩ | ⟨o, s0, p0, c0⟩ <;> simp [hb]

/-- A class peer attempt that fails while serving the current block: the
per-block inner loop ends in `continue 'next_peer` (parse failure, `Fin`,
or channel exhaustion) before the block's class budget is spent. -/
def class_definition_stream.failsMidBlock (peer : Nat)
    (R : List class_definition_stream.ClassesResponse)
    (st : class_definition_stream.ClsState) : Prop :=
  st.start ≤ st.stop ∧
  ∃ rem, class_definition_stream.innerLoop st.start st.progress.rollback.count [] R
      = .nextPeer rem

lemma class_definition_stream.blockLoop_innerFail (peer stop : Nat)
    (counts : List (Option Nat)) (start : Nat) (progress : BlockProgress)
    (R : List class_definition_stream.ClassesResponse) (rem : Nat)
    (hle : start ≤ stop)
    (hin : class_definition_stream.innerLoop start progress.count [] R
      = .nextPeer rem) :
    class_definition_stream.blockLoop peer stop counts start progress R
      = .nextPeer [] start { progress with count := rem } counts := by
  rcases counts with _ | ⟨_ | cnt, counts'⟩
  · rw [class_definition_stream.blockLoop]
    rotate_left
    · intro cnt counts' hh
      exact List.noConfusion hh
    rw [if_pos hle, hin]
  · rw [class_definition_stream.blockLoop]
    rotate_left
    · intro cnt counts2 hh
      injection hh with hh1 hh2
      exact Option.noConfusion hh1
    rw [if_pos hle, hin]
  · rw [class_definition_stream.blockLoop]
    rw [if_pos hle, hin]

lemma class_definition_stream.cls_runPeers_dropFailed
    (st : class_definition_stream.ClsState) (peer : Nat)
    (R : List class_definition_stream.ClassesResponse)
    (rest : List (Attempt class_definition_stream.ClassesResponse))
    (hfail : class_definition_stream.failsMidBlock peer R st) :
    ((class_definition_stream.runPeers st (⟨peer, some R⟩ :: rest)).1,
     (class_definition_stream.runPeers st (⟨peer, some R⟩ :: rest)).2.2)
      = ((class_definition_stream.runPeers st rest).1,
         (class_definition_stream.runPeers st rest).2.2) := by
  obtain ⟨hle, rem, hin⟩ := hfail
  have hrun := class_definition_stream.blockLoop_innerFail peer st.stop st.counts
    st.start st.progress.rollback R rem hle hin
  rw [class_definition_stream.runPeers]
  simp only [hrun]
  have := class_definition_stream.cls_runPeers_countIrrelevant rest st
    { st with progress := { st.progress.rollback with count := rem } }
    rfl rfl rfl (by simp [BlockProgress.rollback])
  rcases hr' : class_definition_stream.runPeers
      { st with progress := { st.progress.rollback with count := rem } } rest
    with ⟨o1, s1, b1⟩
  rcases hr : class_definition_stream.runPeers st rest with ⟨o2, s2, b2⟩
  rw [hr', hr] at this
  injection this with hA hB
  simp only at hA hB
  simp [hA, hB]

lemma header_stream.handle_nextResponse_sent (peer : Nat)
    (r : header_stream.BlockHeadersResponse) (dir : Direction) (s t : Int)
    (h : (header_stream.handle_response peer r dir s t).1 = .nextResponse) :
    (header_stream.handle_response peer r dir s t).2.2 ≠ [] := by
  cases r with
  | header parsed =>
    cases parsed with
    | some hdr =>
      by_cases hd : header_stream.done dir s t <;>
        simp [header_stream.handle_response, hd] at h ⊢
    | none =>
      by_cases hd : header_stream.done dir s t <;>
        simp [header_stream.handle_response, hd] at h ⊢
  | fin =>
    by_cases hd : header_stream.done dir s t <;>
      simp [header_stream.handle_response, hd] at h ⊢

lemma header_stream.handle_nextPeer_cursor (peer : Nat)
    (r : header_stream.BlockHeadersResponse) (dir : Direction) (s t : Int)
    (h : (header_stream.handle_response peer r dir s t).1 = .nextPeer) :
    (header_stream.handle_response peer r dir s t).2.1 = s := by
  cases r with
  | header parsed =>
    cases parsed with
    | some hdr =>
      by_cases hd : header_stream.done dir s t <;>
        simp [header_stream.handle_response, hd] at h ⊢
    | none =>
      by_cases hd : header_stream.done dir s t <;>
        simp [header_stream.handle_response, hd]
  | fin =>
    by_cases hd : header_stream.done dir s t <;>
      simp [header_stream.handle_response, hd]

lemma header_stream.hdr_runResponses_noOutput :
    ∀ (R : List header_stream.BlockHeadersResponse) (dir : Direction)
      (t s : Int) (peer : Nat) (s' : Int),
      header_stream.runResponses peer dir t s R = ([], s', .nextPeer) → s' = s
  | [], dir, t, s, peer, s' => by
    intro h
    rw [header_stream.runResponses] at h
    split at h
    · exact absurd (congrArg (fun x => x.2.2) h) (by simp)
    · injection h with h1 h2
      injection h2 with h2 h3
      exact h2.symm
  | r :: rest, dir, t, s, peer, s' => by
    intro h
    rw [header_stream.runResponses] at h
    rcases hhr : header_stream.handle_response peer r dir s t with ⟨a, s2, outs⟩
    rw [hhr] at h
    cases a with
    | nextResponse =>
      exfalso
      have houts : outs ≠ [] := by
        have := header_stream.handle_nextResponse_sent peer r dir s t (by rw [hhr])
        rw [hhr] at this
        exact this
      simp only at h
      have : (outs ++ (header_stream.runResponses peer dir t s2 rest).1) = [] :=
        congrArg Prod.fst h
      exact houts (List.append_eq_nil.mp this).1
    | nextPeer =>
      simp only at h
      injection h with h1 h2
      injection h2 with h2 h3
      have := header_stream.handle_nextPeer_cursor peer r dir s t (by rw [hhr])
      rw [hhr] at this
      simp only at this
      rw [← h2, this]
    | terminateStream =>
      simp only at h
      injection h with h1 h2
      injection h2 with h2 h3
      exact absurd h3 (by simp)

lemma header_stream.hdr_runPeers_dropFailed (dir : Direction) (t s : Int) (peer : Nat)
    (R : List header_stream.BlockHeadersResponse)
    (rest : List (Attempt header_stream.BlockHeadersResponse))
    (hfail : ∃ s', header_stream.runResponses peer dir t s R = ([], s', .nextPeer)) :
    header_stream.runPeers dir t s (⟨peer, some R⟩ :: rest)
      = header_stream.runPeers dir t s rest := by
  obtain ⟨s', hrun⟩ := hfail
  have hs := header_stream.hdr_runResponses_noOutput R dir t s peer s' hrun
  subst hs
  rw [header_stream.runPeers]
  simp only [hrun]
  simp

/-- C3: in every streamer (transactions, state diffs, events, classes,
headers), a peer attempt that fails mid-block — transport error (`none`
responses are skipped by `runPeers` by definition), parse failure, premature
`Fin`, or channel exhaustion — emits no consumer-visible artifact and retains
nothing: the run with the failed attempt produces exactly the outputs and
final exit of the run without it, because each attempt rolls the progress
counter back and rebuilds the per-block accumulator afresh. -/
theorem claim_C3 :
    (∀ (st : transaction_stream.TxnState) (peer : Nat)
        (R : List transaction_stream.TransactionsResponse)
        (rest : List (Attempt transaction_stream.TransactionsResponse)),
      transaction_stream.failsMidBlock peer R st →
      ((transaction_stream.runPeers st (⟨peer, some R⟩ :: rest)).1,
       (transaction_stream.runPeers st (⟨peer, some R⟩ :: rest)).2.2)
        = ((transaction_stream.runPeers st rest).1,
           (transaction_stream.runPeers st rest).2.2)) ∧
    (∀ (st : state_diff_stream.SdState) (peer : Nat)
        (R : List StateDiffsResponse) (rest : List (Attempt StateDiffsResponse)),
      state_diff_stream.failsMidBlock peer R st →
      ((state_diff_stream.runPeers st (⟨peer, some R⟩ :: rest)).1,
       (state_diff_stream.runPeers st (⟨peer, some R⟩ :: rest)).2.2)
        = ((state_diff_stream.runPeers st rest).1,
           (state_diff_stream.runPeers st rest).2.2)) ∧
    (∀ (st : event_stream.EvState) (peer : Nat)
        (R : List event_stream.EventsResponse)
        (rest : List (Attempt event_stream.EventsResponse)),
      event_stream.failsMidBlock peer R st →
      ((event_stream.runPeers st (⟨peer, some R⟩ :: rest)).1,
       (event_stream.runPeers st (⟨peer, some R⟩ :: rest)).2.2)
        = ((event_stream.runPeers st rest).1,
           (event_stream.runPeers st rest).2.2)) ∧
    (∀ (st : class_definition_stream.ClsState) (peer : Nat)
        (R : List class_definition_stream.ClassesResponse)
        (rest : List (Attempt class_definition_stream.ClassesResponse)),
      class_definition_stream.failsMidBlock peer R st →
      ((class_definition_stream.runPeers st (⟨peer, some R⟩ :: rest)).1,
       (class_definition_stream.runPeers st (⟨peer, some R⟩ :: rest)).2.2)
        = ((class_definition_stream.runPeers st rest).1,
           (class_definition_stream.runPeers st rest).2.2)) ∧
    (∀ (dir : Direction) (t s : Int) (peer : Nat)
        (R : List header_stream.BlockHeadersResponse)
        (rest : List (Attempt header_stream.BlockHeadersResponse)),
      (∃ s', header_stream.runResponses peer dir t s R = ([], s', .nextPeer)) →
      header_stream.runPeers dir t s (⟨peer, some R⟩ :: rest)
        = header_stream.runPeers dir t s rest) :=
  ⟨fun st peer R rest h => transaction_stream.txn_runPeers_dropFailed st peer R rest h,
   fun st peer R rest h => state_diff_stream.sd_runPeers_dropFailed st peer R rest h,
   fun st peer R rest h => event_stream.ev_runPeers_dropFailed st peer R rest h,
   fun st peer R rest h => class_definition_stream.cls_runPeers_dropFailed st peer R rest h,
   fun dir t s peer R rest h => header_stream.hdr_runPeers_dropFailed dir t s peer R rest h⟩

/-- Concrete instance of C3: for each streamer, one failing attempt (parse
failure, premature `Fin`, exhausted channel, or failed header parse) is
dropped without a trace. -/
theorem claim_C3_witness :
    (transaction_stream.failsMidBlock 7 [.transactionWithReceipt none]
        ⟨0, 1, [some (2, 9)], ⟨1, 8, 1⟩⟩ ∧
      ((transaction_stream.runPeers ⟨0, 1, [some (2, 9)], ⟨1, 8, 1⟩⟩
          [⟨7, some [.transactionWithReceipt none]⟩]).1,
       (transaction_stream.runPeers ⟨0, 1, [some (2, 9)], ⟨1, 8, 1⟩⟩
          [⟨7, some [.transactionWithReceipt none]⟩]).2.2)
        = ((transaction_stream.runPeers ⟨0, 1, [some (2, 9)], ⟨1, 8, 1⟩⟩ []).1,
           (transaction_stream.runPeers ⟨0, 1, [some (2, 9)], ⟨1, 8, 1⟩⟩ []).2.2)) ∧
    (state_diff_stream.failsMidBlock 7 [.fin] ⟨0, 1, [some (2, 9)], ⟨1, 8, 1⟩⟩ ∧
      ((state_diff_stream.runPeers ⟨0, 1, [some (2, 9)], ⟨1, 8, 1⟩⟩
          [⟨7, some [.fin]⟩]).1,
       (state_diff_stream.runPeers ⟨0, 1, [some (2, 9)], ⟨1, 8, 1⟩⟩
          [⟨7, some [.fin]⟩]).2.2)
        = ((state_diff_stream.runPeers ⟨0, 1, [some (2, 9)], ⟨1, 8, 1⟩⟩ []).1,
           (state_diff_stream.runPeers ⟨0, 1, [some (2, 9)], ⟨1, 8, 1⟩⟩ []).2.2)) ∧
    (event_stream.failsMidBlock 7 [] ⟨0, 1, [some 1], ⟨1, 1⟩⟩ ∧
      ((event_stream.runPeers ⟨0, 1, [some 1], ⟨1, 1⟩⟩ [⟨7, some []⟩]).1,
       (event_stream.runPeers ⟨0, 1, [some 1], ⟨1, 1⟩⟩ [⟨7, some []⟩]).2.2)
        = ((event_stream.runPeers ⟨0, 1, [some 1], ⟨1, 1⟩⟩ []).1,
           (event_stream.runPeers ⟨0, 1, [some 1], ⟨1, 1⟩⟩ []).2.2)) ∧
    (class_definition_stream.failsMidBlock 7 [.cairo0 none] ⟨0, 1, [some 1], ⟨1, 1⟩⟩ ∧
      ((class_definition_stream.runPeers ⟨0, 1, [some 1], ⟨1, 1⟩⟩
          [⟨7, some [.cairo0 none]⟩]).1,
       (class_definition_stream.runPeers ⟨0, 1, [some 1], ⟨1, 1⟩⟩
          [⟨7, some [.cairo0 none]⟩]).2.2)
        = ((class_definition_stream.runPeers ⟨0, 1, [some 1], ⟨1, 1⟩⟩ []).1,
           (class_definition_stream.runPeers ⟨0, 1, [some 1], ⟨1, 1⟩⟩ []).2.2)) ∧
    ((∃ s', header_stream.runResponses 7 .forward 1 0 [.header none]
        = ([], s', .nextPeer)) ∧
      header_stream.runPeers .forward 1 0 [⟨7, some [.header none]⟩]
        = header_stream.runPeers .forward 1 0 []) := by
  refine ⟨⟨⟨_, rfl⟩, ?_⟩, ⟨⟨_, rfl⟩, ?_⟩, ⟨⟨_, _, _, rfl⟩, ?_⟩,
    ⟨⟨by decide, _, rfl⟩, ?_⟩, ⟨⟨_, rfl⟩, ?_⟩⟩
  · exact claim_C3.1 _ 7 _ [] ⟨_, rfl⟩
  · exact claim_C3.2.1 _ 7 _ [] ⟨_, rfl⟩
  · exact claim_C3.2.2.1 _ 7 _ [] ⟨_, _, _, rfl⟩
  · exact claim_C3.2.2.2.1 _ 7 _ [] ⟨by decide, _, rfl⟩
  · exact claim_C3.2.2.2.2 .forward 1 0 7 _ [] ⟨_, rfl⟩

namespace block_client

lemma sd_contractDiff_step (peer count : Nat) (a : Nat) (n ch : Option Nat)
    (vs : List (Nat × Nat)) (sd : StateUpdateData) (rest : List StateDiffsResponse) :
    (sdCost (.contractDiff a n ch vs) ≤ count →
      ∃ sd', sdForBlockLoop peer count sd (.contractDiff a n ch vs :: rest)
        = sdForBlockLoop peer (count - sdCost (.contractDiff a n ch vs)) sd' rest) ∧
    (count < sdCost (.contractDiff a n ch vs) →
      sdForBlockLoop peer count sd (.contractDiff a n ch vs :: rest)
        = .incorrectStateDiffCount peer) := by
  by_cases ha : a = systemAddress
  · simp only [sdCost, ha, if_true]
    constructor
    · intro hk
      refine ⟨sdSysStorage sd a vs, ?_⟩
      have hv : vs.length ≤ count := by omega
      simp [sdForBlockLoop, checkedSub, hv, ha]
    · intro hk
      have hv : ¬ vs.length ≤ count := by omega
      simp [sdForBlockLoop, checkedSub, hv]
  · rcases n with _ | nv <;> rcases ch with _ | chv
    all_goals simp only [sdCost, ha, if_false]
    · -- no nonce, no class: cost = vs.length
      constructor
      · intro hk
        have hv : vs.length ≤ count := by omega
        refine ⟨sdStorage sd a vs, ?_⟩
        simp [sdForBlockLoop, sdfbClassStage, checkedSub, hv, ha]
      · intro hk
        have hv : ¬ vs.length ≤ count := by omega
        simp [sdForBlockLoop, checkedSub, hv]
    · -- class only: cost = vs.length + 1
      constructor
      · intro hk
        have hv : vs.length ≤ count := by omega
        have h1 : 1 ≤ count - vs.length := by omega
        refine ⟨sdDeploy (sdStorage sd a vs) a chv, ?_⟩
        have hc : count - vs.length - 1 = count - (vs.length + (0 + 1)) := by omega
        simp [sdForBlockLoop, sdfbClassStage, checkedSub, hv, ha, h1, hc]
      · intro hk
        by_cases hv : vs.length ≤ count
        · have h1 : ¬ 1 ≤ count - vs.length := by omega
          simp [sdForBlockLoop, sdfbClassStage, checkedSub, hv, ha, h1]
        · simp [sdForBlockLoop, checkedSub, hv]
    · -- nonce only: cost = vs.length + 1
      constructor
      · intro hk
        have hv : vs.length ≤ count := by omega
        have h1 : 1 ≤ count - vs.length := by omega
        refine ⟨sdNonce (sdStorage sd a vs) a nv, ?_⟩
        have hc : count - vs.length - 1 = count - (vs.length + (1 + 0)) := by omega
        simp [sdForBlockLoop, sdfbClassStage, checkedSub, hv, ha, h1, hc]
      · intro hk
        by_cases hv : vs.length ≤ count
        · have h1 : ¬ 1 ≤ count - vs.length := by omega
          simp [sdForBlockLoop, sdfbClassStage, checkedSub, hv, ha, h1]
        · simp [sdForBlockLoop, checkedSub, hv]
    · -- nonce and class: cost = vs.length + 2
      constructor
      · intro hk
        have hv : vs.length ≤ count := by omega
        have h1 : 1 ≤ count - vs.length := by omega
        have h2 : 1 ≤ count - vs.length - 1 := by omega
        refine ⟨sdDeploy (sdNonce (sdStorage sd a vs) a nv) a chv, ?_⟩
        have hc : count - vs.length - 1 - 1 = count - (vs.length + (1 + 1)) := by omega
        simp [sdForBlockLoop, sdfbClassStage, checkedSub, hv, ha, h1, h2, hc]
      · intro hk
        by_cases hv : vs.length ≤ count
        · by_cases h1 : 1 ≤ count - vs.length
          · have h2 : ¬ 1 ≤ count - vs.length - 1 := by omega
            simp [sdForBlockLoop, sdfbClassStage, checkedSub, hv, ha, h1, h2]
          · simp [sdForBlockLoop, sdfbClassStage, checkedSub, hv, ha, h1]
        · simp [sdForBlockLoop, checkedSub, hv]

lemma sdCostSum_cons (r : StateDiffsResponse) (R : List StateDiffsResponse)
    (h : isFinSd r = false) :
    sdCostSum (r :: R) = sdCost r + sdCostSum R := by
  simp [sdCostSum, sdItems, List.takeWhile_cons, h]

lemma hasFinSd_cons (r : StateDiffsResponse) (R : List StateDiffsResponse)
    (h : isFinSd r = false) :
    hasFinSd (r :: R) = hasFinSd R := by
  simp [hasFinSd, h]

lemma sdCostSum_fin (R : List StateDiffsResponse) : sdCostSum (.fin :: R) = 0 := by
  simp [sdCostSum, sdItems, isFinSd, List.takeWhile_cons]

lemma hasFinSd_fin (R : List StateDiffsResponse) : hasFinSd (.fin :: R) = true := by
  simp [hasFinSd, isFinSd]

lemma sdForBlockLoop_spec (peer : Nat) :
    ∀ (R : List StateDiffsResponse) (count : Nat) (sd : StateUpdateData),
      (count < sdCostSum R ∨ (hasFinSd R = true ∧ sdCostSum R ≠ count) →
        sdForBlockLoop peer count sd R = .incorrectStateDiffCount peer) ∧
      (hasFinSd R = true ∧ sdCostSum R = count →
        ∃ sd', sdForBlockLoop peer count sd R = .okSome peer sd') ∧
      (hasFinSd R = false ∧ sdCostSum R ≤ count →
        sdForBlockLoop peer count sd R = .streamExhausted)
  | [], count, sd => by
    refine ⟨?_, ?_, ?_⟩
    · intro h
      exfalso
      rcases h with h | ⟨hF, _⟩
      · simp [sdCostSum, sdItems] at h
      · simp [hasFinSd] at hF
    · rintro ⟨hF, _⟩
      simp [hasFinSd] at hF
    · intro h
      rfl
  | .fin :: rest, count, sd => by
    refine ⟨?_, ?_, ?_⟩
    · intro h
      rw [sdCostSum_fin] at h
      have hc : count ≠ 0 := by
        rcases h with h | ⟨_, h⟩
        · omega
        · omega
      simp [sdForBlockLoop, hc]
    · rintro ⟨_, hS⟩
      rw [sdCostSum_fin] at hS
      refine ⟨sd, ?_⟩
      simp [sdForBlockLoop, Eq.symm hS]
    · rintro ⟨hF, _⟩
      rw [hasFinSd_fin] at hF
      exact Bool.noConfusion hF
  | .declaredClass chh cch :: rest, count, sd => by
    have hstep : 1 ≤ count →
        sdForBlockLoop peer count sd (.declaredClass chh cch :: rest)
          = sdForBlockLoop peer (count - 1) (sdDeclared sd chh cch) rest := by
      intro hh
      simp [sdForBlockLoop, checkedSub, hh]
    rw [sdCostSum_cons (.declaredClass chh cch) rest rfl,
      hasFinSd_cons (.declaredClass chh cch) rest rfl]
    simp only [sdCost]
    refine ⟨?_, ?_, ?_⟩
    · intro h
      by_cases h1 : 1 ≤ count
      · rw [hstep h1]
        apply (sdForBlockLoop_spec peer rest (count - 1) (sdDeclared sd chh cch)).1
        rcases hF : hasFinSd rest <;> simp [hF] at h ⊢ <;> omega
      · have h1' : ¬ 1 ≤ count := h1
        simp [sdForBlockLoop, checkedSub, h1']
    · rintro ⟨hF, hS⟩
      have h1 : 1 ≤ count := by omega
      rw [hstep h1]
      exact (sdForBlockLoop_spec peer rest (count - 1) (sdDeclared sd chh cch)).2.1
        ⟨hF, by omega⟩
    · rintro ⟨hF, hS⟩
      have h1 : 1 ≤ count := by omega
      rw [hstep h1]
      exact (sdForBlockLoop_spec peer rest (count - 1) (sdDeclared sd chh cch)).2.2
        ⟨hF, by omega⟩
  | .contractDiff a n ch vs :: rest, count, sd => by
    have hstep := sd_contractDiff_step peer count a n ch vs sd rest
    rw [sdCostSum_cons (.contractDiff a n ch vs) rest rfl,
      hasFinSd_cons (.contractDiff a n ch vs) rest rfl]
    refine ⟨?_, ?_, ?_⟩
    · intro h
      by_cases hle : sdCost (.contractDiff a n ch vs) ≤ count
      · obtain ⟨sd', hs⟩ := hstep.1 hle
        rw [hs]
        apply (sdForBlockLoop_spec peer rest
          (count - sdCost (.contractDiff a n ch vs)) sd').1
        rcases hF : hasFinSd rest <;> simp [hF] at h ⊢ <;> omega
      · exact hstep.2 (by omega)
    · rintro ⟨hF, hS⟩
      have hle : sdCost (.contractDiff a n ch vs) ≤ count := by omega
      obtain ⟨sd', hs⟩ := hstep.1 hle
      rw [hs]
      exact (sdForBlockLoop_spec peer rest
        (count - sdCost (.contractDiff a n ch vs)) sd').2.1 ⟨hF, by omega⟩
    · rintro ⟨hF, hS⟩
      have hle : sdCost (.contractDiff a n ch vs) ≤ count := by omega
      obtain ⟨sd', hs⟩ := hstep.1 hle
      rw [hs]
      exact (sdForBlockLoop_spec peer rest
        (count - sdCost (.contractDiff a n ch vs)) sd').2.2 ⟨hF, by omega⟩

lemma clsItems_cons (r : class_definition_stream.ClassesResponse)
    (R : List class_definition_stream.ClassesResponse) (h : isFinCls r = false) :
    clsItems (r :: R) = r :: clsItems R := by
  simp [clsItems, List.takeWhile_cons, h]

lemma clsItems_fin (R : List class_definition_stream.ClassesResponse) :
    clsItems (.fin :: R) = [] := by
  simp [clsItems, isFinCls, List.takeWhile_cons]

lemma classesForBlockLoop_spec (peer block : Nat) :
    ∀ (R : List class_definition_stream.ClassesResponse) (count : Nat)
      (defs : List class_definition_stream.ClassDefinition),
      (∀ r ∈ clsItems R, clsParsed r = true) →
      ((clsItems R).length ≠ count →
        classesForBlockLoop peer block count defs R
          = .incorrectClassDefinitionCount peer) ∧
      ((clsItems R).length = count →
        ∃ ds, classesForBlockLoop peer block count defs R = .okSome peer ds)
  | [], count, defs, _ => by
    constructor
    · intro h
      have hc : count ≠ 0 := by simp [clsItems] at h; omega
      simp [classesForBlockLoop, hc]
    · intro h
      have hc : count = 0 := by simp [clsItems] at h; omega
      exact ⟨defs, by simp [classesForBlockLoop, hc]⟩
  | .fin :: rest, count, defs, _ => by
    constructor
    · intro h
      have hc : count ≠ 0 := by rw [clsItems_fin] at h; simpa using Ne.symm h
      simp [classesForBlockLoop, hc]
    · intro h
      have hc : count = 0 := by rw [clsItems_fin] at h; simpa using Eq.symm h
      exact ⟨defs, by simp [classesForBlockLoop, hc]⟩
  | .cairo0 parsed :: rest, count, defs, hp => by
    rcases parsed with _ | d
    · exfalso
      have := hp (.cairo0 none)
        (by rw [clsItems_cons (.cairo0 none) rest rfl]; exact List.mem_cons_self _ _)
      simp [clsParsed] at this
    · rw [clsItems_cons (.cairo0 (some d)) rest rfl]
      have hp' : ∀ r ∈ clsItems rest, clsParsed r = true := by
        intro r hr
        refine hp r ?_
        rw [clsItems_cons (.cairo0 (some d)) rest rfl]
        exact List.mem_cons_of_mem _ hr
      by_cases h1 : 1 ≤ count
      · have hstep : classesForBlockLoop peer block count defs (.cairo0 (some d) :: rest)
            = classesForBlockLoop peer block (count - 1) (defs ++ [.cairo block d]) rest := by
          simp [classesForBlockLoop, checkedSub, h1]
        rw [hstep]
        obtain ⟨ih1, ih2⟩ := classesForBlockLoop_spec peer block rest (count - 1)
          (defs ++ [.cairo block d]) hp'
        constructor
        · intro h
          exact ih1 (by simp only [List.length_cons] at h; omega)
        · intro h
          exact ih2 (by simp only [List.length_cons] at h; omega)
      · constructor
        · intro h
          simp [classesForBlockLoop, checkedSub, h1]
        · intro h
          exfalso
          simp only [List.length_cons] at h
          omega
  | .cairo1 parsed :: rest, count, defs, hp => by
    rcases parsed with _ | d
    · exfalso
      have := hp (.cairo1 none)
        (by rw [clsItems_cons (.cairo1 none) rest rfl]; exact List.mem_cons_self _ _)
      simp [clsParsed] at this
    · rw [clsItems_cons (.cairo1 (some d)) rest rfl]
      have hp' : ∀ r ∈ clsItems rest, clsParsed r = true := by
        intro r hr
        refine hp r ?_
        rw [clsItems_cons (.cairo1 (some d)) rest rfl]
        exact List.mem_cons_of_mem _ hr
      by_cases h1 : 1 ≤ count
      · have hstep : classesForBlockLoop peer block count defs (.cairo1 (some d) :: rest)
            = classesForBlockLoop peer block (count - 1) (defs ++ [.sierra block d]) rest := by
          simp [classesForBlockLoop, checkedSub, h1]
        rw [hstep]
        obtain ⟨ih1, ih2⟩ := classesForBlockLoop_spec peer block rest (count - 1)
          (defs ++ [.sierra block d]) hp'
        constructor
        · intro h
          exact ih1 (by simp only [List.length_cons] at h; omega)
        · intro h
          exact ih2 (by simp only [List.length_cons] at h; omega)
      · constructor
        · intro h
          simp [classesForBlockLoop, checkedSub, h1]
        · intro h
          exfalso
          simp only [List.length_cons] at h
          omega

lemma classesForBlockLoop_cairoErr (peer block : Nat) :
    ∀ (pre : List class_definition_stream.ClassesResponse) (count : Nat)
      (defs : List class_definition_stream.ClassDefinition)
      (rest : List class_definition_stream.ClassesResponse),
      (∀ r ∈ pre, clsGood r = true) → pre.length ≤ count →
      classesForBlockLoop peer block count defs (pre ++ .cairo0 none :: rest)
        = .cairoDefinitionError peer
  | [], count, defs, rest, _, _ => by
    simp [classesForBlockLoop]
  | r :: pre', count, defs, rest, hg, hl => by
    have hr := hg r (List.mem_cons_self _ _)
    have hg' : ∀ x ∈ pre', clsGood x = true := fun x hx => hg x (List.mem_cons_of_mem _ hx)
    have h1 : 1 ≤ count := by simp only [List.length_cons] at hl; omega
    have hl' : pre'.length ≤ count - 1 := by simp only [List.length_cons] at hl; omega
    rcases r with p | p | _
    · rcases p with _ | d
      · simp [clsGood] at hr
      · have : classesForBlockLoop peer block count defs
            ((.cairo0 (some d) :: pre') ++ .cairo0 none :: rest)
            = classesForBlockLoop peer block (count - 1) (defs ++ [.cairo block d])
                (pre' ++ .cairo0 none :: rest) := by
          simp [classesForBlockLoop, checkedSub, h1]
        rw [this]
        exact classesForBlockLoop_cairoErr peer block pre' (count - 1) _ rest hg' hl'
    · rcases p with _ | d
      · simp [clsGood] at hr
      · have : classesForBlockLoop peer block count defs
            ((.cairo1 (some d) :: pre') ++ .cairo0 none :: rest)
            = classesForBlockLoop peer block (count - 1) (defs ++ [.sierra block d])
                (pre' ++ .cairo0 none :: rest) := by
          simp [classesForBlockLoop, checkedSub, h1]
        rw [this]
        exact classesForBlockLoop_cairoErr peer block pre' (count - 1) _ rest hg' hl'
    · simp [clsGood] at hr

lemma classesForBlockLoop_sierraErr (peer block : Nat) :
    ∀ (pre : List class_definition_stream.ClassesResponse) (count : Nat)
      (defs : List class_definition_stream.ClassDefinition)
      (rest : List class_definition_stream.ClassesResponse),
      (∀ r ∈ pre, clsGood r = true) → pre.length ≤ count →
      classesForBlockLoop peer block count defs (pre ++ .cairo1 none :: rest)
        = .sierraDefinitionError peer
  | [], count, defs, rest, _, _ => by
    simp [classesForBlockLoop]
  | r :: pre', count, defs, rest, hg, hl => by
    have hr := hg r (List.mem_cons_self _ _)
    have hg' : ∀ x ∈ pre', clsGood x = true := fun x hx => hg x (List.mem_cons_of_mem _ hx)
    have h1 : 1 ≤ count := by simp only [List.length_cons] at hl; omega
    have hl' : pre'.length ≤ count - 1 := by simp only [List.length_cons] at hl; omega
    rcases r with p | p | _
    · rcases p with _ | d
      · simp [clsGood] at hr
      · have : classesForBlockLoop peer block count defs
            ((.cairo0 (some d) :: pre') ++ .cairo1 none :: rest)
            = classesForBlockLoop peer block (count - 1) (defs ++ [.cairo block d])
                (pre' ++ .cairo1 none :: rest) := by
          simp [classesForBlockLoop, checkedSub, h1]
        rw [this]
        exact classesForBlockLoop_sierraErr peer block pre' (count - 1) _ rest hg' hl'
    · rcases p with _ | d
      · simp [clsGood] at hr
      · have : classesForBlockLoop peer block count defs
            ((.cairo1 (some d) :: pre') ++ .cairo1 none :: rest)
            = classesForBlockLoop peer block (count - 1) (defs ++ [.sierra block d])
                (pre' ++ .cairo1 none :: rest) := by
          simp [classesForBlockLoop, checkedSub, h1]
        rw [this]
        exact classesForBlockLoop_sierraErr peer block pre' (count - 1) _ rest hg' hl'
    · simp [clsGood] at hr

end block_client

/-- C8: the single-block variants enforce the caller-supplied expectation
with typed errors naming the peer.  `state_diff_for_block` errs exactly when
a decrement would underflow (the items before `Fin` cost more than
`state_diff_length`) or `Fin` arrives with a nonzero remainder, and returns
`Ok(Some((peer, sd)))` exactly when `Fin` arrives with the count exhausted;
`class_definitions_for_block` (with every served definition parsing) errs
with `IncorrectClassDefinitionCount` exactly when the number of definitions
before `Fin` differs from `declared_classes_count`, and a parse failure
after well-formed, in-budget definitions yields `CairoDefinitionError` or
`SierraDefinitionError` naming the peer. -/
theorem claim_C8 :
    (∀ (p count : Nat) (R : List StateDiffsResponse),
      (block_client.state_diff_for_block count [⟨p, some R⟩] = .err p ↔
        count < block_client.sdCostSum R ∨
          (block_client.hasFinSd R = true ∧ block_client.sdCostSum R ≠ count)) ∧
      ((∃ sd, block_client.state_diff_for_block count [⟨p, some R⟩] = .okSome p sd) ↔
        block_client.hasFinSd R = true ∧ block_client.sdCostSum R = count)) ∧
    (∀ (p block count : Nat) (R : List class_definition_stream.ClassesResponse),
      (∀ r ∈ block_client.clsItems R, block_client.clsParsed r = true) →
      ((block_client.class_definitions_for_block block count [⟨p, some R⟩]
          = .errCount p ↔ (block_client.clsItems R).length ≠ count) ∧
       ((∃ ds, block_client.class_definitions_for_block block count [⟨p, some R⟩]
          = .okSome p ds) ↔ (block_client.clsItems R).length = count))) ∧
    (∀ (p block count : Nat) (pre rest : List class_definition_stream.ClassesResponse),
      (∀ r ∈ pre, block_client.clsGood r = true) → pre.length ≤ count →
      block_client.class_definitions_for_block block count
        [⟨p, some (pre ++ .cairo0 none :: rest)⟩] = .errCairo p) ∧
    (∀ (p block count : Nat) (pre rest : List class_definition_stream.ClassesResponse),
      (∀ r ∈ pre, block_client.clsGood r = true) → pre.length ≤ count →
      block_client.class_definitions_for_block block count
        [⟨p, some (pre ++ .cairo1 none :: rest)⟩] = .errSierra p) := by
  refine ⟨?_, ?_, ?_, ?_⟩
  · intro p count R
    have hspec := block_client.sdForBlockLoop_spec p R count .empty
    constructor
    · constructor
      · intro h
        by_cases hF : block_client.hasFinSd R = true
        · by_cases hS : block_client.sdCostSum R = count
          · obtain ⟨sd', hok⟩ := hspec.2.1 ⟨hF, hS⟩
            simp [block_client.state_diff_for_block, hok] at h
          · exact Or.inr ⟨hF, hS⟩
        · have hF' : block_client.hasFinSd R = false := by simpa using hF
          by_cases hle : block_client.sdCostSum R ≤ count
          · have hx := hspec.2.2 ⟨hF', hle⟩
            simp [block_client.state_diff_for_block, hx] at h
          · exact Or.inl (by omega)
      · intro h
        have hx := hspec.1 h
        simp [block_client.state_diff_for_block, hx]
    · constructor
      · rintro ⟨sdv, h⟩
        by_cases hF : block_client.hasFinSd R = true
        · refine ⟨hF, ?_⟩
          by_contra hS
          have hx := hspec.1 (Or.inr ⟨hF, hS⟩)
          simp [block_client.state_diff_for_block, hx] at h
        · exfalso
          have hF' : block_client.hasFinSd R = false := by simpa using hF
          by_cases hle : block_client.sdCostSum R ≤ count
          · have hx := hspec.2.2 ⟨hF', hle⟩
            simp [block_client.state_diff_for_block, hx] at h
          · have hx := hspec.1 (Or.inl (by omega))
            simp [block_client.state_diff_for_block, hx] at h
      · rintro ⟨hF, hS⟩
        obtain ⟨sd', hok⟩ := hspec.2.1 ⟨hF, hS⟩
        exact ⟨sd', by simp [block_client.state_diff_for_block, hok]⟩
  · intro p block count R hparse
    have hspec := block_client.classesForBlockLoop_spec p block R count [] hparse
    constructor
    · constructor
      · intro h
        by_contra hne
        obtain ⟨ds, hok⟩ := hspec.2 hne
        simp [block_client.class_definitions_for_block, hok] at h
      · intro h
        have hx := hspec.1 h
        simp [block_client.class_definitions_for_block, hx]
    · constructor
      · rintro ⟨ds, h⟩
        by_contra hne
        have hx := hspec.1 hne
        simp [block_client.class_definitions_for_block, hx] at h
      · intro h
        obtain ⟨ds, hok⟩ := hspec.2 h
        exact ⟨ds, by simp [block_client.class_definitions_for_block, hok]⟩
  · intro p block count pre rest hg hl
    have hx := block_client.classesForBlockLoop_cairoErr p block pre count [] rest hg hl
    simp [block_client.class_definitions_for_block, hx]
  · intro p block count pre rest hg hl
    have hx := block_client.classesForBlockLoop_sierraErr p block pre count [] rest hg hl
    simp [block_client.class_definitions_for_block, hx]

/-- Concrete instance of C8: a peer serving two storage values then `Fin`
against `state_diff_length = 2` satisfies both characterizations; one parsed
Cairo-zero class then `Fin` against a count of 1; a parse failure after one
good definition yields the Cairo typed error, after a good Cairo-zero
definition the Sierra typed error. -/
theorem claim_C8_witness :
    ((block_client.state_diff_for_block 2
        [⟨7, some [.contractDiff 5 none none [(1, 2), (3, 4)], .fin]⟩] = .err 7 ↔
      2 < block_client.sdCostSum [.contractDiff 5 none none [(1, 2), (3, 4)], .fin] ∨
        (block_client.hasFinSd [.contractDiff 5 none none [(1, 2), (3, 4)], .fin]
            = true ∧
          block_client.sdCostSum [.contractDiff 5 none none [(1, 2), (3, 4)], .fin]
            ≠ 2)) ∧
     ((∃ sd, block_client.state_diff_for_block 2
        [⟨7, some [.contractDiff 5 none none [(1, 2), (3, 4)], .fin]⟩] = .okSome 7 sd) ↔
      block_client.hasFinSd [.contractDiff 5 none none [(1, 2), (3, 4)], .fin] = true ∧
        block_client.sdCostSum [.contractDiff 5 none none [(1, 2), (3, 4)], .fin] = 2)) ∧
    ((∀ r ∈ block_client.clsItems [.cairo0 (some 5), .fin],
        block_client.clsParsed r = true) ∧
     ((block_client.class_definitions_for_block 3 1 [⟨7, some [.cairo0 (some 5), .fin]⟩]
          = .errCount 7 ↔
        (block_client.clsItems [.cairo0 (some 5), .fin]).length ≠ 1) ∧
      ((∃ ds, block_client.class_definitions_for_block 3 1
          [⟨7, some [.cairo0 (some 5), .fin]⟩] = .okSome 7 ds) ↔
        (block_client.clsItems [.cairo0 (some 5), .fin]).length = 1))) ∧
    ((∀ r ∈ [class_definition_stream.ClassesResponse.cairo1 (some 4)],
        block_client.clsGood r = true) ∧
      ([class_definition_stream.ClassesResponse.cairo1 (some 4)].length ≤ 2) ∧
      block_client.class_definitions_for_block 3 2
        [⟨7, some ([.cairo1 (some 4)] ++ .cairo0 none :: [])⟩] = .errCairo 7) ∧
    ((∀ r ∈ [class_definition_stream.ClassesResponse.cairo0 (some 4)],
        block_client.clsGood r = true) ∧
      ([class_definition_stream.ClassesResponse.cairo0 (some 4)].length ≤ 1) ∧
      block_client.class_definitions_for_block 3 1
        [⟨7, some ([.cairo0 (some 4)] ++ .cairo1 none :: [])⟩] = .errSierra 7) :=
  ⟨claim_C8.1 7 2 [.contractDiff 5 none none [(1, 2), (3, 4)], .fin],
   ⟨by decide, claim_C8.2.1 7 3 1 [.cairo0 (some 5), .fin] (by decide)⟩,
   ⟨by decide, by decide,
     claim_C8.2.2.1 7 3 2 [.cairo1 (some 4)] [] (by decide) (by decide)⟩,
   ⟨by decide, by decide,
     claim_C8.2.2.2 7 3 1 [.cairo0 (some 4)] [] (by decide) (by decide)⟩⟩

end PeerAgnostic
